import Mathlib

/-! Verification of the SSUM-STAR structural codecs (Cases 01, 02 and 04),
their anchor indices and their seek-replay engines, against the repository's
Python sources under `scripts/`.

Modelling conventions: a byte buffer is a `List Nat` (well formed when every
entry is below 256), Python's unbounded signed integers are `Int`, byte
positions are `Nat`, and a raised `ValueError` / `SystemExit` is an
`Except.error`.  Python's arbitrary-precision bitwise operators on possibly
negative integers are modelled with `Int.xor`, `Int.land`, `Int.lor` and the
arithmetic shifts `<<<` / `>>>` on `Int`. -/

namespace STAR

/-- Error kinds for the decoders and engines.  The Python sources raise
`ValueError` or `SystemExit` with distinct messages; we keep one constructor
per message family. -/
inductive Err where
  | badMagic
  | truncatedVarint
  | overlongVarint
  | truncatedBody
  | badTag
  | badIndexMagic
  | badIndexVersion
  | indexMismatch
  | badCols
  | tooSmall
  | eofString
  | badDictCode
  | bindingMismatch
  | usage
  | emptyAnchors
  deriving DecidableEq, Repr

instance {ε α : Type} [DecidableEq ε] [DecidableEq α] : DecidableEq (Except ε α) := fun x y =>
  match x, y with
  | .ok a, .ok b => decidable_of_iff (a = b) (by simp)
  | .error a, .error b => decidable_of_iff (a = b) (by simp)
  | .ok _, .error _ => isFalse (by simp)
  | .error _, .ok _ => isFalse (by simp)

/-! ### Byte algebra

Small facts about `&&&`, `|||` and shifts on `Nat` used to reason about
LEB128 bytes. -/

theorem lor_shiftLeft_eq_add {a : Nat} (x s : Nat) (h : a < 2 ^ s) :
    a ||| x <<< s = 2 ^ s * x + a := by
  apply Nat.eq_of_testBit_eq
  intro j
  rw [Nat.testBit_or, Nat.testBit_shiftLeft, Nat.testBit_mul_pow_two_add x h j]
  by_cases hj : j < s
  · have hs : ¬ s ≤ j := by omega
    simp [hj, hs]
  · have hs : s ≤ j := by omega
    have ha : a.testBit j = false :=
      Nat.testBit_lt_two_pow (lt_of_lt_of_le h (Nat.pow_le_pow_right (by norm_num) hs))
    simp [hj, hs, ha]

theorem and127_eq_mod (x : Nat) : x &&& 127 = x % 128 := by
  have h : (127 : Nat) = 2 ^ 7 - 1 := by norm_num
  rw [h, Nat.and_pow_two_sub_one_eq_mod]

theorem and128_eq_zero {x : Nat} (h : x < 128) : x &&& 128 = 0 := by
  apply Nat.eq_of_testBit_eq
  intro j
  rw [Nat.testBit_and]
  by_cases hj : j = 7
  · subst hj
    have hx : x < 2 ^ 7 := by
      have h2 : (2 : Nat) ^ 7 = 128 := by norm_num
      omega
    have : x.testBit 7 = false := Nat.testBit_lt_two_pow hx
    simp [this]
  · have : (128 : Nat) = 2 ^ 7 := by norm_num
    rw [this, Nat.testBit_two_pow_of_ne (fun hc => hj hc.symm)]
    simp

theorem or128_and128 (x : Nat) : (x ||| 128) &&& 128 = 128 := by
  apply Nat.eq_of_testBit_eq
  intro j
  rw [Nat.testBit_and, Nat.testBit_or]
  by_cases hj : j = 7
  · subst hj
    have ht : Nat.testBit 128 7 = true := by decide
    simp [ht]
  · have hf : Nat.testBit 128 j = false := by
      have : (128 : Nat) = 2 ^ 7 := by norm_num
      rw [this, Nat.testBit_two_pow_of_ne (fun hc => hj hc.symm)]
    simp [hf]

theorem or128_and127 (x : Nat) : (x ||| 128) &&& 127 = x &&& 127 := by
  apply Nat.eq_of_testBit_eq
  intro j
  rw [Nat.testBit_and, Nat.testBit_and, Nat.testBit_or]
  by_cases hj : j = 7
  · subst hj
    have h127 : Nat.testBit 127 7 = false := by decide
    simp [h127]
  · have hf : Nat.testBit 128 j = false := by
      have : (128 : Nat) = 2 ^ 7 := by norm_num
      rw [this, Nat.testBit_two_pow_of_ne (fun hc => hj hc.symm)]
    simp [hf]

theorem and127_idem (x : Nat) : x &&& 127 &&& 127 = x &&& 127 := by
  rw [Nat.and_assoc, Nat.and_self]

theorem or128_lt {x : Nat} (h : x < 128) : x ||| 128 < 256 :=
  Nat.or_lt_two_pow (n := 8) (by omega) (by norm_num)

/-! ### Varint (unsigned LEB128)

`varint_encode` is defined identically in `star_case01_spx_replay.py`,
`star_case02_airquality_replay.py` (and as `write_uvarint` /
`uvarint_encode` in the case-03/04 modules); it is modelled on `Nat`
(claim C10 treats the negative-input behaviour with a fuelled variant). -/

/-- One encoder-loop iteration: emit the low seven bits, set the continuation
bit when the remaining value is nonzero. -/
def varint_encode (u : Nat) : List Nat :=
  if h : u >>> 7 = 0 then [u &&& 127]
  else (u &&& 127 ||| 128) :: varint_encode (u >>> 7)
termination_by u
decreasing_by
  have hu : u ≠ 0 := by
    intro h0
    exact h (by simp [h0])
  rw [Nat.shiftRight_eq_div_pow]
  exact Nat.div_lt_self (Nat.pos_of_ne_zero hu) (by norm_num)

theorem varint_encode_ne_nil (u : Nat) : varint_encode u ≠ [] := by
  rw [varint_encode]
  by_cases h : u >>> 7 = 0 <;> simp [h]

theorem varint_encode_length_pos (u : Nat) : 1 ≤ (varint_encode u).length :=
  List.length_pos.mpr (varint_encode_ne_nil u)

theorem varint_encode_byte_lt (u : Nat) : ∀ b ∈ varint_encode u, b < 256 := by
  induction u using varint_encode.induct with
  | case1 u h =>
    intro b hb
    rw [varint_encode, dif_pos h] at hb
    simp only [List.mem_singleton] at hb
    subst hb
    have := and127_eq_mod u
    omega
  | case2 u h ih =>
    intro b hb
    rw [varint_encode, dif_neg h] at hb
    rcases List.mem_cons.mp hb with hb | hb
    · subst hb
      exact or128_lt (by have := and127_eq_mod u; omega)
    · exact ih b hb

theorem varint_encode_length_le : ∀ (k u : Nat), u < 2 ^ (7 * (k + 1)) →
    (varint_encode u).length ≤ k + 1 := by
  intro k
  induction k with
  | zero =>
    intro u hu
    have h7 : u >>> 7 = 0 := by
      rw [Nat.shiftRight_eq_div_pow]
      exact Nat.div_eq_of_lt (by norm_num at hu ⊢; omega)
    rw [varint_encode, dif_pos h7]
    simp
  | succ k ih =>
    intro u hu
    by_cases h7 : u >>> 7 = 0
    · rw [varint_encode, dif_pos h7]
      simp only [List.length_singleton]
      omega
    · rw [varint_encode, dif_neg h7]
      have : u >>> 7 < 2 ^ (7 * (k + 1)) := by
        rw [Nat.shiftRight_eq_div_pow]
        apply Nat.div_lt_of_lt_mul
        calc u < 2 ^ (7 * (k + 1 + 1)) := hu
        _ = 2 ^ 7 * 2 ^ (7 * (k + 1)) := by ring
      have := ih (u >>> 7) this
      simp only [List.length_cons]
      omega

/-- The varint decoder loop shared by the case modules (`varint_decode` in
cases 01 and 02, `read_uvarint` in case 04), parametrised by the shift limit:
63 in cases 01 and 04, 70 in case 02.  `i` is the read position, `s` the
current shift, `a` the accumulator; on success it returns the decoded value
and the position just past the last byte. -/
def varint_decode_core (lim : Nat) (buf : List Nat) (i s a : Nat) :
    Except Err (Nat × Nat) :=
  if h : i < buf.length then
    if buf[i] &&& 128 = 0 then .ok (a ||| (buf[i] &&& 127) <<< s, i + 1)
    else if lim < s + 7 then .error .overlongVarint
    else varint_decode_core lim buf (i + 1) (s + 7) (a ||| (buf[i] &&& 127) <<< s)
  else .error .truncatedVarint
termination_by buf.length - i

/-- List-consuming view of `varint_decode_core`: reads the bytes from the
current position onward and returns the number of bytes consumed. -/
def vdecAux (lim : Nat) : List Nat → Nat → Nat → Except Err (Nat × Nat)
  | [], _, _ => .error .truncatedVarint
  | b :: bs, s, a =>
    if b &&& 128 = 0 then .ok (a ||| (b &&& 127) <<< s, 1)
    else if lim < s + 7 then .error .overlongVarint
    else match vdecAux lim bs (s + 7) (a ||| (b &&& 127) <<< s) with
         | .ok (u, c) => .ok (u, c + 1)
         | .error e => .error e

theorem varint_decode_core_eq_aux (lim : Nat) : ∀ (fuel : Nat) (buf : List Nat) (i s a : Nat),
    buf.length - i ≤ fuel →
    varint_decode_core lim buf i s a =
      match vdecAux lim (buf.drop i) s a with
      | .ok (u, c) => .ok (u, i + c)
      | .error e => .error e := by
  intro fuel
  induction fuel with
  | zero =>
    intro buf i s a hf
    have hge : buf.length ≤ i := by omega
    rw [varint_decode_core, dif_neg (by omega)]
    rw [List.drop_eq_nil_of_le hge]
    rfl
  | succ fuel ih =>
    intro buf i s a hf
    by_cases h : i < buf.length
    · rw [varint_decode_core, dif_pos h]
      rw [List.drop_eq_getElem_cons h]
      simp only [vdecAux]
      by_cases hc : buf[i] &&& 128 = 0
      · simp [hc]
      · simp only [hc, if_false, if_neg]
        by_cases hlim : lim < s + 7
        · simp [hlim]
        · simp only [hlim, if_false]
          rw [ih buf (i + 1) (s + 7) _ (by omega)]
          cases hv : vdecAux lim (buf.drop (i + 1)) (s + 7) (a ||| (buf[i] &&& 127) <<< s) with
          | ok p =>
            obtain ⟨u, c⟩ := p
            simp [Nat.add_assoc, Nat.add_comm 1 c]
          | error e => simp
    · rw [varint_decode_core, dif_neg h]
      rw [List.drop_eq_nil_of_le (by omega)]
      rfl

theorem varint_decode_core_eq (lim : Nat) (buf : List Nat) (i s a : Nat) :
    varint_decode_core lim buf i s a =
      match vdecAux lim (buf.drop i) s a with
      | .ok (u, c) => .ok (u, i + c)
      | .error e => .error e :=
  varint_decode_core_eq_aux lim (buf.length - i) buf i s a le_rfl

/-- Core framing fact: decoding right after the encoder's bytes returns the
encoded value and consumes exactly those bytes, provided the shift budget
suffices. -/
theorem vdecAux_encode (lim : Nat) : ∀ (u : Nat) (rest : List Nat) (s a : Nat),
    a < 2 ^ s →
    s + 7 * ((varint_encode u).length - 1) ≤ lim →
    vdecAux lim (varint_encode u ++ rest) s a =
      .ok (a + 2 ^ s * u, (varint_encode u).length) := by
  intro u
  induction u using varint_encode.induct with
  | case1 u h7 =>
    intro rest s a ha _
    have hu : u < 128 := by
      rw [Nat.shiftRight_eq_div_pow] at h7
      norm_num at h7
      omega
    rw [varint_encode, dif_pos h7]
    simp only [List.singleton_append, vdecAux]
    have hb : u &&& 127 = u := by rw [and127_eq_mod]; exact Nat.mod_eq_of_lt hu
    rw [hb, hb, and128_eq_zero hu, if_pos rfl]
    rw [lor_shiftLeft_eq_add u s ha]
    simp [Nat.add_comm]
  | case2 u h7 ih =>
    intro rest s a ha hlim
    rw [varint_encode, dif_neg h7] at hlim ⊢
    simp only [List.cons_append, vdecAux]
    simp only [List.append_eq]
    rw [or128_and128]
    rw [if_neg (by norm_num : ¬ (128 = 0))]
    have hlen : 1 ≤ (varint_encode (u >>> 7)).length := varint_encode_length_pos _
    have hs7 : ¬ lim < s + 7 := by
      simp only [List.length_cons] at hlim
      omega
    rw [if_neg hs7]
    rw [or128_and127, and127_idem]
    have ha' : a ||| (u &&& 127) <<< s < 2 ^ (s + 7) := by
      rw [lor_shiftLeft_eq_add _ _ ha, and127_eq_mod]
      have h1 : u % 128 ≤ 127 := by omega
      calc 2 ^ s * (u % 128) + a < 2 ^ s * (u % 128) + 2 ^ s := by omega
      _ = 2 ^ s * (u % 128 + 1) := by ring
      _ ≤ 2 ^ s * 128 := by
        apply Nat.mul_le_mul_left
        omega
      _ = 2 ^ (s + 7) := by rw [pow_add]; norm_num
    have hlim' : (s + 7) + 7 * ((varint_encode (u >>> 7)).length - 1) ≤ lim := by
      simp only [List.length_cons] at hlim
      omega
    rw [ih rest (s + 7) _ ha' hlim']
    have hval : (a ||| (u &&& 127) <<< s) + 2 ^ (s + 7) * (u >>> 7) = a + 2 ^ s * u := by
      rw [lor_shiftLeft_eq_add _ _ ha, and127_eq_mod, Nat.shiftRight_eq_div_pow]
      have h1 : (2 : Nat) ^ (s + 7) = 2 ^ s * 128 := by rw [pow_add]; norm_num
      have h2 : (2 : Nat) ^ 7 = 128 := by norm_num
      rw [h1, h2]
      calc 2 ^ s * (u % 128) + a + 2 ^ s * 128 * (u / 128)
          = a + 2 ^ s * (128 * (u / 128) + u % 128) := by ring
        _ = a + 2 ^ s * u := by rw [Nat.div_add_mod]
    rw [hval]
    simp

theorem vdecAux_consumed (lim : Nat) : ∀ (l : List Nat) (s a u c : Nat),
    vdecAux lim l s a = .ok (u, c) → 1 ≤ c ∧ c ≤ l.length := by
  intro l
  induction l with
  | nil =>
    intro s a u c h
    simp [vdecAux] at h
  | cons b bs ih =>
    intro s a u c h
    simp only [vdecAux] at h
    by_cases hc : b &&& 128 = 0
    · rw [if_pos hc] at h
      simp only [Except.ok.injEq, Prod.mk.injEq] at h
      obtain ⟨_, h2⟩ := h
      simp [← h2]
    · rw [if_neg hc] at h
      by_cases hlim : lim < s + 7
      · rw [if_pos hlim] at h
        exact absurd h (by simp)
      · rw [if_neg hlim] at h
        cases hv : vdecAux lim bs (s + 7) (a ||| (b &&& 127) <<< s) with
        | ok p =>
          obtain ⟨u', c'⟩ := p
          rw [hv] at h
          simp only [Except.ok.injEq, Prod.mk.injEq] at h
          obtain ⟨_, h2⟩ := h
          have := ih (s + 7) (a ||| (b &&& 127) <<< s) u' c' hv
          simp only [List.length_cons]
          omega
        | error e =>
          rw [hv] at h
          exact absurd h (by simp)

theorem varint_decode_core_lt (lim : Nat) (buf : List Nat) (i s a u j : Nat)
    (h : varint_decode_core lim buf i s a = .ok (u, j)) : i < j ∧ j ≤ buf.length := by
  rw [varint_decode_core_eq] at h
  cases hv : vdecAux lim (buf.drop i) s a with
  | ok p =>
    obtain ⟨u', c⟩ := p
    rw [hv] at h
    simp only [Except.ok.injEq, Prod.mk.injEq] at h
    obtain ⟨_, h2⟩ := h
    have hcon := vdecAux_consumed lim (buf.drop i) s a u' c hv
    have hd : (buf.drop i).length = buf.length - i := List.length_drop i buf
    omega
  | error e =>
    rw [hv] at h
    exact absurd h (by simp)

/-! ### ZigZag (cases 01 and 02)

`zigzag_encode` and `zigzag_decode` are defined identically in
`star_case01_spx_replay.py` and `star_case02_airquality_replay.py`.  Python's
`^`, `&`, `<<`, `>>` on unbounded signed integers are `Int.xor`, `Int.land`
and the two's-complement arithmetic shifts. -/

def zigzag_encode (x : Int) : Int := Int.xor (x <<< (1 : Int)) (x >>> (63 : Nat))

def zigzag_decode (u : Int) : Int := Int.xor (u >>> (1 : Nat)) (-(Int.land u 1))

theorem int_xor_ofNat_ofNat (a b : Nat) :
    Int.xor (Int.ofNat a) (Int.ofNat b) = Int.ofNat (a ^^^ b) := rfl

theorem int_xor_ofNat_negSucc (a b : Nat) :
    Int.xor (Int.ofNat a) (Int.negSucc b) = Int.negSucc (a ^^^ b) := rfl

theorem int_xor_negSucc_negSucc (a b : Nat) :
    Int.xor (Int.negSucc a) (Int.negSucc b) = Int.ofNat (a ^^^ b) := rfl

theorem int_land_ofNat_ofNat (a b : Nat) :
    Int.land (Int.ofNat a) (Int.ofNat b) = Int.ofNat (a &&& b) := rfl

theorem int_one_eq : (1 : Int) = ((1 : Nat) : Int) := rfl

theorem ofNat_shiftLeft_one (m : Nat) :
    (Int.ofNat m) <<< (1 : Int) = Int.ofNat (m <<< 1) := by
  rw [Int.ofNat_eq_natCast, int_one_eq, Int.shiftLeft_coe_nat]
  rfl

theorem negSucc_shiftLeft_one (m : Nat) :
    (Int.negSucc m) <<< (1 : Int) = Int.negSucc (2 * m + 1) := by
  rw [int_one_eq, Int.shiftLeft_negSucc]
  have h : Nat.shiftLeft' true m 1 = 2 * m + 1 := by
    simp [Nat.shiftLeft', Nat.bit]
  rw [h]

theorem zz_ofNat {m : Nat} (h : m < 2 ^ 63) :
    zigzag_encode (Int.ofNat m) = Int.ofNat (2 * m) := by
  unfold zigzag_encode
  rw [ofNat_shiftLeft_one]
  have hsr : (Int.ofNat m) >>> (63 : Nat) = Int.ofNat (m >>> 63) := rfl
  have h63 : m >>> 63 = 0 := by
    rw [Nat.shiftRight_eq_div_pow]
    exact Nat.div_eq_of_lt h
  rw [hsr, h63, int_xor_ofNat_ofNat]
  have : m <<< 1 = 2 * m := by rw [Nat.shiftLeft_eq]; ring
  rw [Nat.xor_zero, this]

theorem zz_negSucc {m : Nat} (h : m < 2 ^ 63) :
    zigzag_encode (Int.negSucc m) = Int.ofNat (2 * m + 1) := by
  unfold zigzag_encode
  rw [negSucc_shiftLeft_one]
  have hsr : (Int.negSucc m) >>> (63 : Nat) = Int.negSucc (m >>> 63) := rfl
  have h63 : m >>> 63 = 0 := by
    rw [Nat.shiftRight_eq_div_pow]
    exact Nat.div_eq_of_lt h
  rw [hsr, h63, int_xor_negSucc_negSucc, Nat.xor_zero]

theorem zigzag_encode_nonneg (x : Int) : 0 ≤ zigzag_encode x := by
  cases x with
  | ofNat m =>
    unfold zigzag_encode
    rw [ofNat_shiftLeft_one]
    have hsr : (Int.ofNat m) >>> (63 : Nat) = Int.ofNat (m >>> 63) := rfl
    rw [hsr, int_xor_ofNat_ofNat]
    exact Int.ofNat_nonneg _
  | negSucc m =>
    unfold zigzag_encode
    rw [negSucc_shiftLeft_one]
    have hsr : (Int.negSucc m) >>> (63 : Nat) = Int.negSucc (m >>> 63) := rfl
    rw [hsr, int_xor_negSucc_negSucc]
    exact Int.ofNat_nonneg _

theorem zzd_ofNat (n : Nat) :
    zigzag_decode (Int.ofNat n) =
      if n % 2 = 0 then Int.ofNat (n / 2) else Int.negSucc (n / 2) := by
  unfold zigzag_decode
  have hsr : (Int.ofNat n) >>> (1 : Nat) = Int.ofNat (n >>> 1) := rfl
  have hone : (1 : Int) = Int.ofNat 1 := rfl
  rw [hsr, hone, int_land_ofNat_ofNat]
  have hand : n &&& 1 = n % 2 := by
    have h : (1 : Nat) = 2 ^ 1 - 1 := by norm_num
    rw [h, Nat.and_pow_two_sub_one_eq_mod]
  rw [hand]
  have hdiv : n >>> 1 = n / 2 := by
    rw [Nat.shiftRight_eq_div_pow]
  by_cases hpar : n % 2 = 0
  · rw [if_pos hpar, hpar]
    have hz : -(Int.ofNat 0) = Int.ofNat 0 := rfl
    rw [hz, int_xor_ofNat_ofNat, Nat.xor_zero, hdiv]
  · rw [if_neg hpar]
    have h1 : n % 2 = 1 := Nat.mod_two_eq_zero_or_one n |>.resolve_left hpar
    rw [h1]
    have hneg : -(Int.ofNat 1) = Int.negSucc 0 := rfl
    rw [hneg, int_xor_ofNat_negSucc, Nat.xor_zero, hdiv]

theorem zigzag_decode_encode (x : Int) (h1 : -(2 ^ 63) ≤ x) (h2 : x < 2 ^ 63) :
    zigzag_decode (zigzag_encode x) = x := by
  cases x with
  | ofNat m =>
    have hm : m < 2 ^ 63 := by
      rw [Int.ofNat_eq_natCast] at h2
      exact_mod_cast h2
    rw [zz_ofNat hm, zzd_ofNat]
    have hpar : 2 * m % 2 = 0 := by omega
    rw [if_pos hpar]
    congr 1
    omega
  | negSucc m =>
    have hm : m < 2 ^ 63 := by
      rw [Int.negSucc_eq] at h1
      have : ((m : Int) + 1) ≤ 2 ^ 63 := by omega
      exact_mod_cast (by omega : (m : Int) < 2 ^ 63)
    rw [zz_negSucc hm, zzd_ofNat]
    have hpar : ¬ ((2 * m + 1) % 2 = 0) := by omega
    rw [if_neg hpar]
    congr 1
    omega

theorem zigzag_encode_lt {x : Int} (h1 : -(2 ^ 63) ≤ x) (h2 : x < 2 ^ 63) :
    (zigzag_encode x).toNat < 2 ^ 64 := by
  cases x with
  | ofNat m =>
    have hm : m < 2 ^ 63 := by
      rw [Int.ofNat_eq_natCast] at h2
      exact_mod_cast h2
    rw [zz_ofNat hm]
    have ht : (Int.ofNat (2 * m)).toNat = 2 * m := rfl
    rw [ht]
    omega
  | negSucc m =>
    have hm : m < 2 ^ 63 := by
      rw [Int.negSucc_eq] at h1
      exact_mod_cast (by omega : (m : Int) < 2 ^ 63)
    rw [zz_negSucc hm]
    have ht : (Int.ofNat (2 * m + 1)).toNat = 2 * m + 1 := rfl
    rw [ht]
    omega

/-- C4: for every signed 64-bit integer x in the interval from -2^63
(inclusive) to 2^63 (exclusive), zigzag_decode (zigzag_encode x) = x, and
zigzag_encode restricted to that interval is a bijection onto the interval
from 0 (inclusive) to 2^64 (exclusive). -/
theorem c4_zigzag_law (x : Int) (h1 : -(2 ^ 63) ≤ x) (h2 : x < 2 ^ 63) :
    zigzag_decode (zigzag_encode x) = x ∧
    Set.BijOn zigzag_encode (Set.Ico (-(2 ^ 63) : Int) (2 ^ 63))
      (Set.Ico (0 : Int) (2 ^ 64)) := by
  constructor
  · exact zigzag_decode_encode x h1 h2
  · refine ⟨?_, ?_, ?_⟩
    · intro y hy
      obtain ⟨hy1, hy2⟩ := hy
      cases y with
      | ofNat m =>
        have hm : m < 2 ^ 63 := by
          rw [Int.ofNat_eq_natCast] at hy2
          exact_mod_cast hy2
        rw [zz_ofNat hm]
        constructor
        · exact Int.ofNat_nonneg _
        · rw [Int.ofNat_eq_natCast]
          exact_mod_cast (by omega : 2 * m < 2 ^ 64)
      | negSucc m =>
        have hm : m < 2 ^ 63 := by
          rw [Int.negSucc_eq] at hy1
          exact_mod_cast (by omega : (m : Int) < 2 ^ 63)
        rw [zz_negSucc hm]
        constructor
        · exact Int.ofNat_nonneg _
        · rw [Int.ofNat_eq_natCast]
          exact_mod_cast (by omega : 2 * m + 1 < 2 ^ 64)
    · intro a ha b hb hab
      obtain ⟨ha1, ha2⟩ := ha
      obtain ⟨hb1, hb2⟩ := hb
      calc a = zigzag_decode (zigzag_encode a) := (zigzag_decode_encode a ha1 ha2).symm
        _ = zigzag_decode (zigzag_encode b) := by rw [hab]
        _ = b := zigzag_decode_encode b hb1 hb2
    · intro y hy
      obtain ⟨hy1, hy2⟩ := hy
      obtain ⟨n, rfl⟩ := Int.eq_ofNat_of_zero_le hy1
      have hn : n < 2 ^ 64 := by exact_mod_cast hy2
      by_cases hpar : n % 2 = 0
      · refine ⟨Int.ofNat (n / 2), ⟨?_, ?_⟩, ?_⟩
        · rw [Int.ofNat_eq_natCast]
          have h0 : (0 : Int) ≤ ((n / 2 : Nat) : Int) := Int.ofNat_nonneg _
          omega
        · rw [Int.ofNat_eq_natCast]
          exact_mod_cast (by omega : n / 2 < 2 ^ 63)
        · rw [zz_ofNat (by omega : n / 2 < 2 ^ 63), Int.ofNat_eq_natCast]
          exact_mod_cast congrArg (Nat.cast : Nat → Int) (by omega : 2 * (n / 2) = n)
      · refine ⟨Int.negSucc (n / 2), ⟨?_, ?_⟩, ?_⟩
        · rw [Int.negSucc_eq]
          have h0 : ((n / 2 : Nat) : Int) < 2 ^ 63 := by
            exact_mod_cast (by omega : n / 2 < 2 ^ 63)
          omega
        · rw [Int.negSucc_eq]
          have h0 : (0 : Int) ≤ ((n / 2 : Nat) : Int) := Int.ofNat_nonneg _
          omega
        · rw [zz_negSucc (by omega : n / 2 < 2 ^ 63), Int.ofNat_eq_natCast]
          exact_mod_cast congrArg (Nat.cast : Nat → Int) (by omega : 2 * (n / 2) + 1 = n)

theorem c4_zigzag_law_witness :
    zigzag_decode (zigzag_encode (-3)) = -3 ∧
    Set.BijOn zigzag_encode (Set.Ico (-(2 ^ 63) : Int) (2 ^ 63))
      (Set.Ico (0 : Int) (2 ^ 64)) :=
  c4_zigzag_law (-3) (by norm_num) (by norm_num)

/-! ### Case 01 — OHLCV bars (`star_case01_spx_replay.py`)

A `Bar` is the frozen dataclass with six signed integer fields.  Delta
tuples are 6-tuples of `Int`.  `zz_varint` is the composite
`varint_encode (zigzag_encode x)` used throughout the encoders; since
`zigzag_encode` is always non-negative (`zigzag_encode_nonneg`) the `toNat`
is exact. -/

structure Bar where
  d_days : Int
  o : Int
  h : Int
  l : Int
  c : Int
  v : Int
  deriving DecidableEq, Repr

instance : Inhabited Bar := ⟨⟨0, 0, 0, 0, 0, 0⟩⟩

abbrev Tup6 := Int × Int × Int × Int × Int × Int

def zz_varint (x : Int) : List Nat := varint_encode (zigzag_encode x).toNat

/-- The interval of signed 64-bit integers: zigzag round-trips exactly on it. -/
def i64 (x : Int) : Prop := -(2 ^ 63) ≤ x ∧ x < 2 ^ 63

instance (x : Int) : Decidable (i64 x) := by unfold i64; infer_instance

def tup6InRange (t : Tup6) : Prop :=
  i64 t.1 ∧ i64 t.2.1 ∧ i64 t.2.2.1 ∧ i64 t.2.2.2.1 ∧ i64 t.2.2.2.2.1 ∧ i64 t.2.2.2.2.2

instance (t : Tup6) : Decidable (tup6InRange t) := by unfold tup6InRange; infer_instance

def barInRange (b : Bar) : Prop :=
  i64 b.d_days ∧ i64 b.o ∧ i64 b.h ∧ i64 b.l ∧ i64 b.c ∧ i64 b.v

instance (b : Bar) : Decidable (barInRange b) := by unfold barInRange; infer_instance

namespace Case01

/-- The five magic bytes `b"STAR1"`. -/
def magicSTAR1 : List Nat := [83, 84, 65, 82, 49]

/-- Field-wise difference `rowᵢ₊₁ − rowᵢ` built by the encoder. -/
def barSub (b p : Bar) : Tup6 :=
  (b.d_days - p.d_days, b.o - p.o, b.h - p.h, b.l - p.l, b.c - p.c, b.v - p.v)

/-- The `(n-1)` successive delta tuples of a row list. -/
def deltasOf : List Bar → List Tup6
  | a :: b :: rest => barSub b a :: deltasOf (b :: rest)
  | _ => []

/-- The encoder's forward scan: how many further deltas equal `t`, the
budget capping the count (the source stops the scan at `run < 10_000_000`,
so the budget passed in is `10_000_000 - 1`). -/
def countRun (t : Tup6) : List Tup6 → Nat → Nat
  | _, 0 => 0
  | [], _ => 0
  | d :: ds, b + 1 => if d = t then countRun t ds b + 1 else 0

/-- Bytes of the six zig-zag varints of a delta tuple. -/
def encTup6 (t : Tup6) : List Nat :=
  zz_varint t.1 ++ zz_varint t.2.1 ++ zz_varint t.2.2.1 ++ zz_varint t.2.2.2.1 ++
    zz_varint t.2.2.2.2.1 ++ zz_varint t.2.2.2.2.2

/-- Bytes of the six zig-zag varints of a base row. -/
def bar_zz (b : Bar) : List Nat :=
  zz_varint b.d_days ++ zz_varint b.o ++ zz_varint b.h ++ zz_varint b.l ++
    zz_varint b.c ++ zz_varint b.v

/-- The greedy block loop of `encode_star` over the list of delta tuples:
a maximal (capped) run of length at least 3 becomes one tag-0 RLE block,
otherwise `run` literal tag-1 blocks are emitted. -/
def encode_body : List Tup6 → List Nat
  | [] => []
  | t :: rest =>
    let run := countRun t rest (10000000 - 1) + 1
    if 3 ≤ run then
      (0 :: varint_encode run ++ encTup6 t) ++ encode_body (rest.drop (run - 1))
    else
      (List.replicate run ((1 : Nat) :: encTup6 t)).flatten ++ encode_body (rest.drop (run - 1))
termination_by ds => ds.length
decreasing_by
  all_goals
    simp only [List.length_drop]
    simp only [List.length_cons]
    omega

/-- `encode_star` of the case-01 module (the `meta` dict is dropped: its
fields `n` and `price_scale` are the function's own inputs). -/
def encode_star (bars : List Bar) (price_scale : Nat) : List Nat :=
  match bars with
  | [] => magicSTAR1 ++ varint_encode 0
  | b0 :: tl =>
    magicSTAR1 ++ varint_encode (b0 :: tl).length ++ varint_encode price_scale ++
      bar_zz b0 ++ encode_body (deltasOf (b0 :: tl))

/-- `varint_decode` of the case-01 module (shift limit 63; the identical
copies in `star_index_case01.py` and `star_replay_case01.py` are this same
function). -/
def varint_decode (buf : List Nat) (i : Nat) : Except Err (Nat × Nat) :=
  varint_decode_core 63 buf i 0 0

/-- One `zigzag_decode(varint_decode(...))` read. -/
def read_zz (buf : List Nat) (i : Nat) : Except Err (Int × Nat) :=
  match varint_decode buf i with
  | .ok (u, j) => .ok (zigzag_decode (Int.ofNat u), j)
  | .error e => .error e

/-- Six sequential zig-zag varint reads (the `for _ in range(6)` loops of
`decode_star`, `decode_block` and `parse_star1_header`). -/
def read_tup6 (buf : List Nat) (i : Nat) : Except Err (Tup6 × Nat) :=
  match read_zz buf i with
  | .error e => .error e
  | .ok (x1, i1) =>
    match read_zz buf i1 with
    | .error e => .error e
    | .ok (x2, i2) =>
      match read_zz buf i2 with
      | .error e => .error e
      | .ok (x3, i3) =>
        match read_zz buf i3 with
        | .error e => .error e
        | .ok (x4, i4) =>
          match read_zz buf i4 with
          | .error e => .error e
          | .ok (x5, i5) =>
            match read_zz buf i5 with
            | .error e => .error e
            | .ok (x6, i6) => .ok ((x1, x2, x3, x4, x5, x6), i6)

theorem varint_decode_lt {buf : List Nat} {i u j : Nat}
    (h : varint_decode buf i = .ok (u, j)) : i < j ∧ j ≤ buf.length :=
  varint_decode_core_lt 63 buf i 0 0 u j h

theorem read_zz_lt {buf : List Nat} {i : Nat} {x : Int} {j : Nat}
    (h : read_zz buf i = .ok (x, j)) : i < j ∧ j ≤ buf.length := by
  unfold read_zz at h
  cases hv : varint_decode buf i with
  | ok p =>
    obtain ⟨u, j'⟩ := p
    rw [hv] at h
    simp only [Except.ok.injEq, Prod.mk.injEq] at h
    obtain ⟨_, h2⟩ := h
    subst h2
    exact varint_decode_lt hv
  | error e =>
    rw [hv] at h
    exact absurd h (by simp)

theorem read_tup6_lt {buf : List Nat} {i : Nat} {t : Tup6} {j : Nat}
    (h : read_tup6 buf i = .ok (t, j)) : i < j ∧ j ≤ buf.length := by
  unfold read_tup6 at h
  repeat' split at h
  any_goals simp at h
  rename_i s1 x1 i1 h1 s2 x2 i2 h2 s3 x3 i3 h3 s4 x4 i4 h4 s5 x5 i5 h5 s6 x6 i6 h6
  obtain ⟨-, hj⟩ := h
  subst hj
  have l1 := read_zz_lt h1
  have l2 := read_zz_lt h2
  have l3 := read_zz_lt h3
  have l4 := read_zz_lt h4
  have l5 := read_zz_lt h5
  have l6 := read_zz_lt h6
  omega

/-- Adding a delta tuple to the previous row (the `Bar(prev.x + dx, ...)`
constructions of the decoder loops). -/
def addBar (p : Bar) (t : Tup6) : Bar :=
  ⟨p.d_days + t.1, p.o + t.2.1, p.h + t.2.2.1, p.l + t.2.2.2.1,
   p.c + t.2.2.2.2.1, p.v + t.2.2.2.2.2⟩

/-- The tag-0 run application of `decode_star` (case 01): append `run` rows,
each the previous row plus the delta; no early stop at `n`. -/
def appendRun (t : Tup6) : Nat → List Bar → List Bar
  | 0, bars => bars
  | r + 1, bars => appendRun t r (bars ++ [addBar bars.getLast! t])

/-- The `while len(bars) < n` loop of case-01's `decode_star`. -/
def decodeLoop (buf : List Nat) (n : Nat) (i : Nat) (bars : List Bar) :
    Except Err (List Bar) :=
  if n ≤ bars.length then .ok bars
  else if h : i < buf.length then
    if buf[i] = 0 then
      match hv : varint_decode buf (i + 1) with
      | .error e => .error e
      | .ok (run, i1) =>
        match ht : read_tup6 buf i1 with
        | .error e => .error e
        | .ok (t, i2) => decodeLoop buf n i2 (appendRun t run bars)
    else if buf[i] = 1 then
      match ht : read_tup6 buf (i + 1) with
      | .error e => .error e
      | .ok (t, i2) => decodeLoop buf n i2 (bars ++ [addBar bars.getLast! t])
    else .error .badTag
  else .error .truncatedBody
termination_by buf.length - i
decreasing_by
  · have hv' := varint_decode_lt hv
    have ht' := read_tup6_lt ht
    omega
  · have ht' := read_tup6_lt ht
    omega

def barOfTup (t : Tup6) : Bar := ⟨t.1, t.2.1, t.2.2.1, t.2.2.2.1, t.2.2.2.2.1, t.2.2.2.2.2⟩

/-- `decode_star` of the case-01 module; returns the rows together with the
header fields `n` and `price_scale` (for `n = 0` the source returns only
`n` in its meta dict; `price_scale` is modelled as 0 there). -/
def decode_star (buf : List Nat) : Except Err (List Bar × Nat × Nat) :=
  if buf.take 5 = magicSTAR1 then
    match varint_decode buf 5 with
    | .error e => .error e
    | .ok (n, i1) =>
      if n = 0 then .ok ([], 0, 0)
      else
        match varint_decode buf i1 with
        | .error e => .error e
        | .ok (price_scale, i2) =>
          match read_tup6 buf i2 with
          | .error e => .error e
          | .ok (t, i3) =>
            match decodeLoop buf n i3 [barOfTup t] with
            | .error e => .error e
            | .ok bars => .ok (bars, n, price_scale)
  else .error .badMagic

/-! #### List and scan helpers shared by the round-trip and replay proofs -/

theorem drop_chunk {a : Type} {buf : List a} {i : Nat} {c rest : List a}
    (hd : buf.drop i = c ++ rest) : buf.drop (i + c.length) = rest := by
  have h1 : buf.drop (i + c.length) = (buf.drop i).drop c.length := by
    rw [List.drop_drop, Nat.add_comm]
  rw [h1, hd, List.drop_left]

theorem drop_cons_head {a : Type} {buf : List a} {i : Nat} {x : a} {rest : List a}
    (hd : buf.drop i = x :: rest) (h : i < buf.length) : buf[i] = x := by
  rw [List.drop_eq_getElem_cons h] at hd
  exact (List.cons.injEq _ _ _ _ ▸ hd).1

theorem drop_cons_tail {a : Type} {buf : List a} {i : Nat} {x : a} {rest : List a}
    (hd : buf.drop i = x :: rest) : buf.drop (i + 1) = rest := by
  have h1 : buf.drop (i + 1) = (buf.drop i).tail := by
    rw [← List.drop_drop]
    exact List.drop_one _
  rw [h1, hd]
  rfl

theorem drop_cons_lt {a : Type} {buf : List a} {i : Nat} {x : a} {rest : List a}
    (hd : buf.drop i = x :: rest) : i < buf.length := by
  by_contra hge
  rw [List.drop_eq_nil_of_le (by omega)] at hd
  exact absurd hd (by simp)

theorem getLast!_concat {a : Type} [Inhabited a] (l : List a) (x : a) :
    (l ++ [x]).getLast! = x :=
  List.getLast!_of_getLast? (List.getLast?_concat l)

theorem getLast!_append_right {a : Type} [Inhabited a] (l m : List a) (hm : m ≠ []) :
    (l ++ m).getLast! = m.getLast! := by
  rcases List.eq_nil_or_concat' m with rfl | ⟨m', x, rfl⟩
  · exact absurd rfl hm
  · rw [← List.append_assoc, getLast!_concat, getLast!_concat]

theorem dropLast_concat_getLast! {a : Type} [Inhabited a] {l : List a} (h : l ≠ []) :
    l.dropLast ++ [l.getLast!] = l := by
  rcases List.eq_nil_or_concat' l with rfl | ⟨m, x, rfl⟩
  · exact absurd rfl h
  · rw [getLast!_concat, List.dropLast_concat]

theorem scanl_eq_cons {a b : Type} (f : b -> a -> b) (s : b) (l : List a) :
    List.scanl f s l = s :: (List.scanl f s l).tail := by
  cases l <;> simp [List.scanl]

theorem scanl_tail_ne_nil {a b : Type} (f : b -> a -> b) (s : b) {l : List a}
    (h : l ≠ []) : (List.scanl f s l).tail ≠ [] := by
  cases l with
  | nil => exact absurd rfl h
  | cons x xs =>
    simp only [List.scanl_cons, List.singleton_append, List.tail_cons]
    intro hc
    have hl := List.length_scanl (f := f) (f s x) xs
    rw [hc] at hl
    simp at hl

theorem scanl_append {a b : Type} (f : b -> a -> b) :
    ∀ (l1 l2 : List a) (s : b),
      List.scanl f s (l1 ++ l2) =
        List.scanl f s l1 ++ (List.scanl f (List.foldl f s l1) l2).tail := by
  intro l1
  induction l1 with
  | nil =>
    intro l2 s
    simp only [List.nil_append, List.scanl_nil, List.foldl_nil]
    exact scanl_eq_cons f s l2
  | cons x xs ih =>
    intro l2 s
    simp only [List.cons_append, List.scanl_cons, List.foldl_cons]
    rw [ih l2 (f s x)]
    simp

theorem scanl_last {a b : Type} [Inhabited b] (f : b -> a -> b) :
    ∀ (l : List a) (s : b), (List.scanl f s l).getLast! = List.foldl f s l := by
  intro l
  induction l with
  | nil =>
    intro s
    simp [List.scanl]
    rfl
  | cons x xs ih =>
    intro s
    rw [List.scanl_cons, List.foldl_cons]
    rw [List.singleton_append]
    have hne : List.scanl f (f s x) xs ≠ [] := by
      have := List.length_scanl (f := f) (f s x) xs
      intro hc
      rw [hc] at this
      simp at this
    calc (s :: List.scanl f (f s x) xs).getLast!
        = (List.scanl f (f s x) xs).getLast! := by
          rw [show s :: List.scanl f (f s x) xs = [s] ++ List.scanl f (f s x) xs from rfl]
          exact getLast!_append_right _ _ hne
      _ = List.foldl f (f s x) xs := ih (f s x)

theorem getLast!_append_scanl_tail {a b : Type} [Inhabited b] (f : b -> a -> b)
    {acc : List b} (hne : acc ≠ []) (l : List a) :
    (acc ++ (List.scanl f acc.getLast! l).tail).getLast! = List.foldl f acc.getLast! l := by
  cases l with
  | nil =>
    simp [List.scanl]
  | cons x xs =>
    have htail : (List.scanl f acc.getLast! (x :: xs)).tail ≠ [] :=
      scanl_tail_ne_nil f _ (by simp)
    rw [getLast!_append_right _ _ htail]
    have hcons := scanl_eq_cons f acc.getLast! (x :: xs)
    have hlast := scanl_last f (x :: xs) acc.getLast!
    rw [hcons] at hlast
    rw [show (acc.getLast! :: (List.scanl f acc.getLast! (x :: xs)).tail).getLast!
          = ((List.scanl f acc.getLast! (x :: xs)).tail).getLast! from
        getLast!_append_right [acc.getLast!] _ htail] at hlast
    exact hlast

/-! #### Greedy-run facts and row reconstruction (case 01) -/

theorem addBar_barSub (a b : Bar) : addBar a (barSub b a) = b := by
  cases a
  cases b
  simp [addBar, barSub]

theorem reconstruct : ∀ (tl : List Bar) (a : Bar),
    List.scanl addBar a (deltasOf (a :: tl)) = a :: tl := by
  intro tl
  induction tl with
  | nil =>
    intro a
    simp [deltasOf, List.scanl]
  | cons b rest ih =>
    intro a
    show List.scanl addBar a (barSub b a :: deltasOf (b :: rest)) = a :: b :: rest
    rw [List.scanl_cons, addBar_barSub, List.singleton_append, ih b]

theorem countRun_cons_succ (t d : Tup6) (ds : List Tup6) (b : Nat) :
    countRun t (d :: ds) (b + 1) = if d = t then countRun t ds b + 1 else 0 := rfl

theorem countRun_le_len (t : Tup6) : ∀ (ds : List Tup6) (b : Nat),
    countRun t ds b ≤ ds.length := by
  intro ds
  induction ds with
  | nil => intro b; cases b <;> simp [countRun]
  | cons d ds ih =>
    intro b
    cases b with
    | zero => simp [countRun]
    | succ b =>
      by_cases hd : d = t
      · simp only [countRun, if_pos hd, List.length_cons]
        have := ih b
        omega
      · simp only [countRun, if_neg hd, List.length_cons]
        omega

theorem countRun_le_budget (t : Tup6) : ∀ (ds : List Tup6) (b : Nat),
    countRun t ds b ≤ b := by
  intro ds
  induction ds with
  | nil => intro b; cases b <;> simp [countRun]
  | cons d ds ih =>
    intro b
    cases b with
    | zero => simp [countRun]
    | succ b =>
      by_cases hd : d = t
      · simp only [countRun, if_pos hd]
        have := ih b
        omega
      · simp only [countRun, if_neg hd]
        omega

theorem countRun_take (t : Tup6) : ∀ (ds : List Tup6) (b : Nat),
    ds.take (countRun t ds b) = List.replicate (countRun t ds b) t := by
  intro ds
  induction ds with
  | nil => intro b; cases b <;> simp [countRun]
  | cons d ds ih =>
    intro b
    cases b with
    | zero => simp [countRun]
    | succ b =>
      by_cases hd : d = t
      · simp only [countRun, if_pos hd]
        rw [List.take_succ_cons, ih b, hd]
        rfl
      · simp only [countRun, if_neg hd]
        simp

theorem countRun_zero_any_budget (t : Tup6) {ds : List Tup6} {b : Nat}
    (hb : 1 ≤ b) (h : countRun t ds b = 0) : ∀ b', countRun t ds b' = 0 := by
  intro b'
  cases ds with
  | nil => cases b' <;> simp [countRun]
  | cons d ds =>
    obtain ⟨b0, rfl⟩ : ∃ b0, b = b0 + 1 := ⟨b - 1, by omega⟩
    by_cases hd : d = t
    · simp only [countRun, if_pos hd] at h
      omega
    · cases b' with
      | zero => simp [countRun]
      | succ b' => simp [countRun, if_neg hd]

theorem appendRun_concat (t : Tup6) : ∀ (r : Nat) (l : List Bar) (s : Bar),
    appendRun t r (l ++ [s]) =
      (l ++ [s]) ++ (List.scanl addBar s (List.replicate r t)).tail := by
  intro r
  induction r with
  | zero =>
    intro l s
    simp [appendRun, List.scanl]
  | succ r ih =>
    intro l s
    show appendRun t r ((l ++ [s]) ++ [addBar (l ++ [s]).getLast! t]) = _
    rw [getLast!_concat]
    rw [List.append_assoc l [s] [addBar s t]]
    have hps : [s] ++ [addBar s t] = [s] ++ [addBar s t] := rfl
    rw [show l ++ ([s] ++ [addBar s t]) = (l ++ [s]) ++ [addBar s t] from
      (List.append_assoc l [s] [addBar s t]).symm]
    rw [ih (l ++ [s]) (addBar s t)]
    rw [List.replicate_succ, List.scanl_cons]
    simp only [List.singleton_append, List.tail_cons]
    rw [scanl_eq_cons addBar (addBar s t) (List.replicate r t)]
    simp

theorem appendRun_eq (t : Tup6) (r : Nat) {acc : List Bar} (h : acc ≠ []) :
    appendRun t r acc = acc ++ (List.scanl addBar acc.getLast! (List.replicate r t)).tail := by
  have hdec := dropLast_concat_getLast! (l := acc) h
  calc appendRun t r acc = appendRun t r (acc.dropLast ++ [acc.getLast!]) := by rw [hdec]
    _ = (acc.dropLast ++ [acc.getLast!]) ++
          (List.scanl addBar acc.getLast! (List.replicate r t)).tail := appendRun_concat t r _ _
    _ = acc ++ (List.scanl addBar acc.getLast! (List.replicate r t)).tail := by rw [hdec]

/-- When the maximal capped run at the head is below the RLE threshold, the
body stream factors as one literal block followed by the body of the tail. -/
theorem encode_body_lit_step {t : Tup6} {rest : List Tup6}
    (h : countRun t rest (10000000 - 1) + 1 < 3) :
    encode_body (t :: rest) = (1 :: encTup6 t) ++ encode_body rest := by
  have hcnt : countRun t rest (10000000 - 1) = 0 ∨ countRun t rest (10000000 - 1) = 1 := by
    omega
  rcases hcnt with hcnt | hcnt
  · rw [encode_body]
    simp only [hcnt]
    rw [if_neg (by norm_num)]
    simp
  · cases rest with
    | nil => simp [countRun] at hcnt
    | cons d rest' =>
      have hd : d = t := by
        by_contra hne
        simp [countRun, if_neg hne] at hcnt
      subst hd
      have hB : (10000000 - 1 : Nat) = 9999998 + 1 := by norm_num
      have hcnt' : countRun d rest' 9999998 = 0 := by
        rw [hB, countRun_cons_succ, if_pos rfl] at hcnt
        omega
      have hcnt'' : countRun d rest' (10000000 - 1) = 0 :=
        countRun_zero_any_budget d (by norm_num) hcnt' _
      rw [encode_body]
      simp only [hcnt]
      rw [if_neg (by norm_num)]
      rw [encode_body]
      simp only [hcnt'']
      rw [if_neg (by norm_num)]
      simp

/-! #### Byte-stream framing for the case-01 reads -/

theorem varint_encode_le10 {u : Nat} (h : u < 2 ^ 64) : (varint_encode u).length ≤ 10 :=
  varint_encode_length_le 9 u (lt_of_lt_of_le h (by norm_num))

theorem varint_decode_core_drop {lim : Nat} {buf : List Nat} {i u : Nat} {rest : List Nat}
    (hd : buf.drop i = varint_encode u ++ rest)
    (hlim : 7 * ((varint_encode u).length - 1) ≤ lim) :
    varint_decode_core lim buf i 0 0 = .ok (u, i + (varint_encode u).length) := by
  rw [varint_decode_core_eq, hd,
    vdecAux_encode lim u rest 0 0 (by norm_num) (by omega)]
  norm_num

theorem varint_decode_drop {buf : List Nat} {i u : Nat} {rest : List Nat}
    (hd : buf.drop i = varint_encode u ++ rest) (hu : u < 2 ^ 64) :
    varint_decode buf i = .ok (u, i + (varint_encode u).length) :=
  varint_decode_core_drop hd (by have := varint_encode_le10 hu; omega)

theorem read_zz_drop {buf : List Nat} {i : Nat} {x : Int} {rest : List Nat}
    (hx : i64 x) (hd : buf.drop i = zz_varint x ++ rest) :
    read_zz buf i = .ok (x, i + (zz_varint x).length) := by
  unfold zz_varint at hd
  unfold read_zz
  rw [varint_decode_drop hd (zigzag_encode_lt hx.1 hx.2)]
  have hz : Int.ofNat (zigzag_encode x).toNat = zigzag_encode x := by
    rw [Int.ofNat_eq_natCast, Int.toNat_of_nonneg (zigzag_encode_nonneg x)]
  dsimp only
  rw [hz, zigzag_decode_encode x hx.1 hx.2]
  rfl

theorem read_tup6_drop {buf : List Nat} {i : Nat} {t : Tup6} {rest : List Nat}
    (hr : tup6InRange t) (hd : buf.drop i = encTup6 t ++ rest) :
    read_tup6 buf i = .ok (t, i + (encTup6 t).length) := by
  obtain ⟨x1, x2, x3, x4, x5, x6⟩ := t
  obtain ⟨h1, h2, h3, h4, h5, h6⟩ := hr
  unfold encTup6 at hd
  simp only [List.append_assoc] at hd
  have r1 := read_zz_drop h1 hd
  have hd2 := drop_chunk hd
  have r2 := read_zz_drop h2 hd2
  have hd3 := drop_chunk hd2
  have r3 := read_zz_drop h3 hd3
  have hd4 := drop_chunk hd3
  have r4 := read_zz_drop h4 hd4
  have hd5 := drop_chunk hd4
  have r5 := read_zz_drop h5 hd5
  have hd6 := drop_chunk hd5
  have r6 := read_zz_drop h6 hd6
  unfold read_tup6
  rw [r1]
  dsimp only
  rw [r2]
  dsimp only
  rw [r3]
  dsimp only
  rw [r4]
  dsimp only
  rw [r5]
  dsimp only
  rw [r6]
  dsimp only
  have hlen : i + (zz_varint x1).length + (zz_varint x2).length + (zz_varint x3).length +
      (zz_varint x4).length + (zz_varint x5).length + (zz_varint x6).length =
      i + (encTup6 (x1, x2, x3, x4, x5, x6)).length := by
    simp only [encTup6, List.length_append]
    omega
  rw [hlen]

/-- When the maximal capped run at the head reaches the RLE threshold, the
body stream factors as one tag-0 block followed by the body of the rest. -/
theorem encode_body_rle_step {t : Tup6} {rest : List Tup6}
    (h : 3 ≤ countRun t rest (10000000 - 1) + 1) :
    encode_body (t :: rest) =
      (0 :: varint_encode (countRun t rest (10000000 - 1) + 1) ++ encTup6 t) ++
        encode_body (rest.drop (countRun t rest (10000000 - 1))) := by
  rw [encode_body]
  simp only [if_pos h]
  rw [Nat.add_sub_cancel]

/-- Main loop lemma: the case-01 decode loop, fed the byte stream the greedy
encoder produced for the remaining deltas, reconstructs exactly the scan of
those deltas from the last decoded row. -/
theorem decodeLoop_encode :
    ∀ (N : Nat) (ds : List Tup6), ds.length ≤ N →
    ∀ (buf : List Nat) (n i : Nat) (acc : List Bar),
      buf.drop i = encode_body ds →
      (∀ t ∈ ds, tup6InRange t) →
      acc ≠ [] →
      acc.length + ds.length = n →
      decodeLoop buf n i acc =
        .ok (acc ++ (List.scanl addBar acc.getLast! ds).tail) := by
  intro N
  induction N with
  | zero =>
    intro ds hN buf n i acc hd hr hne hlen
    have hds : ds = [] := List.length_eq_zero.mp (by omega)
    subst hds
    rw [decodeLoop, if_pos (by simp at hlen; omega)]
    simp [List.scanl]
  | succ N ih =>
    intro ds hN buf n i acc hd hr hne hlen
    cases ds with
    | nil =>
      rw [decodeLoop, if_pos (by simp at hlen; omega)]
      simp [List.scanl]
    | cons t rest =>
      have hrt : tup6InRange t := hr t (by simp)
      by_cases hrun : 3 ≤ countRun t rest (10000000 - 1) + 1
      · -- tag-0 RLE block
        rw [encode_body_rle_step hrun] at hd
        simp only [List.cons_append, List.append_assoc] at hd
        have hlt : i < buf.length := drop_cons_lt hd
        have hb0 : buf[i] = 0 := drop_cons_head hd hlt
        have hd2 := drop_cons_tail hd
        have hcb := countRun_le_budget t rest (10000000 - 1)
        have hcl := countRun_le_len t rest (10000000 - 1)
        have hvd := varint_decode_drop hd2
          (by omega : countRun t rest (10000000 - 1) + 1 < 2 ^ 64)
        have hd3 := drop_chunk hd2
        have htd := read_tup6_drop hrt hd3
        have hd4 := drop_chunk hd3
        rw [decodeLoop, if_neg (by simp at hlen ⊢; omega), dif_pos hlt]
        rw [if_pos hb0]
        rw [hvd]
        dsimp only
        rw [htd]
        dsimp only
        rw [appendRun_eq t _ hne]
        rw [ih (rest.drop (countRun t rest (10000000 - 1)))
          (by simp only [List.length_drop]; simp at hN; omega)
          buf n _ _ hd4
          (fun t' ht' => hr t' (List.mem_cons_of_mem t (List.mem_of_mem_drop ht')))
          (by simp [hne])
          (by
            simp only [List.length_append, List.length_tail, List.length_scanl,
              List.length_replicate, List.length_drop]
            simp at hlen
            omega)]
        rw [getLast!_append_scanl_tail addBar hne]
        have hsplit : t :: rest =
            List.replicate (countRun t rest (10000000 - 1) + 1) t ++
              rest.drop (countRun t rest (10000000 - 1)) := by
          rw [List.replicate_succ]
          simp only [List.cons_append]
          congr 1
          rw [← countRun_take t rest (10000000 - 1)]
          exact (List.take_append_drop _ rest).symm
        have hscan :
            (List.scanl addBar acc.getLast! (t :: rest)).tail =
              (List.scanl addBar acc.getLast!
                  (List.replicate (countRun t rest (10000000 - 1) + 1) t)).tail ++
                (List.scanl addBar
                  (List.foldl addBar acc.getLast!
                    (List.replicate (countRun t rest (10000000 - 1) + 1) t))
                  (rest.drop (countRun t rest (10000000 - 1)))).tail := by
          conv =>
            lhs
            rw [hsplit]
          rw [scanl_append]
          rw [scanl_eq_cons addBar acc.getLast!
            (List.replicate (countRun t rest (10000000 - 1) + 1) t)]
          simp
        rw [hscan, List.append_assoc]
      · -- literal tag-1 block
        rw [encode_body_lit_step (by omega)] at hd
        simp only [List.cons_append, List.append_assoc] at hd
        have hlt : i < buf.length := drop_cons_lt hd
        have hb1 : buf[i] = 1 := drop_cons_head hd hlt
        have hd2 := drop_cons_tail hd
        have htd := read_tup6_drop hrt hd2
        have hd3 := drop_chunk hd2
        rw [decodeLoop, if_neg (by simp at hlen ⊢; omega), dif_pos hlt]
        rw [if_neg (show ¬ buf[i] = 0 by rw [hb1]; norm_num), if_pos hb1]
        rw [htd]
        dsimp only
        rw [ih rest (by simp at hN; omega) buf n _ _ hd3
          (fun t' ht' => hr t' (List.mem_cons_of_mem t ht'))
          (by simp)
          (by simp at hlen ⊢; omega)]
        rw [getLast!_concat]
        rw [List.append_assoc]
        rw [List.scanl_cons]
        simp only [List.singleton_append, List.tail_cons]
        exact congrArg (fun z => Except.ok (acc ++ z))
          ((scanl_eq_cons addBar (addBar acc.getLast! t) rest).symm)

/-! #### decode_star ∘ encode_star (case 01) -/

theorem deltasOf_length : ∀ (l : List Bar), (deltasOf l).length = l.length - 1 := by
  intro l
  match l with
  | [] => rfl
  | [a] => rfl
  | a :: b :: rest =>
    show (barSub b a :: deltasOf (b :: rest)).length = _
    rw [List.length_cons, deltasOf_length (b :: rest)]
    simp

theorem tupOfBar_barOfTup (b : Bar) :
    barOfTup (b.d_days, b.o, b.h, b.l, b.c, b.v) = b := rfl

theorem bar_zz_eq_encTup6 (b : Bar) :
    bar_zz b = encTup6 (b.d_days, b.o, b.h, b.l, b.c, b.v) := rfl

theorem barInRange_tup {b : Bar} (h : barInRange b) :
    tup6InRange (b.d_days, b.o, b.h, b.l, b.c, b.v) := h

/-- Round trip for case 01: decoding the encoder's output returns the rows,
provided the rows and their successive deltas stay in the signed 64-bit
range, the row count and price scale are below 2^63. -/
theorem decode_star_encode (bars : List Bar) (ps : Nat)
    (hn : bars.length < 2 ^ 63) (hps : ps < 2 ^ 63)
    (hrows : ∀ b ∈ bars, barInRange b)
    (hds : ∀ t ∈ deltasOf bars, tup6InRange t) :
    decode_star (encode_star bars ps) =
      .ok (bars, bars.length, if bars.isEmpty then 0 else ps) := by
  cases bars with
  | nil =>
    unfold encode_star decode_star
    have hmagic : (magicSTAR1 ++ varint_encode 0).take 5 = magicSTAR1 :=
      List.take_left' rfl
    rw [if_pos hmagic]
    have hd : (magicSTAR1 ++ varint_encode 0).drop 5 = varint_encode 0 ++ [] := by
      rw [List.append_nil]
      exact List.drop_left' rfl
    rw [varint_decode_drop hd (by norm_num)]
    rfl
  | cons b0 tl =>
    have hb0 : barInRange b0 := hrows b0 (by simp)
    unfold encode_star decode_star
    dsimp only
    rw [bar_zz_eq_encTup6]
    simp only [List.append_assoc]
    have hmagic : (magicSTAR1 ++ (varint_encode (b0 :: tl).length ++ (varint_encode ps ++
        (encTup6 (b0.d_days, b0.o, b0.h, b0.l, b0.c, b0.v) ++
          encode_body (deltasOf (b0 :: tl)))))).take 5 = magicSTAR1 :=
      List.take_left' rfl
    rw [if_pos hmagic]
    have hd1 : (magicSTAR1 ++ (varint_encode (b0 :: tl).length ++ (varint_encode ps ++
        (encTup6 (b0.d_days, b0.o, b0.h, b0.l, b0.c, b0.v) ++
          encode_body (deltasOf (b0 :: tl)))))).drop 5 =
        varint_encode (b0 :: tl).length ++ (varint_encode ps ++
          (encTup6 (b0.d_days, b0.o, b0.h, b0.l, b0.c, b0.v) ++
            encode_body (deltasOf (b0 :: tl)))) :=
      List.drop_left' rfl
    rw [varint_decode_drop hd1 (by
      have : (b0 :: tl).length < 2 ^ 63 := hn
      omega)]
    dsimp only
    rw [if_neg (by simp)]
    have hd2 := drop_chunk hd1
    rw [varint_decode_drop hd2 (by omega)]
    dsimp only
    have hd3 := drop_chunk hd2
    rw [read_tup6_drop (barInRange_tup hb0) hd3]
    dsimp only
    have hd4 := drop_chunk hd3
    rw [decodeLoop_encode (deltasOf (b0 :: tl)).length (deltasOf (b0 :: tl)) le_rfl
      _ (b0 :: tl).length _ [barOfTup (b0.d_days, b0.o, b0.h, b0.l, b0.c, b0.v)] hd4 hds
      (by simp)
      (by
        rw [List.length_singleton, deltasOf_length (b0 :: tl)]
        simp
        omega)]
    rw [tupOfBar_barOfTup]
    have hlast : ([b0] : List Bar).getLast! = b0 := getLast!_concat [] b0
    rw [hlast]
    have hrec : List.scanl addBar b0 (deltasOf (b0 :: tl)) = b0 :: tl := reconstruct tl b0
    have : [b0] ++ (List.scanl addBar b0 (deltasOf (b0 :: tl))).tail = b0 :: tl := by
      rw [scanl_eq_cons addBar b0 (deltasOf (b0 :: tl))] at hrec
      simpa using hrec
    rw [this]
    rfl

/-- The case-01 decode loop never returns fewer than `n` rows. -/
theorem decodeLoop_ge {buf : List Nat} {n i : Nat} {acc out : List Bar}
    (h : decodeLoop buf n i acc = .ok out) : n ≤ out.length := by
  induction i, acc using decodeLoop.induct buf n with
  | case1 i acc hle =>
    rw [decodeLoop, if_pos hle] at h
    simp only [Except.ok.injEq] at h
    subst h
    exact hle
  | case2 i acc hle hlt htag e hv =>
    rw [decodeLoop, if_neg hle, dif_pos hlt, if_pos htag, hv] at h
    exact absurd h (by simp)
  | case3 i acc hle hlt htag run i1 hv e ht =>
    rw [decodeLoop, if_neg hle, dif_pos hlt, if_pos htag, hv] at h
    dsimp only at h
    rw [ht] at h
    exact absurd h (by simp)
  | case4 i acc hle hlt htag run i1 hv t i2 ht ih =>
    rw [decodeLoop, if_neg hle, dif_pos hlt, if_pos htag, hv] at h
    dsimp only at h
    rw [ht] at h
    dsimp only at h
    exact ih h
  | case5 i acc hle hlt htag0 htag1 e ht =>
    rw [decodeLoop, if_neg hle, dif_pos hlt, if_neg htag0, if_pos htag1, ht] at h
    exact absurd h (by simp)
  | case6 i acc hle hlt htag0 htag1 t i2 ht ih =>
    rw [decodeLoop, if_neg hle, dif_pos hlt, if_neg htag0, if_pos htag1, ht] at h
    dsimp only at h
    exact ih h
  | case7 i acc hle hlt htag0 htag1 =>
    rw [decodeLoop, if_neg hle, dif_pos hlt, if_neg htag0, if_neg htag1] at h
    exact absurd h (by simp)
  | case8 i acc hle hlt =>
    rw [decodeLoop, if_neg hle, dif_neg hlt] at h
    exact absurd h (by simp)

theorem decode_star_ge {buf : List Nat} {bars : List Bar} {n ps : Nat}
    (h : decode_star buf = .ok (bars, n, ps)) : n ≤ bars.length := by
  unfold decode_star at h
  by_cases hm : buf.take 5 = magicSTAR1
  · rw [if_pos hm] at h
    cases h1 : varint_decode buf 5 with
    | error e => rw [h1] at h; exact absurd h (by simp)
    | ok p =>
      obtain ⟨n0, i1⟩ := p
      rw [h1] at h
      dsimp only at h
      by_cases hn0 : n0 = 0
      · rw [if_pos hn0] at h
        simp only [Except.ok.injEq, Prod.mk.injEq] at h
        obtain ⟨hb, hn, hp⟩ := h
        subst hb
        subst hn
        simp
      · rw [if_neg hn0] at h
        cases h2 : varint_decode buf i1 with
        | error e => rw [h2] at h; exact absurd h (by simp)
        | ok p2 =>
          obtain ⟨ps0, i2⟩ := p2
          rw [h2] at h
          dsimp only at h
          cases h3 : read_tup6 buf i2 with
          | error e => rw [h3] at h; exact absurd h (by simp)
          | ok p3 =>
            obtain ⟨t, i3⟩ := p3
            rw [h3] at h
            dsimp only at h
            cases h4 : decodeLoop buf n0 i3 [barOfTup t] with
            | error e => rw [h4] at h; exact absurd h (by simp)
            | ok out =>
              rw [h4] at h
              dsimp only at h
              simp only [Except.ok.injEq, Prod.mk.injEq] at h
              obtain ⟨hb, hn, hp⟩ := h
              cases hb
              cases hn
              exact decodeLoop_ge h4
  · rw [if_neg hm] at h
    exact absurd h (by simp)

end Case01

/-! ### Case-01 index builder (`star_index_case01.py`)

The module's `zigzag_decode` and `varint_decode` are byte-identical copies of
the case-01 ones, so `Case01.varint_decode` / `Case01.read_tup6` model them.
An anchor is `(row_index, byte_offset, snapshot)`. -/

namespace Index01

open Case01

/-- `parse_star1_header`: magic, `n`, `price_scale`, the base row, and the
position where the body starts. -/
def parse_star1_header (buf : List Nat) : Except Err (Nat × Nat × Bar × Nat) :=
  if buf.take 5 = magicSTAR1 then
    match varint_decode buf 5 with
    | .error e => .error e
    | .ok (n, i1) =>
      if n = 0 then .ok (0, 0, ⟨0, 0, 0, 0, 0, 0⟩, i1)
      else
        match varint_decode buf i1 with
        | .error e => .error e
        | .ok (ps, i2) =>
          match read_tup6 buf i2 with
          | .error e => .error e
          | .ok (t, i3) => .ok (n, ps, barOfTup t, i3)
  else .error .badMagic

/-- `decode_block`: one tag-0 RLE block (returning its run) or one tag-1
literal block (run 1). -/
def decode_block (buf : List Nat) (i : Nat) : Except Err (Tup6 × Nat × Nat) :=
  if h : i < buf.length then
    if buf[i] = 0 then
      match varint_decode buf (i + 1) with
      | .error e => .error e
      | .ok (run, i1) =>
        match read_tup6 buf i1 with
        | .error e => .error e
        | .ok (t, i2) => .ok (t, run, i2)
    else if buf[i] = 1 then
      match read_tup6 buf (i + 1) with
      | .error e => .error e
      | .ok (t, i2) => .ok (t, 1, i2)
    else .error .badTag
  else .error .truncatedBody

theorem decode_block_lt {buf : List Nat} {i : Nat} {t : Tup6} {run i2 : Nat}
    (h : decode_block buf i = .ok (t, run, i2)) : i < i2 ∧ i2 ≤ buf.length := by
  unfold decode_block at h
  repeat' split at h
  any_goals simp at h
  · rename_i hlt htag s1 run1 i1 hv s2 t1 i2' ht
    obtain ⟨-, -, hi⟩ := h
    subst hi
    have h1 := varint_decode_lt hv
    have h2 := read_tup6_lt ht
    omega
  · rename_i hlt htag0 htag1 s2 t1 i2' ht
    obtain ⟨-, -, hi⟩ := h
    subst hi
    have h2 := read_tup6_lt ht
    omega

/-- The run-application loop of `build_index`: apply the delta `run` times to
`(cur, row)`, stopping early when `row` reaches `n_rows`. -/
def runState (t : Tup6) (n_rows : Nat) : Nat → Bar × Nat → Bar × Nat
  | 0, st => st
  | r + 1, (cur, row) =>
    if n_rows ≤ row + 1 then (addBar cur t, row + 1)
    else runState t n_rows r (addBar cur t, row + 1)

/-- The `while row < n_rows - 1` walk of `build_index`, carrying the anchor
list; block-boundary anchors are recorded before reading the next tag. -/
def indexLoop (buf : List Nat) (ae n_rows : Nat) (row pos : Nat) (cur : Bar)
    (anchors : List (Nat × Nat × Bar)) :
    Except Err (Nat × Nat × Bar × List (Nat × Nat × Bar)) :=
  if row < n_rows - 1 then
    let anchors' :=
      if row % ae = 0 ∧ ¬(row = 0 ∧ anchors ≠ [] ∧ (anchors.getLast!).1 = 0)
      then anchors ++ [(row, pos, cur)] else anchors
    match hb : decode_block buf pos with
    | .error e => .error e
    | .ok (t, run, pos2) =>
      let st := runState t n_rows run (cur, row)
      if buf.length < pos2 then .error .truncatedBody
      else indexLoop buf ae n_rows st.2 pos2 st.1 anchors'
  else .ok (row, pos, cur, anchors)
termination_by buf.length - pos
decreasing_by
  have := decode_block_lt hb
  omega

/-- `build_index` (file reading dropped: the STAR buffer is the argument).
Returns `n_rows` and the anchor list. -/
def build_index (buf : List Nat) (anchor_every : Nat) :
    Except Err (Nat × List (Nat × Nat × Bar)) :=
  match parse_star1_header buf with
  | .error e => .error e
  | .ok (n_rows, _ps, base, body_i) =>
    if n_rows = 0 then .ok (0, [(0, body_i, base)])
    else
      match indexLoop buf anchor_every n_rows 0 body_i base [(0, body_i, base)] with
      | .error e => .error e
      | .ok (row, pos, cur, anchors) =>
        .ok (n_rows,
          if (anchors.getLast!).1 ≠ row then anchors ++ [(row, pos, cur)] else anchors)

theorem decode_block_rle {buf : List Nat} {i run : Nat} {t : Tup6} {rest : List Nat}
    (hd : buf.drop i = 0 :: (varint_encode run ++ (encTup6 t ++ rest)))
    (hrun : run < 2 ^ 64) (hr : tup6InRange t) :
    decode_block buf i =
      .ok (t, run, i + 1 + (varint_encode run).length + (encTup6 t).length) := by
  have hlt := drop_cons_lt hd
  have hb0 := drop_cons_head hd hlt
  have hd2 := drop_cons_tail hd
  have hvd := varint_decode_drop hd2 hrun
  have hd3 := drop_chunk hd2
  have htd := read_tup6_drop hr hd3
  unfold decode_block
  rw [dif_pos hlt, if_pos hb0, hvd]
  dsimp only
  rw [htd]

theorem decode_block_lit {buf : List Nat} {i : Nat} {t : Tup6} {rest : List Nat}
    (hd : buf.drop i = 1 :: (encTup6 t ++ rest)) (hr : tup6InRange t) :
    decode_block buf i = .ok (t, 1, i + 1 + (encTup6 t).length) := by
  have hlt := drop_cons_lt hd
  have hb1 := drop_cons_head hd hlt
  have hd2 := drop_cons_tail hd
  have htd := read_tup6_drop hr hd2
  unfold decode_block
  rw [dif_pos hlt, if_neg (show ¬ buf[i] = 0 by rw [hb1]; norm_num), if_pos hb1, htd]

theorem runState_no_break (t : Tup6) (n : Nat) :
    ∀ (r : Nat) (cur : Bar) (row : Nat), row + r < n →
      runState t n r (cur, row) = (List.foldl addBar cur (List.replicate r t), row + r) := by
  intro r
  induction r with
  | zero =>
    intro cur row h
    simp [runState]
  | succ r ih =>
    intro cur row h
    unfold runState
    rw [if_neg (by omega), ih (addBar cur t) (row + 1) (by omega)]
    rw [List.replicate_succ, List.foldl_cons]
    have : row + 1 + r = row + (r + 1) := by omega
    rw [this]

theorem scanl_replicate_drop {a b : Type} (f : b -> a -> b) :
    ∀ (r : Nat) (s : b) (t : a) (X : List b),
      List.drop r (List.scanl f s (List.replicate r t) ++ X) =
        List.foldl f s (List.replicate r t) :: X := by
  intro r
  induction r with
  | zero =>
    intro s t X
    simp [List.scanl]
  | succ r ih =>
    intro s t X
    rw [List.replicate_succ, List.scanl_cons, List.foldl_cons]
    simp only [List.singleton_append, List.cons_append, List.drop_succ_cons]
    exact ih (f s t) t X

/-- The property of a produced anchor that the replay-equivalence and
anchor-boundary claims rest on: its offset is inside the buffer, the bytes
from its offset are the greedy body of the remaining deltas, and the rows
from its row index are the scan of those deltas from its snapshot. -/
def GoodAnchor (buf : List Nat) (n : Nat) (rows : List Bar) (a : Nat × Nat × Bar) : Prop :=
  a.2.1 ≤ buf.length ∧
  ∃ dsRem, buf.drop a.2.1 = encode_body dsRem ∧
    (∀ t ∈ dsRem, tup6InRange t) ∧
    a.1 + dsRem.length + 1 = n ∧
    rows.drop a.1 = List.scanl addBar a.2.2 dsRem

theorem list_if_append {p : Prop} [Decidable p] {A : Type} (l : List A) (x : A) :
    (if p then l ++ [x] else l) = l ++ (if p then [x] else []) := by
  by_cases h : p <;> simp [h]

theorem indexLoop_spec :
    ∀ (N : Nat) (ds : List Tup6), ds.length ≤ N →
    ∀ (buf : List Nat) (ae n row pos : Nat) (cur : Bar)
      (anchors : List (Nat × Nat × Bar)) (rows : List Bar),
      buf.drop pos = encode_body ds →
      pos ≤ buf.length →
      (∀ t ∈ ds, tup6InRange t) →
      row + ds.length + 1 = n →
      rows.drop row = List.scanl addBar cur ds →
      ∃ anchorsNew,
        indexLoop buf ae n row pos cur anchors =
          .ok (n - 1, buf.length, List.foldl addBar cur ds, anchors ++ anchorsNew) ∧
        ∀ a ∈ anchorsNew, GoodAnchor buf n rows a := by
  intro N
  induction N with
  | zero =>
    intro ds hN buf ae n row pos cur anchors rows hd hpos hr hcnt hrows
    have hds : ds = [] := List.length_eq_zero.mp (by omega)
    subst hds
    simp only [List.length_nil] at hcnt
    refine ⟨[], ?_, by simp⟩
    rw [indexLoop, if_neg (by omega)]
    have hpl : pos = buf.length := by
      have hnil : buf.drop pos = [] := by rw [hd]; simp [encode_body]
      have hge := List.drop_eq_nil_iff.mp hnil
      omega
    rw [hpl]
    simp
    omega
  | succ N ih =>
    intro ds hN buf ae n row pos cur anchors rows hd hpos hr hcnt hrows
    cases ds with
    | nil =>
      simp only [List.length_nil] at hcnt
      refine ⟨[], ?_, by simp⟩
      rw [indexLoop, if_neg (by omega)]
      have hpl : pos = buf.length := by
        have hnil : buf.drop pos = [] := by rw [hd]; simp [encode_body]
        have hge := List.drop_eq_nil_iff.mp hnil
        omega
      rw [hpl]
      simp
      omega
    | cons t rest =>
      have hrt : tup6InRange t := hr t (by simp)
      have hrow : row < n - 1 := by simp at hcnt; omega
      by_cases hrun : 3 ≤ countRun t rest (10000000 - 1) + 1
      · -- tag-0 RLE block
        rw [encode_body_rle_step hrun] at hd
        simp only [List.cons_append, List.append_assoc] at hd
        have hcb := countRun_le_budget t rest (10000000 - 1)
        have hcl := countRun_le_len t rest (10000000 - 1)
        have hdb := decode_block_rle hd (by omega) hrt
        have hblt := decode_block_lt hdb
        have hd2 := drop_cons_tail hd
        have hd3 := drop_chunk hd2
        have hd4 := drop_chunk hd3
        have hsplit : t :: rest =
            List.replicate (countRun t rest (10000000 - 1) + 1) t ++
              rest.drop (countRun t rest (10000000 - 1)) := by
          rw [List.replicate_succ]
          simp only [List.cons_append]
          congr 1
          rw [← countRun_take t rest (10000000 - 1)]
          exact (List.take_append_drop _ rest).symm
        have hrows' :
            rows.drop (row + (countRun t rest (10000000 - 1) + 1)) =
              List.scanl addBar
                (List.foldl addBar cur
                  (List.replicate (countRun t rest (10000000 - 1) + 1) t))
                (rest.drop (countRun t rest (10000000 - 1))) := by
          have h1 : rows.drop (row + (countRun t rest (10000000 - 1) + 1)) =
              List.drop (countRun t rest (10000000 - 1) + 1) (rows.drop row) := by
            rw [List.drop_drop, Nat.add_comm row]
          rw [h1, hrows]
          conv =>
            lhs
            rw [hsplit]
          rw [scanl_append]
          rw [scanl_replicate_drop]
          exact (scanl_eq_cons _ _ _).symm
        obtain ⟨anchorsNew, hloop, hgood⟩ :=
          ih (rest.drop (countRun t rest (10000000 - 1)))
            (by simp only [List.length_drop]; simp at hN; omega)
            buf ae n (row + (countRun t rest (10000000 - 1) + 1)) _ _
            ((if row % ae = 0 ∧ ¬(row = 0 ∧ anchors ≠ [] ∧ (anchors.getLast!).1 = 0)
              then anchors ++ [(row, pos, cur)] else anchors))
            rows hd4 (by omega)
            (fun t' ht' => hr t' (List.mem_cons_of_mem t (List.mem_of_mem_drop ht')))
            (by simp only [List.length_drop]; simp at hcnt; omega)
            hrows'
        refine ⟨(if row % ae = 0 ∧ ¬(row = 0 ∧ anchors ≠ [] ∧ (anchors.getLast!).1 = 0)
              then [(row, pos, cur)] else []) ++ anchorsNew, ?_, ?_⟩
        · rw [indexLoop, if_pos hrow]
          dsimp only
          rw [hdb]
          dsimp only
          rw [runState_no_break t n (countRun t rest (10000000 - 1) + 1) cur row
            (by simp at hcnt; omega)]
          dsimp only
          rw [if_neg (by omega)]
          rw [hloop]
          rw [list_if_append, List.append_assoc]
          have hfold : List.foldl addBar
              (List.foldl addBar cur (List.replicate (countRun t rest (10000000 - 1) + 1) t))
              (rest.drop (countRun t rest (10000000 - 1))) =
              List.foldl addBar cur (t :: rest) := by
            conv =>
              rhs
              rw [hsplit]
            rw [List.foldl_append]
          rw [hfold]
        · intro a ha
          rcases List.mem_append.mp ha with ha | ha
          · by_cases hP : row % ae = 0 ∧ ¬(row = 0 ∧ anchors ≠ [] ∧ (anchors.getLast!).1 = 0)
            · rw [if_pos hP] at ha
              simp only [List.mem_singleton] at ha
              subst ha
              refine ⟨hpos, t :: rest, ?_, hr, by simp at hcnt ⊢; omega, hrows⟩
              rw [encode_body_rle_step hrun]
              simp only [List.cons_append, List.append_assoc]
              exact hd
            · rw [if_neg hP] at ha
              simp at ha
          · exact hgood a ha
      · -- literal tag-1 block
        rw [encode_body_lit_step (by omega)] at hd
        simp only [List.cons_append, List.append_assoc] at hd
        have hdb := decode_block_lit hd hrt
        have hblt := decode_block_lt hdb
        have hd2 := drop_cons_tail hd
        have hd3 := drop_chunk hd2
        have hrows' : rows.drop (row + 1) = List.scanl addBar (addBar cur t) rest := by
          have h1 : rows.drop (row + 1) = List.drop 1 (rows.drop row) := by
            rw [List.drop_drop, Nat.add_comm row]
          rw [h1, hrows, List.scanl_cons]
          simp
        obtain ⟨anchorsNew, hloop, hgood⟩ :=
          ih rest (by simp at hN; omega)
            buf ae n (row + 1) _ _
            ((if row % ae = 0 ∧ ¬(row = 0 ∧ anchors ≠ [] ∧ (anchors.getLast!).1 = 0)
              then anchors ++ [(row, pos, cur)] else anchors))
            rows hd3 (by omega)
            (fun t' ht' => hr t' (List.mem_cons_of_mem t ht'))
            (by simp at hcnt ⊢; omega)
            hrows'
        refine ⟨(if row % ae = 0 ∧ ¬(row = 0 ∧ anchors ≠ [] ∧ (anchors.getLast!).1 = 0)
              then [(row, pos, cur)] else []) ++ anchorsNew, ?_, ?_⟩
        · rw [indexLoop, if_pos hrow]
          dsimp only
          rw [hdb]
          dsimp only
          have hrs : runState t n 1 (cur, row) = (addBar cur t, row + 1) := by
            unfold runState
            rw [if_neg (by simp at hcnt; omega)]
            rfl
          rw [hrs]
          dsimp only
          rw [if_neg (by omega)]
          rw [hloop]
          rw [list_if_append, List.append_assoc]
          rw [List.foldl_cons]
        · intro a ha
          rcases List.mem_append.mp ha with ha | ha
          · by_cases hP : row % ae = 0 ∧ ¬(row = 0 ∧ anchors ≠ [] ∧ (anchors.getLast!).1 = 0)
            · rw [if_pos hP] at ha
              simp only [List.mem_singleton] at ha
              subst ha
              refine ⟨hpos, t :: rest, ?_, hr, by simp at hcnt ⊢; omega, hrows⟩
              rw [encode_body_lit_step (by omega)]
              simp only [List.cons_append, List.append_assoc]
              exact hd
            · rw [if_neg hP] at ha
              simp at ha
          · exact hgood a ha

theorem drop_scanl_foldl {a b : Type} (f : b -> a -> b) :
    ∀ (l : List a) (s : b),
      List.drop l.length (List.scanl f s l) = [List.foldl f s l] := by
  intro l
  induction l with
  | nil =>
    intro s
    simp [List.scanl]
  | cons x xs ih =>
    intro s
    rw [List.scanl_cons, List.length_cons]
    simp only [List.singleton_append, List.drop_succ_cons, List.foldl_cons]
    exact ih (f s x)

/-- `parse_star1_header` on the encoder's output recovers the header fields
and stops exactly at the start of the body. -/
theorem parse_header_encode (b0 : Bar) (tl : List Bar) (ps : Nat)
    (hn : (b0 :: tl).length < 2 ^ 63) (hps : ps < 2 ^ 63) (hb0 : barInRange b0) :
    parse_star1_header (encode_star (b0 :: tl) ps) =
      .ok ((b0 :: tl).length, ps, b0,
        5 + (varint_encode (b0 :: tl).length).length + (varint_encode ps).length +
          (encTup6 (b0.d_days, b0.o, b0.h, b0.l, b0.c, b0.v)).length) := by
  unfold encode_star parse_star1_header
  dsimp only
  rw [bar_zz_eq_encTup6]
  simp only [List.append_assoc]
  have hmagic : (magicSTAR1 ++ (varint_encode (b0 :: tl).length ++ (varint_encode ps ++
      (encTup6 (b0.d_days, b0.o, b0.h, b0.l, b0.c, b0.v) ++
        encode_body (deltasOf (b0 :: tl)))))).take 5 = magicSTAR1 :=
    List.take_left' rfl
  rw [if_pos hmagic]
  have hd1 : (magicSTAR1 ++ (varint_encode (b0 :: tl).length ++ (varint_encode ps ++
      (encTup6 (b0.d_days, b0.o, b0.h, b0.l, b0.c, b0.v) ++
        encode_body (deltasOf (b0 :: tl)))))).drop 5 =
      varint_encode (b0 :: tl).length ++ (varint_encode ps ++
        (encTup6 (b0.d_days, b0.o, b0.h, b0.l, b0.c, b0.v) ++
          encode_body (deltasOf (b0 :: tl)))) :=
    List.drop_left' rfl
  rw [varint_decode_drop hd1 (by
    have : (b0 :: tl).length < 2 ^ 63 := hn
    omega)]
  dsimp only
  rw [if_neg (by simp)]
  have hd2 := drop_chunk hd1
  rw [varint_decode_drop hd2 (by omega)]
  dsimp only
  have hd3 := drop_chunk hd2
  rw [read_tup6_drop (barInRange_tup hb0) hd3]
  dsimp only
  rw [tupOfBar_barOfTup]

/-- `build_index` on a nonempty encoded blob succeeds with the header's row
count, and every anchor it emits satisfies the `GoodAnchor` invariant with
respect to the original rows. -/
theorem build_index_spec (b0 : Bar) (tl : List Bar) (ps ae : Nat)
    (hn : (b0 :: tl).length < 2 ^ 63) (hps : ps < 2 ^ 63)
    (hrows : ∀ b ∈ b0 :: tl, barInRange b)
    (hds : ∀ t ∈ deltasOf (b0 :: tl), tup6InRange t) :
    ∃ anchors, build_index (encode_star (b0 :: tl) ps) ae =
        .ok ((b0 :: tl).length, anchors) ∧
      anchors ≠ [] ∧
      ∀ a ∈ anchors,
        GoodAnchor (encode_star (b0 :: tl) ps) (b0 :: tl).length (b0 :: tl) a := by
  have hb0 : barInRange b0 := hrows b0 (by simp)
  have hph := parse_header_encode b0 tl ps hn hps hb0
  have hdslen : (deltasOf (b0 :: tl)).length = tl.length := by
    rw [deltasOf_length]
    simp
  have hd4 : (encode_star (b0 :: tl) ps).drop
      (5 + (varint_encode (b0 :: tl).length).length + (varint_encode ps).length +
        (encTup6 (b0.d_days, b0.o, b0.h, b0.l, b0.c, b0.v)).length) =
      encode_body (deltasOf (b0 :: tl)) := by
    unfold encode_star
    dsimp only
    rw [bar_zz_eq_encTup6]
    simp only [List.append_assoc]
    have hd1 : (magicSTAR1 ++ (varint_encode (b0 :: tl).length ++ (varint_encode ps ++
        (encTup6 (b0.d_days, b0.o, b0.h, b0.l, b0.c, b0.v) ++
          encode_body (deltasOf (b0 :: tl)))))).drop 5 =
        varint_encode (b0 :: tl).length ++ (varint_encode ps ++
          (encTup6 (b0.d_days, b0.o, b0.h, b0.l, b0.c, b0.v) ++
            encode_body (deltasOf (b0 :: tl)))) :=
      List.drop_left' rfl
    have hd2 := drop_chunk hd1
    have hd3 := drop_chunk hd2
    exact drop_chunk hd3
  have hlen : (encode_star (b0 :: tl) ps).length =
      5 + (varint_encode (b0 :: tl).length).length + (varint_encode ps).length +
        (encTup6 (b0.d_days, b0.o, b0.h, b0.l, b0.c, b0.v)).length +
        (encode_body (deltasOf (b0 :: tl))).length := by
    unfold encode_star
    dsimp only
    rw [bar_zz_eq_encTup6]
    simp only [List.length_append, magicSTAR1]
    simp
  obtain ⟨anchorsNew, hloop, hgood⟩ :=
    indexLoop_spec (deltasOf (b0 :: tl)).length (deltasOf (b0 :: tl)) le_rfl
      (encode_star (b0 :: tl) ps) ae (b0 :: tl).length 0
      (5 + (varint_encode (b0 :: tl).length).length + (varint_encode ps).length +
        (encTup6 (b0.d_days, b0.o, b0.h, b0.l, b0.c, b0.v)).length)
      b0
      [(0, 5 + (varint_encode (b0 :: tl).length).length + (varint_encode ps).length +
        (encTup6 (b0.d_days, b0.o, b0.h, b0.l, b0.c, b0.v)).length, b0)]
      (b0 :: tl)
      hd4 (by omega) hds
      (by rw [hdslen]; simp)
      (by rw [List.drop_zero]; exact (reconstruct tl b0).symm)
  have hbi : build_index (encode_star (b0 :: tl) ps) ae = .ok ((b0 :: tl).length,
      if (([(0, 5 + (varint_encode (b0 :: tl).length).length + (varint_encode ps).length +
            (encTup6 (b0.d_days, b0.o, b0.h, b0.l, b0.c, b0.v)).length, b0)] ++
            anchorsNew).getLast!).1 ≠ (b0 :: tl).length - 1
      then ([(0, 5 + (varint_encode (b0 :: tl).length).length + (varint_encode ps).length +
            (encTup6 (b0.d_days, b0.o, b0.h, b0.l, b0.c, b0.v)).length, b0)] ++
            anchorsNew) ++
          [((b0 :: tl).length - 1, (encode_star (b0 :: tl) ps).length,
            List.foldl addBar b0 (deltasOf (b0 :: tl)))]
      else [(0, 5 + (varint_encode (b0 :: tl).length).length + (varint_encode ps).length +
            (encTup6 (b0.d_days, b0.o, b0.h, b0.l, b0.c, b0.v)).length, b0)] ++
            anchorsNew) := by
    unfold build_index
    rw [hph]
    dsimp only
    rw [if_neg (by simp)]
    rw [hloop]
  refine ⟨_, hbi, ?_, ?_⟩
  · by_cases hif : (([(0, 5 + (varint_encode (b0 :: tl).length).length +
        (varint_encode ps).length +
        (encTup6 (b0.d_days, b0.o, b0.h, b0.l, b0.c, b0.v)).length, b0)] ++
          anchorsNew).getLast!).1 ≠ (b0 :: tl).length - 1
    · rw [if_pos hif]
      simp
    · rw [if_neg hif]
      simp
  · intro a ha
    have hmem : a ∈ [(0, 5 + (varint_encode (b0 :: tl).length).length +
        (varint_encode ps).length +
        (encTup6 (b0.d_days, b0.o, b0.h, b0.l, b0.c, b0.v)).length, b0)] ++
          anchorsNew ∨
        a = ((b0 :: tl).length - 1, (encode_star (b0 :: tl) ps).length,
          List.foldl addBar b0 (deltasOf (b0 :: tl))) := by
      by_cases hif : (([(0, 5 + (varint_encode (b0 :: tl).length).length +
          (varint_encode ps).length +
          (encTup6 (b0.d_days, b0.o, b0.h, b0.l, b0.c, b0.v)).length, b0)] ++
            anchorsNew).getLast!).1 ≠ (b0 :: tl).length - 1
      · rw [if_pos hif] at ha
        rcases List.mem_append.mp ha with h | h
        · exact Or.inl h
        · simp only [List.mem_singleton] at h
          exact Or.inr h
      · rw [if_neg hif] at ha
        exact Or.inl ha
    rcases hmem with hmem | hmem
    · rcases List.mem_cons.mp hmem with hmem | hmem
      · subst hmem
        unfold GoodAnchor
        dsimp only
        refine ⟨by omega, deltasOf (b0 :: tl), hd4, hds, ?_, ?_⟩
        · rw [hdslen]; simp
        · rw [List.drop_zero]
          exact (reconstruct tl b0).symm
      · exact hgood a (by simpa using hmem)
    · subst hmem
      unfold GoodAnchor
      dsimp only
      refine ⟨le_refl _, [], ?_, by simp, by simp, ?_⟩
      · rw [List.drop_length]
        simp [encode_body]
      · have h1 : (b0 :: tl).drop ((b0 :: tl).length - 1) =
            [List.foldl addBar b0 (deltasOf (b0 :: tl))] := by
          have h2 : (b0 :: tl).length - 1 = (deltasOf (b0 :: tl)).length := by
            rw [hdslen]; simp
          rw [h2]
          nth_rewrite 2 [← reconstruct tl b0]
          exact drop_scanl_foldl addBar (deltasOf (b0 :: tl)) b0
        rw [h1]
        simp [List.scanl]

/-- The body stream of a nonempty delta list always begins with a tag byte:
`0` for an RLE block, `1` for a literal block. -/
theorem encode_body_head (t : Tup6) (rest : List Tup6) :
    ∃ bs, encode_body (t :: rest) = 0 :: bs ∨ encode_body (t :: rest) = 1 :: bs := by
  by_cases hrun : 3 ≤ countRun t rest (10000000 - 1) + 1
  · refine ⟨varint_encode (countRun t rest (10000000 - 1) + 1) ++ encTup6 t ++
      encode_body (rest.drop (countRun t rest (10000000 - 1))), Or.inl ?_⟩
    rw [encode_body_rle_step hrun]
    simp
  · rw [encode_body_lit_step (by omega)]
    exact ⟨encTup6 t ++ encode_body rest, Or.inr rfl⟩

/-- A `GoodAnchor` either points at a tag byte of the body (when rows remain
after it) or its offset is exactly the end of the buffer (when it is the
final-row anchor). -/
theorem goodAnchor_tag {buf : List Nat} {n : Nat} {rows : List Bar}
    {a : Nat × Nat × Bar} (hg : GoodAnchor buf n rows a) :
    (a.1 + 1 < n → a.2.1 < buf.length ∧
      (buf.getD a.2.1 2 = 0 ∨ buf.getD a.2.1 2 = 1)) ∧
    (a.1 + 1 = n → a.2.1 = buf.length) := by
  obtain ⟨hle, dsRem, hdrop, hr, hlen, hrows⟩ := hg
  constructor
  · intro hlt
    have hne : dsRem ≠ [] := by
      intro hnil
      subst hnil
      simp only [List.length_nil] at hlen
      omega
    obtain ⟨t, rest, htr⟩ := List.exists_cons_of_ne_nil hne
    subst htr
    obtain ⟨bs, hb⟩ := encode_body_head t rest
    rcases hb with hb | hb
    · rw [hb] at hdrop
      have hblt := drop_cons_lt hdrop
      have hb0 := drop_cons_head hdrop hblt
      refine ⟨hblt, Or.inl ?_⟩
      rw [List.getD_eq_getElem buf 2 hblt]
      exact hb0
    · rw [hb] at hdrop
      have hblt := drop_cons_lt hdrop
      have hb1 := drop_cons_head hdrop hblt
      refine ⟨hblt, Or.inr ?_⟩
      rw [List.getD_eq_getElem buf 2 hblt]
      exact hb1
  · intro heq
    have hnil : dsRem = [] := by
      cases dsRem with
      | nil => rfl
      | cons t rest => simp only [List.length_cons] at hlen; omega
    subst hnil
    have : buf.drop a.2.1 = [] := by rw [hdrop]; simp [encode_body]
    have := List.drop_eq_nil_iff.mp this
    omega

end Index01

/-! ### Case-01 seek replay (`star_replay_case01.py`)

`zigzag_decode`, `varint_decode`, `parse_star1_header` and `decode_block` in
this module are byte-identical copies of the case-01 / index-01 ones, so the
`Case01` / `Index01` models serve for them.  The replay engine `replay_from`
walks blocks from an anchor's `(row, pos, bar)` state, collecting
`(row, bar)` pairs once the seek condition holds. -/

namespace Replay01

open Case01 Index01

/-- `want_now`: the emission condition closed over `seek_row` / `seek_days`. -/
def want_now (seek_row seek_days : Option Int) (row_i : Nat) (bar : Bar) : Bool :=
  match seek_row with
  | some s => decide (s ≤ (row_i : Int))
  | none =>
    match seek_days with
    | some d => decide (d ≤ bar.d_days)
    | none => true

/-- The inner `for _ in range(run)` loop of `replay_from`: apply the delta,
append the row when wanted, break when the output budget fills or the last
row is reached. -/
def replayRun (sr sd : Option Int) (t : Tup6) (n out : Nat) :
    Nat → Bar → Nat → List (Nat × Bar) → Bar × Nat × List (Nat × Bar)
  | 0, cur, row, res => (cur, row, res)
  | r + 1, cur, row, res =>
    let cur' := addBar cur t
    let row' := row + 1
    if want_now sr sd row' cur' then
      let res' := res ++ [(row', cur')]
      if out ≤ res'.length then (cur', row', res')
      else if n - 1 ≤ row' then (cur', row', res')
      else replayRun sr sd t n out r cur' row' res'
    else
      if n - 1 ≤ row' then (cur', row', res)
      else replayRun sr sd t n out r cur' row' res

/-- The outer `while row < n_rows - 1 and len(results) < out_rows` loop. -/
def replayLoop (sr sd : Option Int) (buf : List Nat) (n out : Nat)
    (row pos : Nat) (cur : Bar) (res : List (Nat × Bar)) :
    Except Err (List (Nat × Bar)) :=
  if row < n - 1 ∧ res.length < out then
    match hb : decode_block buf pos with
    | .error e => .error e
    | .ok (t, run, pos2) =>
      let st := replayRun sr sd t n out run cur row res
      replayLoop sr sd buf n out st.2.1 pos2 st.1 st.2.2
  else .ok res
termination_by buf.length - pos
decreasing_by
  have := decode_block_lt hb
  omega

/-- `replay_from` (the file I/O dropped; the STAR buffer and the anchor
state are arguments). -/
def replay_from (buf : List Nat) (start_row start_pos : Nat) (start_bar : Bar)
    (n_rows : Nat) (sr sd : Option Int) (out_rows : Nat) :
    Except Err (List (Nat × Bar)) :=
  let res0 := if want_now sr sd start_row start_bar
    then [(start_row, start_bar)] else []
  replayLoop sr sd buf n_rows out_rows start_row start_pos start_bar res0

/-- Row–value pairs `(i, l₀), (i+1, l₁), …`. -/
def enumFrom {A : Type} : Nat → List A → List (Nat × A)
  | _, [] => []
  | i, x :: xs => (i, x) :: enumFrom (i + 1) xs

theorem enumFrom_append {A : Type} : ∀ (xs ys : List A) (i : Nat),
    enumFrom i (xs ++ ys) = enumFrom i xs ++ enumFrom (i + xs.length) ys := by
  intro xs
  induction xs with
  | nil =>
    intro ys i
    simp [enumFrom]
  | cons x xs ih =>
    intro ys i
    simp only [List.cons_append, enumFrom, List.length_cons, List.append_eq]
    rw [ih ys (i + 1)]
    have h2 : i + 1 + xs.length = i + (xs.length + 1) := by omega
    rw [h2]

theorem enumFrom_length {A : Type} : ∀ (l : List A) (i : Nat),
    (enumFrom i l).length = l.length := by
  intro l
  induction l with
  | nil => intro i; rfl
  | cons x xs ih =>
    intro i
    simp only [enumFrom, List.length_cons, ih (i + 1)]

/-- One inner run from a state in sync with the rows: if the output budget
absorbs the whole run the state advances by exactly `run` rows, all emitted;
otherwise it stops the moment the budget fills, having emitted the rows up
to the budget. -/
theorem replayRun_spec (s : Int) (t : Tup6) (n out : Nat) (rows : List Bar) :
    ∀ (r : Nat) (ds' : List Tup6) (cur : Bar) (row : Nat) (res : List (Nat × Bar)),
      s ≤ (row : Int) + 1 →
      row + r + 1 ≤ n →
      res.length < out →
      rows.drop row = List.scanl addBar cur (List.replicate r t ++ ds') →
      (res.length + r ≤ out →
        replayRun (some s) none t n out r cur row res =
          (List.foldl addBar cur (List.replicate r t), row + r,
            res ++ enumFrom (row + 1) ((rows.drop (row + 1)).take r))) ∧
      (out < res.length + r →
        ∃ cur2 row2,
          replayRun (some s) none t n out r cur row res =
            (cur2, row2,
              res ++ enumFrom (row + 1)
                ((rows.drop (row + 1)).take (out - res.length))) ∧
          (res ++ enumFrom (row + 1)
            ((rows.drop (row + 1)).take (out - res.length))).length = out) := by
  intro r
  induction r with
  | zero =>
    intro ds' cur row res hs hn hout hrows
    constructor
    · intro hbudget
      simp [replayRun, enumFrom]
    · intro hover
      omega
  | succ r ih =>
    intro ds' cur row res hs hn hout hrows
    have hdrop1 : rows.drop (row + 1) =
        List.scanl addBar (addBar cur t) (List.replicate r t ++ ds') := by
      have h1 : rows.drop (row + 1) = List.drop 1 (rows.drop row) := by
        rw [List.drop_drop, Nat.add_comm row]
      rw [h1, hrows, List.replicate_succ, List.cons_append, List.scanl_cons]
      simp
    have hhead : rows.drop (row + 1) =
        addBar cur t :: rows.drop (row + 2) := by
      rw [hdrop1, scanl_eq_cons]
      congr 1
      have h2 : row + 2 = row + 1 + 1 := by omega
      rw [h2, ← List.tail_drop, hdrop1]
    have hwant : want_now (some s) none (row + 1) (addBar cur t) = true := by
      simp only [want_now, decide_eq_true_eq]
      push_cast
      omega
    rw [replayRun]
    dsimp only
    rw [if_pos hwant]
    by_cases hfull : out ≤ (res ++ [(row + 1, addBar cur t)]).length
    · have hlen : res.length + 1 = out := by
        simp only [List.length_append, List.length_singleton] at hfull
        omega
      rw [if_pos hfull]
      constructor
      · intro hbudget
        have hr0 : r = 0 := by omega
        subst hr0
        rw [hhead]
        simp [enumFrom, List.foldl]
      · intro hover
        refine ⟨addBar cur t, row + 1, ?_, ?_⟩
        · rw [hhead]
          have : out - res.length = 1 := by omega
          rw [this]
          simp [enumFrom]
        · rw [hhead]
          have : out - res.length = 1 := by omega
          rw [this]
          simp [enumFrom]
          omega
    · rw [if_neg hfull]
      have hlen1 : (res ++ [(row + 1, addBar cur t)]).length = res.length + 1 := by
        simp
      have hout1 : res.length + 1 < out := by omega
      by_cases hlast : n - 1 ≤ row + 1
      · -- only possible when r = 0 and n = row + 2
        have hr0 : r = 0 := by omega
        subst hr0
        rw [if_pos hlast]
        constructor
        · intro hbudget
          rw [hhead]
          simp [enumFrom, List.foldl]
        · intro hover
          omega
      · rw [if_neg hlast]
        obtain ⟨ih1, ih2⟩ := ih ds' (addBar cur t) (row + 1)
          (res ++ [(row + 1, addBar cur t)])
          (by push_cast; omega) (by omega) (by omega) hdrop1
        have htake : ∀ m : Nat, (rows.drop (row + 1)).take (m + 1) =
            addBar cur t :: (rows.drop (row + 2)).take m := by
          intro m
          rw [hhead]
          simp
        constructor
        · intro hbudget
          rw [ih1 (by simp only [List.length_append, List.length_singleton]; omega)]
          rw [List.replicate_succ, List.foldl_cons]
          have hrr : row + (r + 1) = row + 1 + r := by omega
          rw [hrr, htake r]
          simp [enumFrom]
        · intro hover
          obtain ⟨cur2, row2, heq, hlen2⟩ :=
            ih2 (by simp only [List.length_append, List.length_singleton]; omega)
          have hm : out - res.length = (out - (res.length + 1)) + 1 := by omega
          refine ⟨cur2, row2, ?_, ?_⟩
          · rw [heq, hm, htake (out - (res.length + 1))]
            simp [enumFrom]
          · have hdl : (rows.drop (row + 1)).length = r + ds'.length + 1 := by
              rw [hdrop1, List.length_scanl]
              simp
            rw [List.length_append, enumFrom_length, List.length_take]
            omega

theorem enumFrom_take_split {A : Type} (X : List A) (i p q budget : Nat)
    (hp : p ≤ budget) (hX : p + q = X.length) :
    enumFrom i (X.take (min budget X.length)) =
      enumFrom i (X.take p) ++
        enumFrom (i + p) ((X.drop p).take (min (budget - p) q)) := by
  have h1 : min budget X.length = p + min (budget - p) q := by omega
  rw [h1, List.take_add, enumFrom_append, List.length_take]
  have h2 : min p X.length = p := by omega
  rw [h2]

theorem emit_assemble {A : Type} (rows : List A) (res : List (Nat × A))
    (row out p q : Nat)
    (hp : p ≤ out - res.length)
    (hq : p + q = (rows.drop (row + 1)).length) :
    (res ++ enumFrom (row + 1) ((rows.drop (row + 1)).take p)) ++
      enumFrom (row + p + 1) ((rows.drop (row + p + 1)).take
        (min (out - (res ++ enumFrom (row + 1) ((rows.drop (row + 1)).take p)).length) q)) =
    res ++ enumFrom (row + 1) ((rows.drop (row + 1)).take
      (min (out - res.length) (rows.drop (row + 1)).length)) := by
  have hlen1 : (enumFrom (row + 1) ((rows.drop (row + 1)).take p)).length = p := by
    rw [enumFrom_length, List.length_take]
    omega
  have hd : rows.drop (row + p + 1) = (rows.drop (row + 1)).drop p := by
    rw [List.drop_drop]
    have h1 : row + 1 + p = row + p + 1 := by omega
    rw [h1]
  rw [enumFrom_take_split (rows.drop (row + 1)) (row + 1) p q (out - res.length) hp hq]
  rw [List.length_append, hlen1, hd, List.append_assoc]
  have h2 : row + p + 1 = row + 1 + p := by omega
  rw [h2]
  have h3 : out - (res.length + p) = out - res.length - p := by omega
  rw [h3]

/-- The outer replay loop from a state in sync with the rows (seeking a row
index at or before the next row): it returns the already-collected pairs
followed by one `(row, bar)` pair per subsequent row, until the output
budget or the final row is reached. -/
theorem replayLoop_spec :
    ∀ (N : Nat) (ds : List Tup6), ds.length ≤ N →
    ∀ (buf : List Nat) (n out row pos : Nat) (cur : Bar)
      (res : List (Nat × Bar)) (s : Int) (rows : List Bar),
      buf.drop pos = encode_body ds →
      (∀ t ∈ ds, tup6InRange t) →
      row + ds.length + 1 = n →
      rows.drop row = List.scanl addBar cur ds →
      s ≤ (row : Int) + 1 →
      replayLoop (some s) none buf n out row pos cur res =
        .ok (res ++ enumFrom (row + 1)
          ((rows.drop (row + 1)).take (min (out - res.length) ds.length))) := by
  intro N
  induction N with
  | zero =>
    intro ds hN buf n out row pos cur res s rows hd hr hcnt hrows hs
    have hds : ds = [] := List.length_eq_zero.mp (by omega)
    subst hds
    simp only [List.length_nil] at hcnt
    rw [replayLoop, if_neg (by omega)]
    simp [enumFrom]
  | succ N ih =>
    intro ds hN buf n out row pos cur res s rows hd hr hcnt hrows hs
    cases ds with
    | nil =>
      simp only [List.length_nil] at hcnt
      rw [replayLoop, if_neg (by omega)]
      simp [enumFrom]
    | cons t rest =>
      have hrow : row < n - 1 := by simp at hcnt; omega
      by_cases hres : res.length < out
      case neg =>
        rw [replayLoop, if_neg (by omega)]
        have h0 : out - res.length = 0 := by omega
        rw [h0]
        simp [enumFrom]
      case pos =>
      have hXlen : (rows.drop (row + 1)).length = rest.length + 1 := by
        rw [← List.tail_drop, hrows, List.length_tail, List.length_scanl]
        simp
      have hrt : tup6InRange t := hr t (by simp)
      by_cases hrun : 3 ≤ countRun t rest (10000000 - 1) + 1
      · -- tag-0 RLE block
        rw [encode_body_rle_step hrun] at hd
        simp only [List.cons_append, List.append_assoc] at hd
        have hcb := countRun_le_budget t rest (10000000 - 1)
        have hcl := countRun_le_len t rest (10000000 - 1)
        have hdb := decode_block_rle hd (by omega) hrt
        have hd2 := drop_cons_tail hd
        have hd3 := drop_chunk hd2
        have hd4 := drop_chunk hd3
        have hsplit : t :: rest =
            List.replicate (countRun t rest (10000000 - 1) + 1) t ++
              rest.drop (countRun t rest (10000000 - 1)) := by
          rw [List.replicate_succ]
          simp only [List.cons_append]
          congr 1
          rw [← countRun_take t rest (10000000 - 1)]
          exact (List.take_append_drop _ rest).symm
        have hrows2 : rows.drop row = List.scanl addBar cur
            (List.replicate (countRun t rest (10000000 - 1) + 1) t ++
              rest.drop (countRun t rest (10000000 - 1))) := by
          rw [hrows]
          conv =>
            lhs
            rw [hsplit]
        obtain ⟨rs1, rs2⟩ := replayRun_spec s t n out rows
          (countRun t rest (10000000 - 1) + 1)
          (rest.drop (countRun t rest (10000000 - 1))) cur row res
          hs (by simp at hcnt; omega) hres hrows2
        rw [replayLoop, if_pos ⟨hrow, hres⟩]
        dsimp only
        rw [hdb]
        dsimp only
        by_cases hbud : res.length + (countRun t rest (10000000 - 1) + 1) ≤ out
        · rw [rs1 hbud]
          dsimp only
          have hrows3 :
              rows.drop (row + (countRun t rest (10000000 - 1) + 1)) =
                List.scanl addBar
                  (List.foldl addBar cur
                    (List.replicate (countRun t rest (10000000 - 1) + 1) t))
                  (rest.drop (countRun t rest (10000000 - 1))) := by
            have h1 : rows.drop (row + (countRun t rest (10000000 - 1) + 1)) =
                List.drop (countRun t rest (10000000 - 1) + 1) (rows.drop row) := by
              rw [List.drop_drop, Nat.add_comm row]
            rw [h1, hrows2, scanl_append, scanl_replicate_drop]
            exact (scanl_eq_cons _ _ _).symm
          rw [ih (rest.drop (countRun t rest (10000000 - 1)))
            (by simp only [List.length_drop]; simp at hN; omega)
            buf n out (row + (countRun t rest (10000000 - 1) + 1)) _ _ _ s rows
            hd4
            (fun t2 ht2 => hr t2 (List.mem_cons_of_mem t (List.mem_of_mem_drop ht2)))
            (by simp only [List.length_drop]; simp at hcnt; omega)
            hrows3
            (by push_cast at hs ⊢; omega)]
          refine congrArg Except.ok ?_
          have hq : (countRun t rest (10000000 - 1) + 1) +
              (rest.drop (countRun t rest (10000000 - 1))).length =
              (rows.drop (row + 1)).length := by
            rw [hXlen]
            simp only [List.length_drop]
            omega
          have := emit_assemble rows res row out
            (countRun t rest (10000000 - 1) + 1)
            (rest.drop (countRun t rest (10000000 - 1))).length
            (by omega) hq
          rw [List.length_cons, ← hXlen]
          exact this
        · obtain ⟨cur2, row2, heq, hlen2⟩ := rs2 (by omega)
          rw [heq]
          dsimp only
          rw [replayLoop, if_neg (by omega)]
          refine congrArg Except.ok (congrArg (fun z => res ++ enumFrom (row + 1)
            ((rows.drop (row + 1)).take z)) ?_)
          simp only [List.length_cons]
          omega
      · -- literal tag-1 block
        rw [encode_body_lit_step (by omega)] at hd
        simp only [List.cons_append, List.append_assoc] at hd
        have hdb := decode_block_lit hd hrt
        have hd2 := drop_cons_tail hd
        have hd3 := drop_chunk hd2
        have hrows2 : rows.drop row = List.scanl addBar cur
            (List.replicate 1 t ++ rest) := by
          rw [hrows]
          simp
        obtain ⟨rs1, rs2⟩ := replayRun_spec s t n out rows 1 rest cur row res
          hs (by simp at hcnt; omega) hres hrows2
        rw [replayLoop, if_pos ⟨hrow, hres⟩]
        dsimp only
        rw [hdb]
        dsimp only
        rw [rs1 (by omega)]
        dsimp only
        have hrows3 : rows.drop (row + 1) =
            List.scanl addBar (List.foldl addBar cur (List.replicate 1 t)) rest := by
          have h1 : rows.drop (row + 1) = List.drop 1 (rows.drop row) := by
            rw [List.drop_drop, Nat.add_comm row]
          rw [h1, hrows, List.scanl_cons]
          simp
        rw [ih rest (by simp at hN; omega) buf n out (row + 1) _ _ _ s rows hd3
          (fun t2 ht2 => hr t2 (List.mem_cons_of_mem t ht2))
          (by simp at hcnt ⊢; omega)
          hrows3
          (by push_cast at hs ⊢; omega)]
        refine congrArg Except.ok ?_
        have hq : 1 + rest.length = (rows.drop (row + 1)).length := by omega
        have := emit_assemble rows res row out 1 rest.length (by omega) hq
        rw [List.length_cons, ← hXlen]
        exact this

/-- Replaying `k ≥ 1` rows from any `GoodAnchor` (seeking its own row) emits
exactly rows `[a.row, a.row + k)` with their indices. -/
theorem replay_from_anchor {buf : List Nat} {n : Nat} {rows : List Bar}
    {a : Nat × Nat × Bar} (hg : GoodAnchor buf n rows a) (k : Nat)
    (hk1 : 1 ≤ k) (hk2 : k ≤ n - a.1) :
    replay_from buf a.1 a.2.1 a.2.2 n (some (a.1 : Int)) none k =
      .ok (enumFrom a.1 ((rows.drop a.1).take k)) := by
  obtain ⟨k2, rfl⟩ : ∃ k2, k = k2 + 1 := ⟨k - 1, by omega⟩
  obtain ⟨hle, dsRem, hdrop, hr, hlen, hrows⟩ := hg
  have hw : want_now (some (a.1 : Int)) none a.1 a.2.2 = true := by
    simp [want_now]
  have h0 : replay_from buf a.1 a.2.1 a.2.2 n (some (a.1 : Int)) none (k2 + 1) =
      replayLoop (some (a.1 : Int)) none buf n (k2 + 1) a.1 a.2.1 a.2.2
        [(a.1, a.2.2)] := by
    unfold replay_from
    rw [hw]
    simp
  rw [h0, replayLoop_spec dsRem.length dsRem le_rfl buf n (k2 + 1) a.1 a.2.1 a.2.2
    [(a.1, a.2.2)] (a.1 : Int) rows hdrop hr hlen hrows (by omega)]
  refine congrArg Except.ok ?_
  have hhead : rows.drop a.1 = a.2.2 :: rows.drop (a.1 + 1) := by
    rw [hrows, scanl_eq_cons]
    congr 1
    rw [← List.tail_drop, hrows]
  have hmin : min (k2 + 1 - ([(a.1, a.2.2)] : List (Nat × Bar)).length)
      dsRem.length = k2 := by
    simp only [List.length_singleton]
    omega
  rw [hmin, hhead, List.take_succ_cons]
  simp [enumFrom]

end Replay01

/-! ### Case 02 — Air-quality ticks (`star_case02_airquality_replay.py`)

An `AirTick` is the frozen dataclass with eight signed integer fields; delta
tuples are 8-tuples of `Int`.  The module's `zigzag_encode`, `zigzag_decode`
and `varint_encode` are byte-identical to case 01's; its `varint_decode`
differs in the shift limit (70, not 63).  The greedy body scan has **no**
run cap and the short-run branch emits a single tag-1 literal advancing one
delta. -/

structure AirTick where
  t_min : Int
  co_x10 : Int
  c6h6_x10 : Int
  nox : Int
  no2 : Int
  t_x10 : Int
  rh_x10 : Int
  ah_x1000 : Int
  deriving DecidableEq, Repr

instance : Inhabited AirTick := ⟨⟨0, 0, 0, 0, 0, 0, 0, 0⟩⟩

abbrev Tup8 := Int × Int × Int × Int × Int × Int × Int × Int

set_option synthInstance.maxSize 512 in
instance : DecidableEq Tup8 :=
  inferInstanceAs (DecidableEq (Int × Int × Int × Int × Int × Int × Int × Int))

def tup8InRange (t : Tup8) : Prop :=
  i64 t.1 ∧ i64 t.2.1 ∧ i64 t.2.2.1 ∧ i64 t.2.2.2.1 ∧ i64 t.2.2.2.2.1 ∧
    i64 t.2.2.2.2.2.1 ∧ i64 t.2.2.2.2.2.2.1 ∧ i64 t.2.2.2.2.2.2.2

instance (t : Tup8) : Decidable (tup8InRange t) := by unfold tup8InRange; infer_instance

def tickInRange (b : AirTick) : Prop :=
  i64 b.t_min ∧ i64 b.co_x10 ∧ i64 b.c6h6_x10 ∧ i64 b.nox ∧ i64 b.no2 ∧
    i64 b.t_x10 ∧ i64 b.rh_x10 ∧ i64 b.ah_x1000

instance (b : AirTick) : Decidable (tickInRange b) := by unfold tickInRange; infer_instance

namespace Case02

open Case01

/-- The six magic bytes `b"STAR2A"`. -/
def magicSTAR2A : List Nat := [83, 84, 65, 82, 50, 65]

/-- Field-wise difference `cur − prev` built by the encoder's `deltas`. -/
def tickSub (b p : AirTick) : Tup8 :=
  (b.t_min - p.t_min, b.co_x10 - p.co_x10, b.c6h6_x10 - p.c6h6_x10,
   b.nox - p.nox, b.no2 - p.no2, b.t_x10 - p.t_x10, b.rh_x10 - p.rh_x10,
   b.ah_x1000 - p.ah_x1000)

/-- The `(n-1)` successive delta tuples of a tick list. -/
def deltas02 : List AirTick → List Tup8
  | a :: b :: rest => tickSub b a :: deltas02 (b :: rest)
  | _ => []

/-- The encoder's forward run scan (`while j < len(ticks)` with no cap). -/
def countRunNC (t : Tup8) : List Tup8 → Nat
  | [] => 0
  | d :: ds => if d = t then countRunNC t ds + 1 else 0

/-- Bytes of the eight zig-zag varints of a delta tuple. -/
def encTup8 (t : Tup8) : List Nat :=
  zz_varint t.1 ++ zz_varint t.2.1 ++ zz_varint t.2.2.1 ++ zz_varint t.2.2.2.1 ++
    zz_varint t.2.2.2.2.1 ++ zz_varint t.2.2.2.2.2.1 ++
    zz_varint t.2.2.2.2.2.2.1 ++ zz_varint t.2.2.2.2.2.2.2

/-- Bytes of the eight zig-zag varints of a base tick. -/
def tick_zz (b : AirTick) : List Nat :=
  zz_varint b.t_min ++ zz_varint b.co_x10 ++ zz_varint b.c6h6_x10 ++
    zz_varint b.nox ++ zz_varint b.no2 ++ zz_varint b.t_x10 ++
    zz_varint b.rh_x10 ++ zz_varint b.ah_x1000

/-- The greedy block loop of case-02's `encode_star` over the delta tuples:
an uncapped maximal run of length at least 3 becomes one tag-0 RLE block,
otherwise a **single** tag-1 literal is emitted and the scan advances one
delta. -/
def encode_body02 : List Tup8 → List Nat
  | [] => []
  | t :: rest =>
    let run := countRunNC t rest + 1
    if 3 ≤ run then
      (0 :: varint_encode run ++ encTup8 t) ++ encode_body02 (rest.drop (run - 1))
    else
      (1 :: encTup8 t) ++ encode_body02 rest
termination_by ds => ds.length
decreasing_by
  all_goals
    simp only [List.length_drop, List.length_cons]
    omega

/-- `encode_star` of the case-02 module. -/
def encode_star02 (ticks : List AirTick) : List Nat :=
  match ticks with
  | [] => magicSTAR2A ++ varint_encode 0
  | b0 :: tl =>
    magicSTAR2A ++ varint_encode (b0 :: tl).length ++
      tick_zz b0 ++ encode_body02 (deltas02 (b0 :: tl))

/-- `varint_decode` of the case-02 module (shift limit 70; the copies in
`star_index_case02.py` and `star_replay_case02.py` are this same function). -/
def varint_decode02 (buf : List Nat) (i : Nat) : Except Err (Nat × Nat) :=
  varint_decode_core 70 buf i 0 0

/-- One `zigzag_decode(varint_decode(...))` read (`read_int` /
`_read_zigzag_int`). -/
def read_zz02 (buf : List Nat) (i : Nat) : Except Err (Int × Nat) :=
  match varint_decode02 buf i with
  | .ok (u, j) => .ok (zigzag_decode (Int.ofNat u), j)
  | .error e => .error e

/-- Eight sequential zig-zag varint reads (the `for _ in range(8)` loops). -/
def read_tup8 (buf : List Nat) (i : Nat) : Except Err (Tup8 × Nat) :=
  match read_zz02 buf i with
  | .error e => .error e
  | .ok (x1, i1) =>
    match read_zz02 buf i1 with
    | .error e => .error e
    | .ok (x2, i2) =>
      match read_zz02 buf i2 with
      | .error e => .error e
      | .ok (x3, i3) =>
        match read_zz02 buf i3 with
        | .error e => .error e
        | .ok (x4, i4) =>
          match read_zz02 buf i4 with
          | .error e => .error e
          | .ok (x5, i5) =>
            match read_zz02 buf i5 with
            | .error e => .error e
            | .ok (x6, i6) =>
              match read_zz02 buf i6 with
              | .error e => .error e
              | .ok (x7, i7) =>
                match read_zz02 buf i7 with
                | .error e => .error e
                | .ok (x8, i8) => .ok ((x1, x2, x3, x4, x5, x6, x7, x8), i8)

def addTick (p : AirTick) (t : Tup8) : AirTick :=
  ⟨p.t_min + t.1, p.co_x10 + t.2.1, p.c6h6_x10 + t.2.2.1, p.nox + t.2.2.2.1,
   p.no2 + t.2.2.2.2.1, p.t_x10 + t.2.2.2.2.2.1, p.rh_x10 + t.2.2.2.2.2.2.1,
   p.ah_x1000 + t.2.2.2.2.2.2.2⟩

def tickOfTup (t : Tup8) : AirTick :=
  ⟨t.1, t.2.1, t.2.2.1, t.2.2.2.1, t.2.2.2.2.1, t.2.2.2.2.2.1,
   t.2.2.2.2.2.2.1, t.2.2.2.2.2.2.2⟩

/-- The tag-0 run application of case-02's `decode_star`: append up to `run`
rows, **stopping as soon as `n` rows exist** (the `if len(ticks) >= n:
break`). -/
def appendRun02 (t : Tup8) (n : Nat) : Nat → List AirTick → List AirTick
  | 0, acc => acc
  | r + 1, acc =>
    let acc2 := acc ++ [addTick acc.getLast! t]
    if n ≤ acc2.length then acc2
    else appendRun02 t n r acc2

theorem varint_decode02_lt {buf : List Nat} {i u j : Nat}
    (h : varint_decode02 buf i = .ok (u, j)) : i < j ∧ j ≤ buf.length :=
  varint_decode_core_lt 70 buf i 0 0 u j h

theorem read_zz02_lt {buf : List Nat} {i : Nat} {x : Int} {j : Nat}
    (h : read_zz02 buf i = .ok (x, j)) : i < j ∧ j ≤ buf.length := by
  unfold read_zz02 at h
  cases hv : varint_decode02 buf i with
  | ok p =>
    obtain ⟨u, j2⟩ := p
    rw [hv] at h
    simp only [Except.ok.injEq, Prod.mk.injEq] at h
    obtain ⟨-, hj⟩ := h
    subst hj
    exact varint_decode02_lt hv
  | error e =>
    rw [hv] at h
    exact absurd h (by simp)

theorem read_tup8_lt {buf : List Nat} {i : Nat} {t : Tup8} {j : Nat}
    (h : read_tup8 buf i = .ok (t, j)) : i < j ∧ j ≤ buf.length := by
  unfold read_tup8 at h
  repeat' split at h
  any_goals simp at h
  rename_i s1 x1 i1 h1 s2 x2 i2 h2 s3 x3 i3 h3 s4 x4 i4 h4 s5 x5 i5 h5
    s6 x6 i6 h6 s7 x7 i7 h7 s8 x8 i8 h8
  obtain ⟨-, hj⟩ := h
  subst hj
  have g1 := read_zz02_lt h1
  have g2 := read_zz02_lt h2
  have g3 := read_zz02_lt h3
  have g4 := read_zz02_lt h4
  have g5 := read_zz02_lt h5
  have g6 := read_zz02_lt h6
  have g7 := read_zz02_lt h7
  have g8 := read_zz02_lt h8
  omega

/-- The `while len(ticks) < n` loop of case-02's `decode_star`. -/
def decodeLoop02 (buf : List Nat) (n : Nat) (i : Nat) (acc : List AirTick) :
    Except Err (List AirTick) :=
  if n ≤ acc.length then .ok acc
  else if h : i < buf.length then
    if buf[i] = 0 then
      match hv : varint_decode02 buf (i + 1) with
      | .error e => .error e
      | .ok (run, i1) =>
        match ht : read_tup8 buf i1 with
        | .error e => .error e
        | .ok (t, i2) => decodeLoop02 buf n i2 (appendRun02 t n run acc)
    else if buf[i] = 1 then
      match ht : read_tup8 buf (i + 1) with
      | .error e => .error e
      | .ok (t, i2) => decodeLoop02 buf n i2 (acc ++ [addTick acc.getLast! t])
    else .error .badTag
  else .error .truncatedBody
termination_by buf.length - i
decreasing_by
  · have hv2 := varint_decode02_lt hv
    have ht2 := read_tup8_lt ht
    omega
  · have ht2 := read_tup8_lt ht
    omega

/-- `decode_star` of the case-02 module. -/
def decode_star02 (buf : List Nat) : Except Err (List AirTick) :=
  if buf.take 6 = magicSTAR2A then
    match varint_decode02 buf 6 with
    | .error e => .error e
    | .ok (n, i1) =>
      if n = 0 then .ok []
      else
        match read_tup8 buf i1 with
        | .error e => .error e
        | .ok (t, i2) => decodeLoop02 buf n i2 [tickOfTup t]
  else .error .badMagic

theorem varint_decode02_drop {buf : List Nat} {i u : Nat} {rest : List Nat}
    (hd : buf.drop i = varint_encode u ++ rest) (hu : u < 2 ^ 64) :
    varint_decode02 buf i = .ok (u, i + (varint_encode u).length) :=
  varint_decode_core_drop hd (by have := varint_encode_le10 hu; omega)

theorem read_zz02_drop {buf : List Nat} {i : Nat} {x : Int} {rest : List Nat}
    (hx : i64 x) (hd : buf.drop i = zz_varint x ++ rest) :
    read_zz02 buf i = .ok (x, i + (zz_varint x).length) := by
  unfold zz_varint at hd
  unfold read_zz02
  rw [varint_decode02_drop hd (zigzag_encode_lt hx.1 hx.2)]
  have hz : Int.ofNat (zigzag_encode x).toNat = zigzag_encode x := by
    rw [Int.ofNat_eq_natCast, Int.toNat_of_nonneg (zigzag_encode_nonneg x)]
  dsimp only
  rw [hz, zigzag_decode_encode x hx.1 hx.2]
  rfl

theorem read_tup8_drop {buf : List Nat} {i : Nat} {t : Tup8} {rest : List Nat}
    (hr : tup8InRange t) (hd : buf.drop i = encTup8 t ++ rest) :
    read_tup8 buf i = .ok (t, i + (encTup8 t).length) := by
  obtain ⟨x1, x2, x3, x4, x5, x6, x7, x8⟩ := t
  obtain ⟨h1, h2, h3, h4, h5, h6, h7, h8⟩ := hr
  unfold encTup8 at hd
  simp only [List.append_assoc] at hd
  have r1 := read_zz02_drop h1 hd
  have hd2 := drop_chunk hd
  have r2 := read_zz02_drop h2 hd2
  have hd3 := drop_chunk hd2
  have r3 := read_zz02_drop h3 hd3
  have hd4 := drop_chunk hd3
  have r4 := read_zz02_drop h4 hd4
  have hd5 := drop_chunk hd4
  have r5 := read_zz02_drop h5 hd5
  have hd6 := drop_chunk hd5
  have r6 := read_zz02_drop h6 hd6
  have hd7 := drop_chunk hd6
  have r7 := read_zz02_drop h7 hd7
  have hd8 := drop_chunk hd7
  have r8 := read_zz02_drop h8 hd8
  unfold read_tup8
  rw [r1]
  dsimp only
  rw [r2]
  dsimp only
  rw [r3]
  dsimp only
  rw [r4]
  dsimp only
  rw [r5]
  dsimp only
  rw [r6]
  dsimp only
  rw [r7]
  dsimp only
  rw [r8]
  dsimp only
  have hlen : i + (zz_varint x1).length + (zz_varint x2).length + (zz_varint x3).length +
      (zz_varint x4).length + (zz_varint x5).length + (zz_varint x6).length +
      (zz_varint x7).length + (zz_varint x8).length =
      i + (encTup8 (x1, x2, x3, x4, x5, x6, x7, x8)).length := by
    simp only [encTup8, List.length_append]
    omega
  rw [hlen]

theorem countRunNC_le_len (t : Tup8) : ∀ (ds : List Tup8),
    countRunNC t ds ≤ ds.length := by
  intro ds
  induction ds with
  | nil => simp [countRunNC]
  | cons d ds ih =>
    by_cases hd : d = t
    · simp only [countRunNC, if_pos hd, List.length_cons]
      omega
    · simp only [countRunNC, if_neg hd, List.length_cons]
      omega

theorem countRunNC_take (t : Tup8) : ∀ (ds : List Tup8),
    ds.take (countRunNC t ds) = List.replicate (countRunNC t ds) t := by
  intro ds
  induction ds with
  | nil => simp [countRunNC]
  | cons d ds ih =>
    by_cases hd : d = t
    · simp only [countRunNC, if_pos hd]
      rw [List.take_succ_cons, ih, hd]
      rfl
    · simp only [countRunNC, if_neg hd]
      simp

/-- The RLE factorisation of the case-02 body stream. -/
theorem encode_body02_rle_step {t : Tup8} {rest : List Tup8}
    (h : 3 ≤ countRunNC t rest + 1) :
    encode_body02 (t :: rest) =
      (0 :: varint_encode (countRunNC t rest + 1) ++ encTup8 t) ++
        encode_body02 (rest.drop (countRunNC t rest)) := by
  rw [encode_body02]
  simp only [if_pos h]
  rw [Nat.add_sub_cancel]

/-- The literal factorisation of the case-02 body stream (a single tag-1
block advancing a single delta). -/
theorem encode_body02_lit_step {t : Tup8} {rest : List Tup8}
    (h : countRunNC t rest + 1 < 3) :
    encode_body02 (t :: rest) = (1 :: encTup8 t) ++ encode_body02 rest := by
  rw [encode_body02]
  simp only [if_neg (by omega : ¬ 3 ≤ countRunNC t rest + 1)]

theorem addTick_tickSub (a b : AirTick) : addTick a (tickSub b a) = b := by
  cases a
  cases b
  simp [addTick, tickSub]

theorem reconstruct02 : ∀ (tl : List AirTick) (a : AirTick),
    List.scanl addTick a (deltas02 (a :: tl)) = a :: tl := by
  intro tl
  induction tl with
  | nil =>
    intro a
    simp [deltas02, List.scanl]
  | cons b rest ih =>
    intro a
    show List.scanl addTick a (tickSub b a :: deltas02 (b :: rest)) = a :: b :: rest
    rw [List.scanl_cons, addTick_tickSub, List.singleton_append, ih b]

theorem deltas02_length : ∀ (l : List AirTick), (deltas02 l).length = l.length - 1 := by
  intro l
  match l with
  | [] => rfl
  | [a] => rfl
  | a :: b :: rest =>
    show (tickSub b a :: deltas02 (b :: rest)).length = _
    rw [List.length_cons, deltas02_length (b :: rest)]
    simp

theorem tickOfTup_tick_zz (b : AirTick) :
    tick_zz b = encTup8 (b.t_min, b.co_x10, b.c6h6_x10, b.nox, b.no2,
      b.t_x10, b.rh_x10, b.ah_x1000) := rfl

theorem tickOfTup_eta (b : AirTick) :
    tickOfTup (b.t_min, b.co_x10, b.c6h6_x10, b.nox, b.no2,
      b.t_x10, b.rh_x10, b.ah_x1000) = b := rfl

theorem tickInRange_tup {b : AirTick} (h : tickInRange b) :
    tup8InRange (b.t_min, b.co_x10, b.c6h6_x10, b.nox, b.no2,
      b.t_x10, b.rh_x10, b.ah_x1000) := h

theorem appendRun02_concat (t : Tup8) (n : Nat) : ∀ (r : Nat) (l : List AirTick) (s : AirTick),
    (l ++ [s]).length + r ≤ n →
    appendRun02 t n r (l ++ [s]) =
      (l ++ [s]) ++ (List.scanl addTick s (List.replicate r t)).tail := by
  intro r
  induction r with
  | zero =>
    intro l s hle
    simp [appendRun02, List.scanl]
  | succ r ih =>
    intro l s hle
    show (if n ≤ ((l ++ [s]) ++ [addTick (l ++ [s]).getLast! t]).length
      then (l ++ [s]) ++ [addTick (l ++ [s]).getLast! t]
      else appendRun02 t n r ((l ++ [s]) ++ [addTick (l ++ [s]).getLast! t])) = _
    rw [getLast!_concat]
    by_cases hbrk : n ≤ ((l ++ [s]) ++ [addTick s t]).length
    · have hr0 : r = 0 := by
        simp only [List.length_append, List.length_singleton] at hbrk hle
        omega
      subst hr0
      rw [if_pos hbrk]
      rw [List.replicate_succ, List.scanl_cons]
      simp [List.scanl]
    · rw [if_neg hbrk]
      rw [show (l ++ [s]) ++ [addTick s t] = l ++ ([s] ++ [addTick s t]) from
        List.append_assoc l [s] [addTick s t]]
      rw [show l ++ ([s] ++ [addTick s t]) = (l ++ [s]) ++ [addTick s t] from
        (List.append_assoc l [s] [addTick s t]).symm]
      rw [ih (l ++ [s]) (addTick s t) (by
        simp only [List.length_append, List.length_singleton] at hle ⊢
        omega)]
      rw [List.replicate_succ, List.scanl_cons]
      simp only [List.singleton_append, List.tail_cons]
      rw [scanl_eq_cons addTick (addTick s t) (List.replicate r t)]
      simp

theorem appendRun02_eq (t : Tup8) (n r : Nat) {acc : List AirTick} (h : acc ≠ [])
    (hle : acc.length + r ≤ n) :
    appendRun02 t n r acc =
      acc ++ (List.scanl addTick acc.getLast! (List.replicate r t)).tail := by
  have hdec := dropLast_concat_getLast! (l := acc) h
  calc appendRun02 t n r acc
      = appendRun02 t n r (acc.dropLast ++ [acc.getLast!]) := by rw [hdec]
    _ = (acc.dropLast ++ [acc.getLast!]) ++
          (List.scanl addTick acc.getLast! (List.replicate r t)).tail :=
        appendRun02_concat t n r _ _ (by rw [hdec]; omega)
    _ = acc ++ (List.scanl addTick acc.getLast! (List.replicate r t)).tail := by rw [hdec]

/-- Main loop lemma: the case-02 decode loop, fed the stream the case-02
greedy encoder produced for the remaining deltas, reconstructs exactly the
scan of those deltas from the last decoded tick. -/
theorem decodeLoop02_encode :
    ∀ (N : Nat) (ds : List Tup8), ds.length ≤ N →
    ∀ (buf : List Nat) (n i : Nat) (acc : List AirTick),
      n < 2 ^ 64 →
      buf.drop i = encode_body02 ds →
      (∀ t ∈ ds, tup8InRange t) →
      acc ≠ [] →
      acc.length + ds.length = n →
      decodeLoop02 buf n i acc =
        .ok (acc ++ (List.scanl addTick acc.getLast! ds).tail) := by
  intro N
  induction N with
  | zero =>
    intro ds hN buf n i acc hn64 hd hr hne hlen
    have hds : ds = [] := List.length_eq_zero.mp (by omega)
    subst hds
    rw [decodeLoop02, if_pos (by simp at hlen; omega)]
    simp [List.scanl]
  | succ N ih =>
    intro ds hN buf n i acc hn64 hd hr hne hlen
    cases ds with
    | nil =>
      rw [decodeLoop02, if_pos (by simp at hlen; omega)]
      simp [List.scanl]
    | cons t rest =>
      have hrt : tup8InRange t := hr t (by simp)
      by_cases hrun : 3 ≤ countRunNC t rest + 1
      · -- tag-0 RLE block
        rw [encode_body02_rle_step hrun] at hd
        simp only [List.cons_append, List.append_assoc] at hd
        have hlt : i < buf.length := drop_cons_lt hd
        have hb0 : buf[i] = 0 := drop_cons_head hd hlt
        have hd2 := drop_cons_tail hd
        have hcl := countRunNC_le_len t rest
        have hvd := varint_decode02_drop hd2
          (by simp at hlen; omega : countRunNC t rest + 1 < 2 ^ 64)
        have hd3 := drop_chunk hd2
        have htd := read_tup8_drop hrt hd3
        have hd4 := drop_chunk hd3
        rw [decodeLoop02, if_neg (by simp at hlen ⊢; omega), dif_pos hlt]
        rw [if_pos hb0]
        rw [hvd]
        dsimp only
        rw [htd]
        dsimp only
        rw [appendRun02_eq t n _ hne (by simp at hlen; omega)]
        rw [ih (rest.drop (countRunNC t rest))
          (by simp only [List.length_drop]; simp at hN; omega)
          buf n _ _ hn64 hd4
          (fun t2 ht2 => hr t2 (List.mem_cons_of_mem t (List.mem_of_mem_drop ht2)))
          (by simp [hne])
          (by
            simp only [List.length_append, List.length_tail, List.length_scanl,
              List.length_replicate, List.length_drop]
            simp at hlen
            omega)]
        rw [getLast!_append_scanl_tail addTick hne]
        have hsplit : t :: rest =
            List.replicate (countRunNC t rest + 1) t ++
              rest.drop (countRunNC t rest) := by
          rw [List.replicate_succ]
          simp only [List.cons_append]
          congr 1
          rw [← countRunNC_take t rest]
          exact (List.take_append_drop _ rest).symm
        have hscan :
            (List.scanl addTick acc.getLast! (t :: rest)).tail =
              (List.scanl addTick acc.getLast!
                  (List.replicate (countRunNC t rest + 1) t)).tail ++
                (List.scanl addTick
                  (List.foldl addTick acc.getLast!
                    (List.replicate (countRunNC t rest + 1) t))
                  (rest.drop (countRunNC t rest))).tail := by
          conv =>
            lhs
            rw [hsplit]
          rw [scanl_append]
          rw [scanl_eq_cons addTick acc.getLast!
            (List.replicate (countRunNC t rest + 1) t)]
          simp
        rw [hscan, List.append_assoc]
      · -- literal tag-1 block
        rw [encode_body02_lit_step (by omega)] at hd
        simp only [List.cons_append, List.append_assoc] at hd
        have hlt : i < buf.length := drop_cons_lt hd
        have hb1 : buf[i] = 1 := drop_cons_head hd hlt
        have hd2 := drop_cons_tail hd
        have htd := read_tup8_drop hrt hd2
        have hd3 := drop_chunk hd2
        rw [decodeLoop02, if_neg (by simp at hlen ⊢; omega), dif_pos hlt]
        rw [if_neg (show ¬ buf[i] = 0 by rw [hb1]; norm_num), if_pos hb1]
        rw [htd]
        dsimp only
        rw [ih rest (by simp at hN; omega) buf n _ _ hn64 hd3
          (fun t2 ht2 => hr t2 (List.mem_cons_of_mem t ht2))
          (by simp)
          (by simp at hlen ⊢; omega)]
        rw [getLast!_concat]
        rw [List.append_assoc]
        rw [List.scanl_cons]
        simp only [List.singleton_append, List.tail_cons]
        exact congrArg (fun z => Except.ok (acc ++ z))
          ((scanl_eq_cons addTick (addTick acc.getLast! t) rest).symm)

/-- Round trip for case 02: decoding the encoder's output returns the
ticks, when the ticks and their successive deltas stay in the signed
64-bit range and the row count is below 2^63. -/
theorem decode_star02_encode (ticks : List AirTick)
    (hn : ticks.length < 2 ^ 63)
    (hrows : ∀ b ∈ ticks, tickInRange b)
    (hds : ∀ t ∈ deltas02 ticks, tup8InRange t) :
    decode_star02 (encode_star02 ticks) = .ok ticks := by
  cases ticks with
  | nil =>
    unfold encode_star02 decode_star02
    have hmagic : (magicSTAR2A ++ varint_encode 0).take 6 = magicSTAR2A :=
      List.take_left' rfl
    rw [if_pos hmagic]
    have hd : (magicSTAR2A ++ varint_encode 0).drop 6 = varint_encode 0 ++ [] := by
      rw [List.append_nil]
      exact List.drop_left' rfl
    rw [varint_decode02_drop hd (by norm_num)]
    rfl
  | cons b0 tl =>
    have hb0 : tickInRange b0 := hrows b0 (by simp)
    unfold encode_star02 decode_star02
    dsimp only
    rw [tickOfTup_tick_zz]
    simp only [List.append_assoc]
    have hmagic : (magicSTAR2A ++ (varint_encode (b0 :: tl).length ++
        (encTup8 (b0.t_min, b0.co_x10, b0.c6h6_x10, b0.nox, b0.no2,
          b0.t_x10, b0.rh_x10, b0.ah_x1000) ++
          encode_body02 (deltas02 (b0 :: tl))))).take 6 = magicSTAR2A :=
      List.take_left' rfl
    rw [if_pos hmagic]
    have hd1 : (magicSTAR2A ++ (varint_encode (b0 :: tl).length ++
        (encTup8 (b0.t_min, b0.co_x10, b0.c6h6_x10, b0.nox, b0.no2,
          b0.t_x10, b0.rh_x10, b0.ah_x1000) ++
          encode_body02 (deltas02 (b0 :: tl))))).drop 6 =
        varint_encode (b0 :: tl).length ++
          (encTup8 (b0.t_min, b0.co_x10, b0.c6h6_x10, b0.nox, b0.no2,
            b0.t_x10, b0.rh_x10, b0.ah_x1000) ++
            encode_body02 (deltas02 (b0 :: tl))) :=
      List.drop_left' rfl
    rw [varint_decode02_drop hd1 (by
      have : (b0 :: tl).length < 2 ^ 63 := hn
      omega)]
    dsimp only
    rw [if_neg (by simp)]
    have hd2 := drop_chunk hd1
    rw [read_tup8_drop (tickInRange_tup hb0) hd2]
    dsimp only
    have hd3 := drop_chunk hd2
    rw [decodeLoop02_encode (deltas02 (b0 :: tl)).length (deltas02 (b0 :: tl)) le_rfl
      _ (b0 :: tl).length _ [tickOfTup (b0.t_min, b0.co_x10, b0.c6h6_x10, b0.nox,
        b0.no2, b0.t_x10, b0.rh_x10, b0.ah_x1000)] (by omega) hd3 hds
      (by simp)
      (by
        rw [List.length_singleton, deltas02_length (b0 :: tl)]
        simp only [List.length_cons]
        omega)]
    rw [tickOfTup_eta]
    have hlast : ([b0] : List AirTick).getLast! = b0 := getLast!_concat [] b0
    rw [hlast]
    have hrec : List.scanl addTick b0 (deltas02 (b0 :: tl)) = b0 :: tl :=
      reconstruct02 tl b0
    have hfin : [b0] ++ (List.scanl addTick b0 (deltas02 (b0 :: tl))).tail = b0 :: tl := by
      rw [scanl_eq_cons addTick b0 (deltas02 (b0 :: tl))] at hrec
      simpa using hrec
    rw [hfin]

theorem appendRun02_le (t : Tup8) (n : Nat) : ∀ (r : Nat) (acc : List AirTick),
    acc.length < n → (appendRun02 t n r acc).length ≤ n := by
  intro r
  induction r with
  | zero =>
    intro acc h
    simpa [appendRun02] using Nat.le_of_lt h
  | succ r ih =>
    intro acc h
    show (if n ≤ (acc ++ [addTick acc.getLast! t]).length
      then acc ++ [addTick acc.getLast! t]
      else appendRun02 t n r (acc ++ [addTick acc.getLast! t])).length ≤ n
    by_cases hbrk : n ≤ (acc ++ [addTick acc.getLast! t]).length
    · rw [if_pos hbrk]
      simp only [List.length_append, List.length_singleton] at hbrk ⊢
      omega
    · rw [if_neg hbrk]
      exact ih _ (by simp at hbrk ⊢; omega)

theorem appendRun02_ge (t : Tup8) (n : Nat) : ∀ (r : Nat) (acc : List AirTick),
    acc.length ≤ (appendRun02 t n r acc).length := by
  intro r
  induction r with
  | zero =>
    intro acc
    simp [appendRun02]
  | succ r ih =>
    intro acc
    show acc.length ≤ (if n ≤ (acc ++ [addTick acc.getLast! t]).length
      then acc ++ [addTick acc.getLast! t]
      else appendRun02 t n r (acc ++ [addTick acc.getLast! t])).length
    by_cases hbrk : n ≤ (acc ++ [addTick acc.getLast! t]).length
    · rw [if_pos hbrk]
      simp
    · rw [if_neg hbrk]
      have := ih (acc ++ [addTick acc.getLast! t])
      simp only [List.length_append, List.length_singleton] at this
      omega

/-- On success the case-02 decode loop returns **exactly** `n` ticks,
whatever the buffer: the run application breaks at `n` and the loop stops
at `n`. -/
theorem decodeLoop02_len {buf : List Nat} {n i : Nat} {acc out : List AirTick}
    (h : decodeLoop02 buf n i acc = .ok out) (hle : acc.length ≤ n) :
    out.length = n := by
  induction i, acc using decodeLoop02.induct buf n with
  | case1 i acc hle2 =>
    rw [decodeLoop02, if_pos hle2] at h
    simp only [Except.ok.injEq] at h
    subst h
    omega
  | case2 i acc hle2 hlt htag e hv =>
    rw [decodeLoop02, if_neg hle2, dif_pos hlt, if_pos htag, hv] at h
    exact absurd h (by simp)
  | case3 i acc hle2 hlt htag run i1 hv e ht =>
    rw [decodeLoop02, if_neg hle2, dif_pos hlt, if_pos htag, hv] at h
    dsimp only at h
    rw [ht] at h
    exact absurd h (by simp)
  | case4 i acc hle2 hlt htag run i1 hv t i2 ht ih =>
    rw [decodeLoop02, if_neg hle2, dif_pos hlt, if_pos htag, hv] at h
    dsimp only at h
    rw [ht] at h
    dsimp only at h
    exact ih h (appendRun02_le t n run acc (by omega))
  | case5 i acc hle2 hlt htag0 htag1 e ht =>
    rw [decodeLoop02, if_neg hle2, dif_pos hlt, if_neg htag0, if_pos htag1, ht] at h
    exact absurd h (by simp)
  | case6 i acc hle2 hlt htag0 htag1 t i2 ht ih =>
    rw [decodeLoop02, if_neg hle2, dif_pos hlt, if_neg htag0, if_pos htag1, ht] at h
    dsimp only at h
    exact ih h (by simp at hle2 ⊢; omega)
  | case7 i acc hle2 hlt htag0 htag1 =>
    rw [decodeLoop02, if_neg hle2, dif_pos hlt, if_neg htag0, if_neg htag1] at h
    exact absurd h (by simp)
  | case8 i acc hle2 hlt =>
    rw [decodeLoop02, if_neg hle2, dif_neg hlt] at h
    exact absurd h (by simp)

/-- Whenever case-02's `decode_star` succeeds, the number of returned ticks
equals the header's `n` — on any input buffer, not only encoder outputs. -/
theorem decode_star02_len {buf : List Nat} {out : List AirTick}
    (h : decode_star02 buf = .ok out) :
    ∃ n i1, varint_decode02 buf 6 = .ok (n, i1) ∧ out.length = n := by
  unfold decode_star02 at h
  by_cases hm : buf.take 6 = magicSTAR2A
  · rw [if_pos hm] at h
    cases h1 : varint_decode02 buf 6 with
    | error e => rw [h1] at h; exact absurd h (by simp)
    | ok p =>
      obtain ⟨n0, i1⟩ := p
      rw [h1] at h
      dsimp only at h
      by_cases hn0 : n0 = 0
      · rw [if_pos hn0] at h
        simp only [Except.ok.injEq] at h
        subst h
        exact ⟨n0, i1, rfl, by simp [hn0]⟩
      · rw [if_neg hn0] at h
        cases h2 : read_tup8 buf i1 with
        | error e => rw [h2] at h; exact absurd h (by simp)
        | ok p2 =>
          obtain ⟨t, i2⟩ := p2
          rw [h2] at h
          dsimp only at h
          refine ⟨n0, i1, rfl, ?_⟩
          exact decodeLoop02_len h (by simp; omega)
  · rw [if_neg hm] at h
    exact absurd h (by simp)

/-! #### The body scheme the spec describes for case 02

For claim C6 the spec asserts the case-02 body is case-01's greedy scheme
over 8-tuples: maximal run **capped at 10,000,000**, one tag-0 block when
the run reaches 3, literal blocks otherwise.  `encode_body02_spec` is that
scheme transcribed from the spec's words (and case-01's code); it is to be
compared with `encode_body02`, which is transcribed from case-02's code. -/

def countRun8 (t : Tup8) : List Tup8 → Nat → Nat
  | _, 0 => 0
  | [], _ => 0
  | d :: ds, b + 1 => if d = t then countRun8 t ds b + 1 else 0

def encode_body02_spec : List Tup8 → List Nat
  | [] => []
  | t :: rest =>
    let run := countRun8 t rest (10000000 - 1) + 1
    if 3 ≤ run then
      (0 :: varint_encode run ++ encTup8 t) ++ encode_body02_spec (rest.drop (run - 1))
    else
      (List.replicate run ((1 : Nat) :: encTup8 t)).flatten ++
        encode_body02_spec (rest.drop (run - 1))
termination_by ds => ds.length
decreasing_by
  all_goals
    simp only [List.length_drop]
    simp only [List.length_cons]
    omega

/-- The capped scan agrees with case-02's uncapped scan whenever the
uncapped run fits the budget. -/
theorem countRun8_eq_NC (t : Tup8) : ∀ (ds : List Tup8) (b : Nat),
    countRunNC t ds ≤ b → countRun8 t ds b = countRunNC t ds := by
  intro ds
  induction ds with
  | nil => intro b hb; cases b <;> simp [countRun8, countRunNC]
  | cons d ds ih =>
    intro b hb
    by_cases hd : d = t
    · simp only [countRunNC, if_pos hd] at hb ⊢
      obtain ⟨b2, rfl⟩ : ∃ b2, b = b2 + 1 := ⟨b - 1, by omega⟩
      simp only [countRun8, if_pos hd]
      rw [ih b2 (by omega)]
    · cases b with
      | zero => simp [countRun8, countRunNC, if_neg hd]
      | succ b => simp [countRun8, countRunNC, if_neg hd]

theorem countRunNC_cons_self (t : Tup8) (ds : List Tup8) :
    countRunNC t (t :: ds) = countRunNC t ds + 1 := by
  simp [countRunNC]

theorem countRunNC_replicate (t : Tup8) : ∀ (k : Nat),
    countRunNC t (List.replicate k t) = k := by
  intro k
  induction k with
  | zero => simp [countRunNC]
  | succ k ih =>
    rw [List.replicate_succ, countRunNC_cons_self, ih]

theorem countRun8_replicate (t : Tup8) : ∀ (k b : Nat),
    countRun8 t (List.replicate k t) b = min k b := by
  intro k
  induction k with
  | zero => intro b; cases b <;> simp [countRun8]
  | succ k ih =>
    intro b
    cases b with
    | zero => simp [countRun8]
    | succ b =>
      rw [List.replicate_succ]
      have hstep : countRun8 t (t :: List.replicate k t) (b + 1) =
          countRun8 t (List.replicate k t) b + 1 := by
        simp [countRun8]
      rw [hstep, ih b]
      omega

/-- Wherever the cap cannot bind — in particular whenever the delta list is
no longer than 10,000,000 — the case-02 body coincides with the
spec-described (case-01 style) body: the `≥ 3` threshold matches and the
single-literal short-run branch is output-equivalent to case-01's
multi-literal branch. -/
theorem encode_body02_eq_spec :
    ∀ (N : Nat) (ds : List Tup8), ds.length ≤ N → ds.length ≤ 10000000 →
    encode_body02 ds = encode_body02_spec ds := by
  intro N
  induction N with
  | zero =>
    intro ds hN hcap
    have hds : ds = [] := List.length_eq_zero.mp (by omega)
    subst hds
    simp [encode_body02, encode_body02_spec]
  | succ N ih =>
    intro ds hN hcap
    cases ds with
    | nil => simp [encode_body02, encode_body02_spec]
    | cons t rest =>
      have hcl := countRunNC_le_len t rest
      have hcr : countRun8 t rest (10000000 - 1) = countRunNC t rest :=
        countRun8_eq_NC t rest (10000000 - 1) (by simp at hcap; omega)
      by_cases hrun : 3 ≤ countRunNC t rest + 1
      · rw [encode_body02_rle_step hrun]
        rw [encode_body02_spec]
        rw [hcr, if_pos hrun, Nat.add_sub_cancel]
        rw [ih (rest.drop (countRunNC t rest))
          (by simp only [List.length_drop]; simp at hN; omega)
          (by simp only [List.length_drop]; simp at hcap; omega)]
      · rw [encode_body02_lit_step (by omega)]
        have hk : countRunNC t rest = 0 ∨ countRunNC t rest = 1 := by omega
        rcases hk with hk | hk
        · rw [encode_body02_spec]
          rw [hcr, hk, if_neg (by norm_num)]
          simp only [List.replicate_one, List.flatten_cons, List.flatten_nil,
            List.append_nil, Nat.add_sub_cancel, List.drop_zero]
          rw [ih rest (by simp at hN; omega) (by simp at hcap; omega)]
          simp
        · obtain ⟨d, rest2, rfl⟩ : ∃ d rest2, rest = d :: rest2 := by
            cases rest with
            | nil => simp [countRunNC] at hk
            | cons d rest2 => exact ⟨d, rest2, rfl⟩
          have hd : d = t := by
            by_contra hne
            simp [countRunNC, if_neg hne] at hk
          subst hd
          have hk2 : countRunNC d rest2 = 0 := by
            rw [countRunNC_cons_self] at hk
            omega
          rw [encode_body02_spec]
          rw [hcr, hk, if_neg (by norm_num)]
          have hbody2 : encode_body02 (d :: rest2) =
              (1 :: encTup8 d) ++ encode_body02 rest2 :=
            encode_body02_lit_step (by omega)
          rw [hbody2]
          rw [ih rest2 (by simp at hN; omega) (by simp at hcap; omega)]
          simp

/-! #### Where the cap does bind, the two schemes disagree

On 10,000,003 identical deltas (10,000,004 identical ticks) case 02 writes
one uncapped run while the spec's capped scheme writes two. -/

theorem zz_varint_zero : zz_varint 0 = [0] := by
  have h : (zigzag_encode 0).toNat = 0 := by decide
  rw [zz_varint, h]
  simp [varint_encode]

theorem encTup8_zero : encTup8 ((0, 0, 0, 0, 0, 0, 0, 0) : Tup8) = [0, 0, 0, 0, 0, 0, 0, 0] := by
  show zz_varint 0 ++ zz_varint 0 ++ zz_varint 0 ++ zz_varint 0 ++ zz_varint 0 ++
    zz_varint 0 ++ zz_varint 0 ++ zz_varint 0 = _
  rw [zz_varint_zero]
  rfl

theorem body02_replicate_big :
    encode_body02 (List.replicate 10000003 ((0, 0, 0, 0, 0, 0, 0, 0) : Tup8)) =
      0 :: varint_encode 10000003 ++ encTup8 ((0, 0, 0, 0, 0, 0, 0, 0) : Tup8) := by
  have hsplit : (10000003 : Nat) = 10000002 + 1 := by norm_num
  rw [hsplit, List.replicate_succ]
  have hrun : countRunNC ((0, 0, 0, 0, 0, 0, 0, 0) : Tup8)
      (List.replicate 10000002 ((0, 0, 0, 0, 0, 0, 0, 0) : Tup8)) = 10000002 :=
    countRunNC_replicate _ 10000002
  rw [encode_body02_rle_step (by rw [hrun]; norm_num), hrun]
  rw [List.drop_replicate]
  have hz : (10000002 : Nat) - 10000002 = 0 := by norm_num
  rw [hz, List.replicate_zero]
  have hnil : encode_body02 [] = [] := by simp [encode_body02]
  rw [hnil, List.append_nil]

theorem spec_big_step1 :
    encode_body02_spec (List.replicate 10000003 ((0, 0, 0, 0, 0, 0, 0, 0) : Tup8)) =
      (0 :: varint_encode 10000000 ++ encTup8 ((0, 0, 0, 0, 0, 0, 0, 0) : Tup8)) ++
        encode_body02_spec (List.replicate 3 ((0, 0, 0, 0, 0, 0, 0, 0) : Tup8)) := by
  have hsplit : (10000003 : Nat) = 10000002 + 1 := by norm_num
  rw [hsplit, List.replicate_succ]
  rw [encode_body02_spec]
  rw [countRun8_replicate]
  have hmin : min 10000002 (10000000 - 1) = 9999999 := by norm_num
  rw [hmin]
  rw [if_pos (by norm_num : 3 ≤ 9999999 + 1)]
  have hm1 : (9999999 : Nat) + 1 - 1 = 9999999 := by norm_num
  rw [hm1, List.drop_replicate]

theorem spec_big_step2 :
    encode_body02_spec (List.replicate 3 ((0, 0, 0, 0, 0, 0, 0, 0) : Tup8)) =
      0 :: varint_encode 3 ++ encTup8 ((0, 0, 0, 0, 0, 0, 0, 0) : Tup8) := by
  have h3s : (3 : Nat) = 2 + 1 := by norm_num
  rw [h3s, List.replicate_succ]
  rw [encode_body02_spec]
  rw [countRun8_replicate]
  have hmin2 : min 2 (10000000 - 1) = 2 := by norm_num
  rw [hmin2]
  rw [if_pos (by norm_num : 3 ≤ 2 + 1)]
  have hm2 : (2 : Nat) + 1 - 1 = 2 := by norm_num
  rw [hm2, List.drop_replicate]
  have hz : (2 : Nat) - 2 = 0 := by norm_num
  rw [hz, List.replicate_zero]
  have hnil : encode_body02_spec [] = [] := by simp [encode_body02_spec]
  rw [hnil, List.append_nil]

theorem body02_spec_replicate_big :
    encode_body02_spec (List.replicate 10000003 ((0, 0, 0, 0, 0, 0, 0, 0) : Tup8)) =
      (0 :: varint_encode 10000000 ++ encTup8 ((0, 0, 0, 0, 0, 0, 0, 0) : Tup8)) ++
        (0 :: varint_encode 3 ++ encTup8 ((0, 0, 0, 0, 0, 0, 0, 0) : Tup8)) := by
  rw [spec_big_step1, spec_big_step2]

/-- The two bodies on 10,000,003 identical deltas: 13 bytes against 23. -/
theorem body02_spec_diverges :
    encode_body02 (List.replicate 10000003 ((0, 0, 0, 0, 0, 0, 0, 0) : Tup8)) ≠
      encode_body02_spec (List.replicate 10000003 ((0, 0, 0, 0, 0, 0, 0, 0) : Tup8)) := by
  rw [body02_replicate_big, body02_spec_replicate_big]
  have hv1 : varint_encode 10000003 = [131, 173, 226, 4] := by
    simp [varint_encode]
    decide
  have hv2 : varint_encode 10000000 = [128, 173, 226, 4] := by
    simp [varint_encode]
    decide
  have hv3 : varint_encode 3 = [3] := by
    simp [varint_encode]
    decide
  rw [hv1, hv2, hv3, encTup8_zero]
  decide

end Case02

/-! ### Case-02 index builder (`star_index_case02.py`)

The module imports case-02's `varint_decode` and `zigzag_decode`; anchors
are `(row, byte_offset, tick)` and — unlike case 01 — are recorded **after**
a block has been applied, whenever the row index is a multiple of
`anchor_every`. -/

namespace Index02

open Case01 Index01 Case02

/-- The tag-0 run application of `build_index` (case 02): the break at
`n - 1` is checked **before** each application. -/
def runIdx02 (t : Tup8) (n : Nat) : Nat → AirTick × Nat → AirTick × Nat
  | 0, st => st
  | r + 1, (cur, row) =>
    if n - 1 ≤ row then (cur, row)
    else runIdx02 t n r (addTick cur t, row + 1)

/-- The `while cur_row < n - 1` walk of case-02's `build_index`, carrying
the anchor list; anchors are recorded after each block. -/
def indexLoop02 (buf : List Nat) (ae n : Nat) (row pos : Nat) (cur : AirTick)
    (anchors : List (Nat × Nat × AirTick)) :
    Except Err (List (Nat × Nat × AirTick)) :=
  if row < n - 1 then
    if h : pos < buf.length then
      if buf[pos] = 0 then
        match hv : varint_decode02 buf (pos + 1) with
        | .error e => .error e
        | .ok (run, p1) =>
          match ht : read_tup8 buf p1 with
          | .error e => .error e
          | .ok (t, p2) =>
            let st := runIdx02 t n run (cur, row)
            indexLoop02 buf ae n st.2 p2 st.1
              (if st.2 % ae = 0 then anchors ++ [(st.2, p2, st.1)] else anchors)
      else if buf[pos] = 1 then
        match ht : read_tup8 buf (pos + 1) with
        | .error e => .error e
        | .ok (t, p2) =>
          indexLoop02 buf ae n (row + 1) p2 (addTick cur t)
            (if (row + 1) % ae = 0
             then anchors ++ [(row + 1, p2, addTick cur t)] else anchors)
      else .error .badTag
    else .error .truncatedBody
  else .ok anchors
termination_by buf.length - pos
decreasing_by
  · have hv2 := varint_decode02_lt hv
    have ht2 := read_tup8_lt ht
    omega
  · have ht2 := read_tup8_lt ht
    omega

/-- `build_index` of case 02 (file I/O dropped; `anchor_every ≤ 0` raises
before any reading).  Returns the header `n` and the anchors. -/
def build_index02 (buf : List Nat) (anchor_every : Nat) :
    Except Err (Nat × List (Nat × Nat × AirTick)) :=
  if anchor_every = 0 then .error .usage
  else if buf.take 6 = magicSTAR2A then
    match varint_decode02 buf 6 with
    | .error e => .error e
    | .ok (n, i1) =>
      if n = 0 then .ok (0, [(0, i1, ⟨0, 0, 0, 0, 0, 0, 0, 0⟩)])
      else
        match read_tup8 buf i1 with
        | .error e => .error e
        | .ok (t, i2) =>
          match indexLoop02 buf anchor_every n 0 i2 (tickOfTup t)
              [(0, i2, tickOfTup t)] with
          | .error e => .error e
          | .ok anchors => .ok (n, anchors)
  else .error .badMagic

/-- The `GoodAnchor` invariant for case-02 anchors. -/
def GoodAnchor02 (buf : List Nat) (n : Nat) (rows : List AirTick)
    (a : Nat × Nat × AirTick) : Prop :=
  a.2.1 ≤ buf.length ∧
  ∃ dsRem, buf.drop a.2.1 = encode_body02 dsRem ∧
    (∀ t ∈ dsRem, tup8InRange t) ∧
    a.1 + dsRem.length + 1 = n ∧
    rows.drop a.1 = List.scanl addTick a.2.2 dsRem

theorem runIdx02_no_break (t : Tup8) (n : Nat) :
    ∀ (r : Nat) (cur : AirTick) (row : Nat), row + r ≤ n - 1 →
      runIdx02 t n r (cur, row) =
        (List.foldl addTick cur (List.replicate r t), row + r) := by
  intro r
  induction r with
  | zero =>
    intro cur row h
    simp [runIdx02]
  | succ r ih =>
    intro cur row h
    unfold runIdx02
    rw [if_neg (by omega), ih (addTick cur t) (row + 1) (by omega)]
    rw [List.replicate_succ, List.foldl_cons]
    have hr : row + 1 + r = row + (r + 1) := by omega
    rw [hr]

theorem indexLoop02_spec :
    ∀ (N : Nat) (ds : List Tup8), ds.length ≤ N →
    ∀ (buf : List Nat) (ae n row pos : Nat) (cur : AirTick)
      (anchors : List (Nat × Nat × AirTick)) (rows : List AirTick),
      n < 2 ^ 64 →
      buf.drop pos = encode_body02 ds →
      pos ≤ buf.length →
      (∀ t ∈ ds, tup8InRange t) →
      row + ds.length + 1 = n →
      rows.drop row = List.scanl addTick cur ds →
      ∃ anchorsNew,
        indexLoop02 buf ae n row pos cur anchors = .ok (anchors ++ anchorsNew) ∧
        ∀ a ∈ anchorsNew, GoodAnchor02 buf n rows a := by
  intro N
  induction N with
  | zero =>
    intro ds hN buf ae n row pos cur anchors rows hn64 hd hpos hr hcnt hrows
    have hds : ds = [] := List.length_eq_zero.mp (by omega)
    subst hds
    simp only [List.length_nil] at hcnt
    refine ⟨[], ?_, by simp⟩
    rw [indexLoop02, if_neg (by omega)]
    simp
  | succ N ih =>
    intro ds hN buf ae n row pos cur anchors rows hn64 hd hpos hr hcnt hrows
    cases ds with
    | nil =>
      simp only [List.length_nil] at hcnt
      refine ⟨[], ?_, by simp⟩
      rw [indexLoop02, if_neg (by omega)]
      simp
    | cons t rest =>
      have hrt : tup8InRange t := hr t (by simp)
      have hrow : row < n - 1 := by simp at hcnt; omega
      by_cases hrun : 3 ≤ countRunNC t rest + 1
      · -- tag-0 RLE block
        rw [encode_body02_rle_step hrun] at hd
        simp only [List.cons_append, List.append_assoc] at hd
        have hcl := countRunNC_le_len t rest
        have hlt : pos < buf.length := drop_cons_lt hd
        have hb0 : buf[pos] = 0 := drop_cons_head hd hlt
        have hd2 := drop_cons_tail hd
        have hvd := varint_decode02_drop hd2
          (by simp at hcnt; omega : countRunNC t rest + 1 < 2 ^ 64)
        have hd3 := drop_chunk hd2
        have htd := read_tup8_drop hrt hd3
        have hd4 := drop_chunk hd3
        have hp2 := read_tup8_lt htd
        have hsplit : t :: rest =
            List.replicate (countRunNC t rest + 1) t ++
              rest.drop (countRunNC t rest) := by
          rw [List.replicate_succ]
          simp only [List.cons_append]
          congr 1
          rw [← countRunNC_take t rest]
          exact (List.take_append_drop _ rest).symm
        have hrows2 : rows.drop row = List.scanl addTick cur
            (List.replicate (countRunNC t rest + 1) t ++
              rest.drop (countRunNC t rest)) := by
          rw [hrows]
          conv =>
            lhs
            rw [hsplit]
        have hrows3 :
            rows.drop (row + (countRunNC t rest + 1)) =
              List.scanl addTick
                (List.foldl addTick cur
                  (List.replicate (countRunNC t rest + 1) t))
                (rest.drop (countRunNC t rest)) := by
          have h1 : rows.drop (row + (countRunNC t rest + 1)) =
              List.drop (countRunNC t rest + 1) (rows.drop row) := by
            rw [List.drop_drop, Nat.add_comm row]
          rw [h1, hrows2, scanl_append, scanl_replicate_drop]
          exact (scanl_eq_cons _ _ _).symm
        rw [indexLoop02, if_pos hrow, dif_pos hlt, if_pos hb0, hvd]
        dsimp only
        rw [htd]
        dsimp only
        rw [runIdx02_no_break t n (countRunNC t rest + 1) cur row
          (by simp at hcnt; omega)]
        dsimp only
        obtain ⟨anchorsNew, hloop, hgood⟩ :=
          ih (rest.drop (countRunNC t rest))
            (by simp only [List.length_drop]; simp at hN; omega)
            buf ae n (row + (countRunNC t rest + 1)) _ _
            ((if (row + (countRunNC t rest + 1)) % ae = 0
              then anchors ++ [(row + (countRunNC t rest + 1),
                pos + 1 + (varint_encode (countRunNC t rest + 1)).length +
                  (encTup8 t).length,
                List.foldl addTick cur (List.replicate (countRunNC t rest + 1) t))]
              else anchors))
            rows hn64 hd4 (by omega)
            (fun t2 ht2 => hr t2 (List.mem_cons_of_mem t (List.mem_of_mem_drop ht2)))
            (by simp only [List.length_drop]; simp at hcnt; omega)
            hrows3
        refine ⟨(if (row + (countRunNC t rest + 1)) % ae = 0
            then [(row + (countRunNC t rest + 1),
              pos + 1 + (varint_encode (countRunNC t rest + 1)).length +
                (encTup8 t).length,
              List.foldl addTick cur (List.replicate (countRunNC t rest + 1) t))]
            else []) ++ anchorsNew, ?_, ?_⟩
        · rw [hloop, list_if_append, List.append_assoc]
        · intro a ha
          rcases List.mem_append.mp ha with ha | ha
          · by_cases hP : (row + (countRunNC t rest + 1)) % ae = 0
            · rw [if_pos hP] at ha
              simp only [List.mem_singleton] at ha
              subst ha
              unfold GoodAnchor02
              dsimp only
              exact ⟨by omega, rest.drop (countRunNC t rest), hd4,
                (fun t2 ht2 => hr t2
                  (List.mem_cons_of_mem t (List.mem_of_mem_drop ht2))),
                (by simp only [List.length_drop]; simp at hcnt; omega),
                hrows3⟩
            · rw [if_neg hP] at ha
              simp at ha
          · exact hgood a ha
      · -- literal tag-1 block
        rw [encode_body02_lit_step (by omega)] at hd
        simp only [List.cons_append, List.append_assoc] at hd
        have hlt : pos < buf.length := drop_cons_lt hd
        have hb1 : buf[pos] = 1 := drop_cons_head hd hlt
        have hd2 := drop_cons_tail hd
        have htd := read_tup8_drop hrt hd2
        have hd3 := drop_chunk hd2
        have hp2 := read_tup8_lt htd
        have hrows3 : rows.drop (row + 1) = List.scanl addTick (addTick cur t) rest := by
          have h1 : rows.drop (row + 1) = List.drop 1 (rows.drop row) := by
            rw [List.drop_drop, Nat.add_comm row]
          rw [h1, hrows, List.scanl_cons]
          simp
        rw [indexLoop02, if_pos hrow, dif_pos hlt,
          if_neg (show ¬ buf[pos] = 0 by rw [hb1]; norm_num), if_pos hb1, htd]
        dsimp only
        obtain ⟨anchorsNew, hloop, hgood⟩ :=
          ih rest (by simp at hN; omega)
            buf ae n (row + 1) _ _
            ((if (row + 1) % ae = 0
              then anchors ++ [(row + 1, pos + 1 + (encTup8 t).length, addTick cur t)]
              else anchors))
            rows hn64 hd3 (by omega)
            (fun t2 ht2 => hr t2 (List.mem_cons_of_mem t ht2))
            (by simp at hcnt ⊢; omega)
            hrows3
        refine ⟨(if (row + 1) % ae = 0
            then [(row + 1, pos + 1 + (encTup8 t).length, addTick cur t)]
            else []) ++ anchorsNew, ?_, ?_⟩
        · rw [hloop, list_if_append, List.append_assoc]
        · intro a ha
          rcases List.mem_append.mp ha with ha | ha
          · by_cases hP : (row + 1) % ae = 0
            · rw [if_pos hP] at ha
              simp only [List.mem_singleton] at ha
              subst ha
              unfold GoodAnchor02
              dsimp only
              exact ⟨by omega, rest, hd3,
                (fun t2 ht2 => hr t2 (List.mem_cons_of_mem t ht2)),
                (by simp at hcnt ⊢; omega), hrows3⟩
            · rw [if_neg hP] at ha
              simp at ha
          · exact hgood a ha

/-- `build_index02` on a nonempty encoded blob: it succeeds with the header
row count and every anchor satisfies `GoodAnchor02`. -/
theorem build_index02_spec (b0 : AirTick) (tl : List AirTick) (ae : Nat)
    (hae : ae ≠ 0)
    (hn : (b0 :: tl).length < 2 ^ 63)
    (hrows : ∀ b ∈ b0 :: tl, tickInRange b)
    (hds : ∀ t ∈ deltas02 (b0 :: tl), tup8InRange t) :
    ∃ anchors, build_index02 (encode_star02 (b0 :: tl)) ae =
        .ok ((b0 :: tl).length, anchors) ∧
      anchors ≠ [] ∧
      ∀ a ∈ anchors,
        GoodAnchor02 (encode_star02 (b0 :: tl)) (b0 :: tl).length (b0 :: tl) a := by
  have hb0 : tickInRange b0 := hrows b0 (by simp)
  have hdslen : (deltas02 (b0 :: tl)).length = tl.length := by
    rw [deltas02_length]
    simp
  unfold build_index02 encode_star02
  dsimp only
  rw [tickOfTup_tick_zz]
  simp only [List.append_assoc]
  rw [if_neg hae]
  have hmagic : (magicSTAR2A ++ (varint_encode (b0 :: tl).length ++
      (encTup8 (b0.t_min, b0.co_x10, b0.c6h6_x10, b0.nox, b0.no2,
        b0.t_x10, b0.rh_x10, b0.ah_x1000) ++
        encode_body02 (deltas02 (b0 :: tl))))).take 6 = magicSTAR2A :=
    List.take_left' rfl
  rw [if_pos hmagic]
  have hd1 : (magicSTAR2A ++ (varint_encode (b0 :: tl).length ++
      (encTup8 (b0.t_min, b0.co_x10, b0.c6h6_x10, b0.nox, b0.no2,
        b0.t_x10, b0.rh_x10, b0.ah_x1000) ++
        encode_body02 (deltas02 (b0 :: tl))))).drop 6 =
      varint_encode (b0 :: tl).length ++
        (encTup8 (b0.t_min, b0.co_x10, b0.c6h6_x10, b0.nox, b0.no2,
          b0.t_x10, b0.rh_x10, b0.ah_x1000) ++
          encode_body02 (deltas02 (b0 :: tl))) :=
    List.drop_left' rfl
  rw [varint_decode02_drop hd1 (by
    have h2 : (b0 :: tl).length < 2 ^ 63 := hn
    omega)]
  dsimp only
  rw [if_neg (by simp)]
  have hd2 := drop_chunk hd1
  rw [read_tup8_drop (tickInRange_tup hb0) hd2]
  dsimp only
  rw [tickOfTup_eta]
  have hd3 := drop_chunk hd2
  have hp2 := read_tup8_lt (read_tup8_drop (tickInRange_tup hb0) hd2)
  obtain ⟨anchorsNew, hloop, hgood⟩ :=
    indexLoop02_spec (deltas02 (b0 :: tl)).length (deltas02 (b0 :: tl)) le_rfl
      (magicSTAR2A ++ (varint_encode (b0 :: tl).length ++
        (encTup8 (b0.t_min, b0.co_x10, b0.c6h6_x10, b0.nox, b0.no2,
          b0.t_x10, b0.rh_x10, b0.ah_x1000) ++
          encode_body02 (deltas02 (b0 :: tl)))))
      ae (b0 :: tl).length 0
      (6 + (varint_encode (b0 :: tl).length).length +
        (encTup8 (b0.t_min, b0.co_x10, b0.c6h6_x10, b0.nox, b0.no2,
          b0.t_x10, b0.rh_x10, b0.ah_x1000)).length)
      b0
      [(0, 6 + (varint_encode (b0 :: tl).length).length +
        (encTup8 (b0.t_min, b0.co_x10, b0.c6h6_x10, b0.nox, b0.no2,
          b0.t_x10, b0.rh_x10, b0.ah_x1000)).length, b0)]
      (b0 :: tl)
      (by omega) hd3 (by omega) hds
      (by rw [hdslen]; simp)
      (by rw [List.drop_zero]; exact (reconstruct02 tl b0).symm)
  rw [hloop]
  dsimp only
  refine ⟨_, rfl, by simp, ?_⟩
  intro a ha
  rcases List.mem_cons.mp ha with ha | ha
  · subst ha
    unfold GoodAnchor02
    dsimp only
    exact ⟨by omega, deltas02 (b0 :: tl), hd3, hds,
      (by rw [hdslen]; simp), (by rw [List.drop_zero]; exact (reconstruct02 tl b0).symm)⟩
  · exact hgood a (by simpa using ha)

/-- The case-02 body stream of a nonempty delta list begins with a tag
byte. -/
theorem encode_body02_head (t : Tup8) (rest : List Tup8) :
    ∃ bs, encode_body02 (t :: rest) = 0 :: bs ∨ encode_body02 (t :: rest) = 1 :: bs := by
  by_cases hrun : 3 ≤ countRunNC t rest + 1
  · refine ⟨varint_encode (countRunNC t rest + 1) ++ encTup8 t ++
      encode_body02 (rest.drop (countRunNC t rest)), Or.inl ?_⟩
    rw [encode_body02_rle_step hrun]
    simp
  · rw [encode_body02_lit_step (by omega)]
    exact ⟨encTup8 t ++ encode_body02 rest, Or.inr rfl⟩

/-- A case-02 `GoodAnchor02` points at a tag byte while rows remain, and at
the very end of the buffer when it is the final-row anchor. -/
theorem goodAnchor02_tag {buf : List Nat} {n : Nat} {rows : List AirTick}
    {a : Nat × Nat × AirTick} (hg : GoodAnchor02 buf n rows a) :
    (a.1 + 1 < n → a.2.1 < buf.length ∧
      (buf.getD a.2.1 2 = 0 ∨ buf.getD a.2.1 2 = 1)) ∧
    (a.1 + 1 = n → a.2.1 = buf.length) := by
  obtain ⟨hle, dsRem, hdrop, hr, hlen, hrows⟩ := hg
  constructor
  · intro hlt
    have hne : dsRem ≠ [] := by
      intro hnil
      subst hnil
      simp only [List.length_nil] at hlen
      omega
    obtain ⟨t, rest, htr⟩ := List.exists_cons_of_ne_nil hne
    subst htr
    obtain ⟨bs, hb⟩ := encode_body02_head t rest
    rcases hb with hb | hb
    · rw [hb] at hdrop
      have hblt := drop_cons_lt hdrop
      have hb0 := drop_cons_head hdrop hblt
      refine ⟨hblt, Or.inl ?_⟩
      rw [List.getD_eq_getElem buf 2 hblt]
      exact hb0
    · rw [hb] at hdrop
      have hblt := drop_cons_lt hdrop
      have hb1 := drop_cons_head hdrop hblt
      refine ⟨hblt, Or.inr ?_⟩
      rw [List.getD_eq_getElem buf 2 hblt]
      exact hb1
  · intro heq
    have hnil : dsRem = [] := by
      cases dsRem with
      | nil => rfl
      | cons t rest => simp only [List.length_cons] at hlen; omega
    subst hnil
    have hdnil : buf.drop a.2.1 = [] := by rw [hdrop]; simp [encode_body02]
    have := List.drop_eq_nil_iff.mp hdnil
    omega

end Index02

/-! ### Case-02 seek replay (`star_replay_case02.py`)

`replay_seek` loads the index, linearly scans for the last anchor at or
before the seek row, catches up to the seek row without emitting, then
collects rows until `min(nrows, seek_row + rows)`.  It checks the STAR and
index magics but never compares the index's `nrows` with the STAR header's
`n` (claim C7). -/

namespace Replay02

open Case02

/-- The catch-up run application (breaks at `seek_row` before applying). -/
def runCatch02 (t : Tup8) (seek : Nat) : Nat → AirTick × Nat → AirTick × Nat
  | 0, st => st
  | r + 1, (cur, row) =>
    if seek ≤ row then (cur, row)
    else runCatch02 t seek r (addTick cur t, row + 1)

/-- The `while cur_row < seek_row` catch-up loop. -/
def catchLoop02 (buf : List Nat) (seek : Nat) (row pos : Nat) (cur : AirTick) :
    Except Err (AirTick × Nat × Nat) :=
  if row < seek then
    if h : pos < buf.length then
      if buf[pos] = 0 then
        match hv : varint_decode02 buf (pos + 1) with
        | .error e => .error e
        | .ok (run, p1) =>
          match ht : read_tup8 buf p1 with
          | .error e => .error e
          | .ok (t, p2) =>
            let st := runCatch02 t seek run (cur, row)
            catchLoop02 buf seek st.2 p2 st.1
      else if buf[pos] = 1 then
        match ht : read_tup8 buf (pos + 1) with
        | .error e => .error e
        | .ok (t, p2) => catchLoop02 buf seek (row + 1) p2 (addTick cur t)
      else .error .badTag
    else .error .truncatedBody
  else .ok (cur, row, pos)
termination_by buf.length - pos
decreasing_by
  · have hv2 := varint_decode02_lt hv
    have ht2 := read_tup8_lt ht
    omega
  · have ht2 := read_tup8_lt ht
    omega

/-- The collect-phase run application (breaks at `target_end - 1` before
applying; appends each applied row). -/
def runCol02 (t : Tup8) (tgt : Nat) :
    Nat → AirTick × Nat × List AirTick → AirTick × Nat × List AirTick
  | 0, st => st
  | r + 1, (cur, row, out) =>
    if tgt - 1 ≤ row then (cur, row, out)
    else runCol02 t tgt r (addTick cur t, row + 1, out ++ [addTick cur t])

/-- The `while cur_row < target_end - 1` collect loop (running off the end
of the buffer merely stops it). -/
def collectLoop02 (buf : List Nat) (tgt : Nat) (row pos : Nat) (cur : AirTick)
    (out : List AirTick) : Except Err (List AirTick) :=
  if row < tgt - 1 then
    if h : pos < buf.length then
      if buf[pos] = 0 then
        match hv : varint_decode02 buf (pos + 1) with
        | .error e => .error e
        | .ok (run, p1) =>
          match ht : read_tup8 buf p1 with
          | .error e => .error e
          | .ok (t, p2) =>
            let st := runCol02 t tgt run (cur, row, out)
            collectLoop02 buf tgt st.2.1 p2 st.1 st.2.2
      else if buf[pos] = 1 then
        match ht : read_tup8 buf (pos + 1) with
        | .error e => .error e
        | .ok (t, p2) =>
          collectLoop02 buf tgt (row + 1) p2 (addTick cur t)
            (out ++ [addTick cur t])
      else .error .badTag
    else .ok out
  else .ok out
termination_by buf.length - pos
decreasing_by
  · have hv2 := varint_decode02_lt hv
    have ht2 := read_tup8_lt ht
    omega
  · have ht2 := read_tup8_lt ht
    omega

/-- The anchor scan of `replay_seek`: index of the last anchor whose row is
at most `seek_row` (`best`, starting at 0). -/
def bestScan (anchors : List (Nat × Nat × AirTick)) (seek : Nat) : Nat :=
  go 0 0 anchors
where
  go (k best : Nat) : List (Nat × Nat × AirTick) → Nat
    | [] => best
    | a :: rest => if a.1 ≤ seek then go (k + 1) k rest else best

/-- The core of `replay_seek` from the chosen anchor onward (file and index
loading dropped; the anchor state, the seek row, the index's `nrows` and
the output budget are arguments). -/
def replay_seek_core (buf : List Nat) (a_row a_off : Nat) (a_tick : AirTick)
    (seek nrows rows : Nat) : Except Err (List AirTick) :=
  match catchLoop02 buf seek a_row a_off a_tick with
  | .error e => .error e
  | .ok (cur, row, pos) =>
    collectLoop02 buf (min nrows (seek + rows)) row pos cur [cur]

open Case01 Index02 Replay01 in
/-- The collect run application in sync with the rows: it advances
`min r (tgt−1−row)` rows, appending each. -/
theorem runCol02_spec (t : Tup8) (tgt : Nat) (rows : List AirTick) :
    ∀ (r : Nat) (ds2 : List Tup8) (cur : AirTick) (row : Nat) (out : List AirTick),
      rows.drop row = List.scanl addTick cur (List.replicate r t ++ ds2) →
      ∃ cur2, runCol02 t tgt r (cur, row, out) =
          (cur2, row + min r (tgt - 1 - row),
            out ++ (rows.drop (row + 1)).take (min r (tgt - 1 - row))) ∧
        (min r (tgt - 1 - row) = r →
          cur2 = List.foldl addTick cur (List.replicate r t)) := by
  intro r
  induction r with
  | zero =>
    intro ds2 cur row out hrows
    refine ⟨cur, ?_, ?_⟩
    · simp [runCol02]
    · intro h
      simp
  | succ r ih =>
    intro ds2 cur row out hrows
    have hdrop1 : rows.drop (row + 1) =
        List.scanl addTick (addTick cur t) (List.replicate r t ++ ds2) := by
      have h1 : rows.drop (row + 1) = List.drop 1 (rows.drop row) := by
        rw [List.drop_drop, Nat.add_comm row]
      rw [h1, hrows, List.replicate_succ, List.cons_append, List.scanl_cons]
      simp
    have hhead : rows.drop (row + 1) =
        addTick cur t :: rows.drop (row + 2) := by
      rw [hdrop1, scanl_eq_cons]
      congr 1
      have h2 : row + 2 = row + 1 + 1 := by omega
      rw [h2, ← List.tail_drop, hdrop1]
    by_cases hstop : tgt - 1 ≤ row
    · refine ⟨cur, ?_, ?_⟩
      · unfold runCol02
        rw [if_pos hstop]
        have hm : min (r + 1) (tgt - 1 - row) = 0 := by omega
        rw [hm]
        simp
      · intro h
        rw [show min (r + 1) (tgt - 1 - row) = 0 by omega] at h
        omega
    · obtain ⟨cur2, heq, hfull⟩ := ih ds2 (addTick cur t) (row + 1)
        (out ++ [addTick cur t]) hdrop1
      refine ⟨cur2, ?_, ?_⟩
      · unfold runCol02
        rw [if_neg hstop, heq]
        have hm : min (r + 1) (tgt - 1 - row) =
            min r (tgt - 1 - (row + 1)) + 1 := by omega
        rw [hm]
        have hidx : row + 1 + min r (tgt - 1 - (row + 1)) =
            row + (min r (tgt - 1 - (row + 1)) + 1) := by omega
        rw [hidx]
        have htake : (rows.drop (row + 1)).take (min r (tgt - 1 - (row + 1)) + 1) =
            addTick cur t :: (rows.drop (row + 2)).take (min r (tgt - 1 - (row + 1))) := by
          rw [hhead]
          simp
        rw [htake]
        simp
      · intro h
        have hm : min (r + 1) (tgt - 1 - row) =
            min r (tgt - 1 - (row + 1)) + 1 := by omega
        rw [hm] at h
        rw [hfull (by omega), List.replicate_succ, List.foldl_cons]

open Case01 Index01 Index02 Replay01 in
/-- The collect loop from a state in sync with the rows: it emits one tick
per row from `row+1` up to `tgt−1`. -/
theorem collectLoop02_spec :
    ∀ (N : Nat) (ds : List Tup8), ds.length ≤ N →
    ∀ (buf : List Nat) (tgt n row pos : Nat) (cur : AirTick)
      (out : List AirTick) (rows : List AirTick),
      n < 2 ^ 64 →
      tgt ≤ n →
      buf.drop pos = encode_body02 ds →
      (∀ t ∈ ds, tup8InRange t) →
      row + ds.length + 1 = n →
      rows.drop row = List.scanl addTick cur ds →
      collectLoop02 buf tgt row pos cur out =
        .ok (out ++ (rows.drop (row + 1)).take (tgt - 1 - row)) := by
  intro N
  induction N with
  | zero =>
    intro ds hN buf tgt n row pos cur out rows hn64 htgt hd hr hcnt hrows
    have hds : ds = [] := List.length_eq_zero.mp (by omega)
    subst hds
    simp only [List.length_nil] at hcnt
    rw [collectLoop02, if_neg (by omega)]
    rw [show tgt - 1 - row = 0 by omega]
    simp
  | succ N ih =>
    intro ds hN buf tgt n row pos cur out rows hn64 htgt hd hr hcnt hrows
    cases ds with
    | nil =>
      simp only [List.length_nil] at hcnt
      rw [collectLoop02, if_neg (by omega)]
      rw [show tgt - 1 - row = 0 by omega]
      simp
    | cons t rest =>
      by_cases hrow : row < tgt - 1
      case neg =>
        rw [collectLoop02, if_neg hrow]
        rw [show tgt - 1 - row = 0 by omega]
        simp
      case pos =>
      have hrt : tup8InRange t := hr t (by simp)
      have hXlen : (rows.drop (row + 1)).length = rest.length + 1 := by
        rw [← List.tail_drop, hrows, List.length_tail, List.length_scanl]
        simp
      by_cases hrun : 3 ≤ countRunNC t rest + 1
      · -- tag-0 RLE block
        rw [encode_body02_rle_step hrun] at hd
        simp only [List.cons_append, List.append_assoc] at hd
        have hcl := countRunNC_le_len t rest
        have hlt : pos < buf.length := drop_cons_lt hd
        have hb0 : buf[pos] = 0 := drop_cons_head hd hlt
        have hd2 := drop_cons_tail hd
        have hvd := varint_decode02_drop hd2
          (by simp at hcnt; omega : countRunNC t rest + 1 < 2 ^ 64)
        have hd3 := drop_chunk hd2
        have htd := read_tup8_drop hrt hd3
        have hd4 := drop_chunk hd3
        have hsplit : t :: rest =
            List.replicate (countRunNC t rest + 1) t ++
              rest.drop (countRunNC t rest) := by
          rw [List.replicate_succ]
          simp only [List.cons_append]
          congr 1
          rw [← countRunNC_take t rest]
          exact (List.take_append_drop _ rest).symm
        have hrows2 : rows.drop row = List.scanl addTick cur
            (List.replicate (countRunNC t rest + 1) t ++
              rest.drop (countRunNC t rest)) := by
          rw [hrows]
          conv =>
            lhs
            rw [hsplit]
        obtain ⟨cur2, heq, hfull⟩ :=
          runCol02_spec t tgt rows (countRunNC t rest + 1)
            (rest.drop (countRunNC t rest)) cur row out hrows2
        rw [collectLoop02, if_pos hrow, dif_pos hlt, if_pos hb0, hvd]
        dsimp only
        rw [htd]
        dsimp only
        rw [heq]
        dsimp only
        by_cases hbud : countRunNC t rest + 1 ≤ tgt - 1 - row
        · have hm : min (countRunNC t rest + 1) (tgt - 1 - row) =
              countRunNC t rest + 1 := by omega
          rw [hm] at hfull ⊢
          rw [hfull rfl]
          have hrows3 :
              rows.drop (row + (countRunNC t rest + 1)) =
                List.scanl addTick
                  (List.foldl addTick cur
                    (List.replicate (countRunNC t rest + 1) t))
                  (rest.drop (countRunNC t rest)) := by
            have h1 : rows.drop (row + (countRunNC t rest + 1)) =
                List.drop (countRunNC t rest + 1) (rows.drop row) := by
              rw [List.drop_drop, Nat.add_comm row]
            rw [h1, hrows2, scanl_append, scanl_replicate_drop]
            exact (scanl_eq_cons _ _ _).symm
          rw [ih (rest.drop (countRunNC t rest))
            (by simp only [List.length_drop]; simp at hN; omega)
            buf tgt n (row + (countRunNC t rest + 1)) _ _ _ rows hn64 htgt
            hd4
            (fun t2 ht2 => hr t2 (List.mem_cons_of_mem t (List.mem_of_mem_drop ht2)))
            (by simp only [List.length_drop]; simp at hcnt; omega)
            hrows3]
          refine congrArg Except.ok ?_
          rw [List.append_assoc]
          congr 1
          have hq : tgt - 1 - row =
              (countRunNC t rest + 1) + (tgt - 1 - (row + (countRunNC t rest + 1))) := by
            omega
          have hidx : row + (countRunNC t rest + 1) + 1 =
              row + 1 + (countRunNC t rest + 1) := by omega
          conv =>
            rhs
            rw [hq, List.take_add]
          rw [List.drop_drop, hidx]
        · have hm : min (countRunNC t rest + 1) (tgt - 1 - row) =
              tgt - 1 - row := by omega
          rw [hm]
          rw [collectLoop02, if_neg (by omega)]
      · -- literal tag-1 block
        rw [encode_body02_lit_step (by omega)] at hd
        simp only [List.cons_append, List.append_assoc] at hd
        have hlt : pos < buf.length := drop_cons_lt hd
        have hb1 : buf[pos] = 1 := drop_cons_head hd hlt
        have hd2 := drop_cons_tail hd
        have htd := read_tup8_drop hrt hd2
        have hd3 := drop_chunk hd2
        have hrows3 : rows.drop (row + 1) = List.scanl addTick (addTick cur t) rest := by
          have h1 : rows.drop (row + 1) = List.drop 1 (rows.drop row) := by
            rw [List.drop_drop, Nat.add_comm row]
          rw [h1, hrows, List.scanl_cons]
          simp
        have hhead : rows.drop (row + 1) =
            addTick cur t :: rows.drop (row + 2) := by
          rw [hrows3, scanl_eq_cons]
          congr 1
          have h2 : row + 2 = row + 1 + 1 := by omega
          rw [h2, ← List.tail_drop, hrows3]
        rw [collectLoop02, if_pos hrow, dif_pos hlt,
          if_neg (show ¬ buf[pos] = 0 by rw [hb1]; norm_num), if_pos hb1, htd]
        dsimp only
        rw [ih rest (by simp at hN; omega) buf tgt n (row + 1) _ _ _ rows hn64 htgt
          hd3
          (fun t2 ht2 => hr t2 (List.mem_cons_of_mem t ht2))
          (by simp at hcnt ⊢; omega)
          hrows3]
        refine congrArg Except.ok ?_
        rw [List.append_assoc]
        congr 1
        have hq : tgt - 1 - row = 1 + (tgt - 1 - (row + 1)) := by omega
        rw [hq, List.take_add, hhead]
        simp

open Case01 Index02 in
/-- Replaying `k ≥ 1` rows from any case-02 `GoodAnchor02` (seeking its own
row) returns exactly rows `[a.row, a.row + k)`. -/
theorem replay_seek_anchor {buf : List Nat} {n : Nat} {rows : List AirTick}
    {a : Nat × Nat × AirTick} (hg : GoodAnchor02 buf n rows a)
    (hn64 : n < 2 ^ 64) (k : Nat) (hk1 : 1 ≤ k) (hk2 : a.1 + k ≤ n) :
    replay_seek_core buf a.1 a.2.1 a.2.2 a.1 n k =
      .ok ((rows.drop a.1).take k) := by
  obtain ⟨k2, rfl⟩ : ∃ k2, k = k2 + 1 := ⟨k - 1, by omega⟩
  obtain ⟨hle, dsRem, hdrop, hr, hlen, hrows⟩ := hg
  have hcatch : catchLoop02 buf a.1 a.1 a.2.1 a.2.2 = .ok (a.2.2, a.1, a.2.1) := by
    rw [catchLoop02, if_neg (by omega)]
  unfold replay_seek_core
  rw [hcatch]
  dsimp only
  rw [Nat.min_eq_right hk2]
  rw [collectLoop02_spec dsRem.length dsRem le_rfl buf (a.1 + (k2 + 1)) n a.1 a.2.1
    a.2.2 [a.2.2] rows hn64 hk2 hdrop hr hlen hrows]
  have hm : a.1 + (k2 + 1) - 1 - a.1 = k2 := by omega
  rw [hm]
  have hhead : rows.drop a.1 = a.2.2 :: rows.drop (a.1 + 1) := by
    rw [hrows, scanl_eq_cons]
    congr 1
    rw [← List.tail_drop, hrows]
  rw [hhead, List.take_succ_cons]
  simp

end Replay02

/-! ### Varint decoder outcome characterisation (claim C5)

`vdecAux_cases` settles the decoder's outcome from the byte stream alone:
with `r = (lim − s)/7 + 1` bytes of budget left, either a byte without the
continuation bit appears within the budget (success just past it), or the
stream ends first all-continuation (`Truncated`), or the budget is
exhausted on continuation bytes (`Overlong`).  At `s = 0` the budget is 10
bytes for the limit-63 modules (cases 01 and 04) and **11 bytes** for
case 02's limit-70 decoder. -/

theorem vdecAux_cases (lim : Nat) : ∀ (r : Nat) (bs : List Nat) (s a : Nat),
    s ≤ lim → (lim - s) / 7 + 1 = r →
    (∃ j v, j < r ∧ j < bs.length ∧
      (∀ m, m < j → bs.getD m 0 &&& 128 ≠ 0) ∧ bs.getD j 0 &&& 128 = 0 ∧
      vdecAux lim bs s a = .ok (v, j + 1)) ∨
    (bs.length < r ∧ (∀ m, m < bs.length → bs.getD m 0 &&& 128 ≠ 0) ∧
      vdecAux lim bs s a = .error .truncatedVarint) ∨
    ((∀ m, m < r → m < bs.length ∧ bs.getD m 0 &&& 128 ≠ 0) ∧
      vdecAux lim bs s a = .error .overlongVarint) := by
  intro r
  induction r with
  | zero =>
    intro bs s a hs hr
    omega
  | succ r ih =>
    intro bs s a hs hr
    cases bs with
    | nil =>
      refine Or.inr (Or.inl ⟨by simp, by simp, ?_⟩)
      simp [vdecAux]
    | cons b rest =>
      by_cases hb : b &&& 128 = 0
      · refine Or.inl ⟨0, a ||| (b &&& 127) <<< s, by omega, by simp, ?_, ?_, ?_⟩
        · intro m hm
          omega
        · simpa using hb
        · simp [vdecAux, hb]
      · by_cases hlim : lim < s + 7
        · have hr1 : r = 0 := by
            have h0 : (lim - s) / 7 = 0 := Nat.div_eq_of_lt (by omega)
            omega
          subst hr1
          refine Or.inr (Or.inr ⟨?_, ?_⟩)
          · intro m hm
            have hm0 : m = 0 := by omega
            subst hm0
            exact ⟨by simp, by simpa using hb⟩
          · simp [vdecAux, hb, hlim]
        · have hs7 : s + 7 ≤ lim := by omega
          have hr2 : (lim - (s + 7)) / 7 + 1 = r := by
            have h1 : lim - s = (lim - (s + 7)) + 7 := by omega
            rw [h1] at hr
            rw [Nat.add_div_right _ (by norm_num)] at hr
            omega
          rcases ih rest (s + 7) (a ||| (b &&& 127) <<< s) hs7 hr2 with
            ⟨j, v, hjr, hjl, hcont, hclear, heq⟩ | ⟨hlen, hcont, heq⟩ | ⟨hcont, heq⟩
          · refine Or.inl ⟨j + 1, v, by omega, by simp; omega, ?_, by simpa using hclear, ?_⟩
            · intro m hm
              cases m with
              | zero => simpa using hb
              | succ m => simpa using hcont m (by omega)
            · simp only [vdecAux, if_neg hb, if_neg hlim, heq]
          · refine Or.inr (Or.inl ⟨by simp; omega, ?_, ?_⟩)
            · intro m hm
              cases m with
              | zero => simpa using hb
              | succ m => simpa using hcont m (by simp at hm; omega)
            · simp only [vdecAux, if_neg hb, if_neg hlim, heq]
          · refine Or.inr (Or.inr ⟨?_, ?_⟩)
            · intro m hm
              cases m with
              | zero => exact ⟨by simp, by simpa using hb⟩
              | succ m =>
                obtain ⟨h1, h2⟩ := hcont m (by omega)
                exact ⟨by simp; omega, by simpa using h2⟩
            · simp only [vdecAux, if_neg hb, if_neg hlim, heq]

/-- The decoder trichotomy at a read position: success just past the first
byte without the continuation bit (within `lim/7 + 1` bytes), `Truncated`
when the buffer ends first, `Overlong` when the budget is exhausted. -/
theorem varint_decode_core_trichotomy (lim : Nat) (buf : List Nat) (i : Nat) :
    (∃ j v, j < lim / 7 + 1 ∧ j < buf.length - i ∧
      (∀ m, m < j → (buf.drop i).getD m 0 &&& 128 ≠ 0) ∧
      (buf.drop i).getD j 0 &&& 128 = 0 ∧
      varint_decode_core lim buf i 0 0 = .ok (v, i + (j + 1))) ∨
    (buf.length - i < lim / 7 + 1 ∧
      (∀ m, m < buf.length - i → (buf.drop i).getD m 0 &&& 128 ≠ 0) ∧
      varint_decode_core lim buf i 0 0 = .error .truncatedVarint) ∨
    ((∀ m, m < lim / 7 + 1 → m < buf.length - i ∧
        (buf.drop i).getD m 0 &&& 128 ≠ 0) ∧
      varint_decode_core lim buf i 0 0 = .error .overlongVarint) := by
  have h := vdecAux_cases lim (lim / 7 + 1) (buf.drop i) 0 0 (Nat.zero_le lim) (by simp)
  rcases h with ⟨j, v, hjr, hjl, hcont, hclear, heq⟩ | ⟨hlen, hcont, heq⟩ | ⟨hcont, heq⟩
  · refine Or.inl ⟨j, v, hjr, by simpa using hjl, hcont, hclear, ?_⟩
    rw [varint_decode_core_eq, heq]
  · refine Or.inr (Or.inl ⟨by simpa using hlen, by simpa using hcont, ?_⟩)
    rw [varint_decode_core_eq, heq]
  · refine Or.inr (Or.inr ⟨by simpa using hcont, ?_⟩)
    rw [varint_decode_core_eq, heq]

/-- On success the decoder consumed at most `lim/7 + 1` bytes: 10 for the
limit-63 modules, 11 for case 02's limit-70 decoder. -/
theorem varint_decode_core_max_bytes {lim : Nat} {buf : List Nat} {i u j : Nat}
    (h : varint_decode_core lim buf i 0 0 = .ok (u, j)) :
    j - i ≤ lim / 7 + 1 := by
  rcases varint_decode_core_trichotomy lim buf i with
    ⟨j2, v, hjr, hjl, hcont, hclear, heq⟩ | ⟨hlen, hcont, heq⟩ | ⟨hcont, heq⟩
  · rw [heq] at h
    simp only [Except.ok.injEq, Prod.mk.injEq] at h
    omega
  · rw [heq] at h
    exact absurd h (by simp)
  · rw [heq] at h
    exact absurd h (by simp)


/-! ### Fuelled varint encoder on `Int` (claim C10)

The Python `varint_encode` loops on a signed integer; `varint_encodeF`
transcribes the loop with explicit fuel, so that termination is
`∃ fuel, … = some …`.  On non-negative inputs it agrees with the total
`varint_encode`; on negative inputs the arithmetic shift `u >>= 7` never
reaches zero and no amount of fuel suffices (Python's loop never exits).
Case-01's `encode_star` passes its `price_scale` argument — an arbitrary
CLI integer — straight to this loop. -/

def varint_encodeF : Nat → Int → Option (List Nat)
  | 0, _ => none
  | fuel + 1, u =>
    if u >>> (7 : Nat) = 0 then some [(Int.land u 127).toNat]
    else
      match varint_encodeF fuel (u >>> (7 : Nat)) with
      | none => none
      | some rest => some (((Int.land u 127).toNat ||| 128) :: rest)

theorem varint_encodeF_nonneg : ∀ (fuel : Nat) (u : Nat),
    (varint_encode u).length ≤ fuel →
    varint_encodeF fuel (Int.ofNat u) = some (varint_encode u) := by
  intro fuel
  induction fuel with
  | zero =>
    intro u hf
    have := varint_encode_length_pos u
    omega
  | succ fuel ih =>
    intro u hf
    have hsr : (Int.ofNat u) >>> (7 : Nat) = Int.ofNat (u >>> 7) := rfl
    have hland : (Int.land (Int.ofNat u) 127).toNat = u &&& 127 := rfl
    by_cases h7 : u >>> 7 = 0
    · rw [varint_encodeF, if_pos (by rw [hsr, h7]; rfl), hland]
      rw [varint_encode, dif_pos h7]
    · have hne : ¬ (Int.ofNat u) >>> (7 : Nat) = 0 := by
        rw [hsr]
        intro hc
        exact h7 (Int.ofNat_eq_zero.mp hc)
      rw [varint_encodeF, if_neg hne, hsr]
      have hlen : (varint_encode (u >>> 7)).length ≤ fuel := by
        rw [varint_encode, dif_neg h7] at hf
        simp only [List.length_cons] at hf
        omega
      rw [ih (u >>> 7) hlen]
      dsimp only
      rw [hland]
      conv =>
        rhs
        rw [varint_encode]
      rw [dif_neg h7]

theorem varint_encodeF_neg : ∀ (fuel : Nat) (u : Int), u < 0 →
    varint_encodeF fuel u = none := by
  intro fuel
  induction fuel with
  | zero =>
    intro u hu
    rfl
  | succ fuel ih =>
    intro u hu
    obtain ⟨m, rfl⟩ : ∃ m, u = Int.negSucc m := by
      cases u with
      | ofNat m => exact absurd hu (by simp [Int.ofNat_eq_natCast])
      | negSucc m => exact ⟨m, rfl⟩
    have hsr : (Int.negSucc m) >>> (7 : Nat) = Int.negSucc (m >>> 7) := rfl
    rw [varint_encodeF, if_neg (by rw [hsr]; simp)]
    rw [hsr, ih (Int.negSucc (m >>> 7)) (Int.negSucc_lt_zero _)]

/-! ### Little-endian struct readers shared by the index loaders -/

/-- Little-endian value of a byte list (least significant first). -/
def leNat : List Nat → Nat
  | [] => 0
  | b :: bs => b + 256 * leNat bs

/-- `struct.unpack_from` of a `k`-byte little-endian unsigned field
(raises when the buffer is too short). -/
def readU (buf : List Nat) (i k : Nat) : Except Err Nat :=
  if i + k ≤ buf.length then .ok (leNat ((buf.drop i).take k)) else .error .tooSmall

/-- Two's-complement reinterpretation of a `k`-byte unsigned value. -/
def toSigned (u k : Nat) : Int :=
  if u < 2 ^ (8 * k - 1) then (u : Int) else (u : Int) - 2 ^ (8 * k)

/-- Signed `k`-byte little-endian read. -/
def readS (buf : List Nat) (i k : Nat) : Except Err Int :=
  match readU buf i k with
  | .error e => .error e
  | .ok u => .ok (toSigned u k)

/-! ### Case-01 index loading and the replay main's `n_rows` check
(`star_replay_case01.py`, claim C7) -/

namespace Replay01

/-- One `<IIiqqqqq>` anchor record at offset `off`. -/
def readAnchor01 (buf : List Nat) (off : Nat) :
    Except Err ((Nat × Nat × Bar) × Nat) :=
  match readU buf off 4 with
  | .error e => .error e
  | .ok row_i =>
    match readU buf (off + 4) 4 with
    | .error e => .error e
    | .ok byte_off =>
      match readS buf (off + 8) 4 with
      | .error e => .error e
      | .ok d_days =>
        match readS buf (off + 12) 8 with
        | .error e => .error e
        | .ok o =>
          match readS buf (off + 20) 8 with
          | .error e => .error e
          | .ok h =>
            match readS buf (off + 28) 8 with
            | .error e => .error e
            | .ok l =>
              match readS buf (off + 36) 8 with
              | .error e => .error e
              | .ok c =>
                match readS buf (off + 44) 8 with
                | .error e => .error e
                | .ok v => .ok ((row_i, byte_off, ⟨d_days, o, h, l, c, v⟩), off + 52)

def readAnchors01 (buf : List Nat) : Nat → Nat → Except Err (List (Nat × Nat × Bar))
  | 0, _ => .ok []
  | m + 1, off =>
    match readAnchor01 buf off with
    | .error e => .error e
    | .ok (a, off2) =>
      match readAnchors01 buf m off2 with
      | .error e => .error e
      | .ok as2 => .ok (a :: as2)

/-- `load_index` of `star_replay_case01.py`: `SIDX1` magic, `CASE01\0`
tag, `<III>` header, then the anchor records. -/
def load_index01 (buf : List Nat) :
    Except Err (Nat × Nat × List (Nat × Nat × Bar)) :=
  if buf.take 5 = [83, 73, 68, 88, 49] then
    if (buf.drop 5).take 7 = [67, 65, 83, 69, 48, 49, 0] then
      match readU buf 12 4 with
      | .error e => .error e
      | .ok anchor_every =>
        match readU buf 16 4 with
        | .error e => .error e
        | .ok n_rows =>
          match readU buf 20 4 with
          | .error e => .error e
          | .ok n_anchors =>
            match readAnchors01 buf n_anchors 24 with
            | .error e => .error e
            | .ok anchors => .ok (anchor_every, n_rows, anchors)
    else .error .badIndexVersion
  else .error .badIndexMagic

/-- `bisect.bisect_right(keys, x) - 1`, clamped at 0 as in `main`. -/
def anchorChoice (keys : List Nat) (x : Int) : Nat :=
  let j := (keys.takeWhile (fun k => (k : Int) ≤ x)).length
  if j = 0 then 0 else j - 1

/-- The seek path of case-01's `main` after the files are read: parse the
STAR header, load the index, **fail unless the index's `n_rows` equals the
header's `n`**, choose the anchor by bisection on the row keys, and replay.
Only the `--seek_row` mode is modelled. -/
def main01_seek (star_buf idx_buf : List Nat) (seek_row : Int) (out_rows : Nat) :
    Except Err (List (Nat × Bar)) :=
  match Index01.parse_star1_header star_buf with
  | .error e => .error e
  | .ok (n_rows, _ps, _base, _i) =>
    match load_index01 idx_buf with
    | .error e => .error e
    | .ok (_ae, n_rows_idx, anchors) =>
      if n_rows_idx ≠ n_rows then .error .indexMismatch
      else
        match anchors.get? (anchorChoice (anchors.map (fun a => a.1)) seek_row) with
        | none => .error .emptyAnchors
        | some a =>
          replay_from star_buf a.1 a.2.1 a.2.2 n_rows (some seek_row) none out_rows

/-- Case 01 **does** verify the index against the header: a mismatched
`n_rows` fails with the mismatch error before any row is produced. -/
theorem main01_seek_mismatch {star_buf idx_buf : List Nat}
    {n ps : Nat} {base : Bar} {bi : Nat}
    {ae ni : Nat} {anchors : List (Nat × Nat × Bar)} (s : Int) (rows : Nat)
    (hp : Index01.parse_star1_header star_buf = .ok (n, ps, base, bi))
    (hl : load_index01 idx_buf = .ok (ae, ni, anchors))
    (hne : ni ≠ n) :
    main01_seek star_buf idx_buf s rows = .error .indexMismatch := by
  unfold main01_seek
  rw [hp]
  dsimp only
  rw [hl]
  dsimp only
  rw [if_pos hne]

end Replay01

/-! ### Case-02 byte-level index loading and full `replay_seek`
(claim C7: the index magic and version are checked, the header `n` never) -/

namespace Replay02

open Case02

/-- One `<QQqqqqqqqq>` anchor record at offset `off`. -/
def readAnchor02 (buf : List Nat) (off : Nat) :
    Except Err ((Nat × Nat × AirTick) × Nat) :=
  match readU buf off 8 with
  | .error e => .error e
  | .ok row =>
    match readU buf (off + 8) 8 with
    | .error e => .error e
    | .ok aoff =>
      match readS buf (off + 16) 8 with
      | .error e => .error e
      | .ok t_min =>
        match readS buf (off + 24) 8 with
        | .error e => .error e
        | .ok co =>
          match readS buf (off + 32) 8 with
          | .error e => .error e
          | .ok c6 =>
            match readS buf (off + 40) 8 with
            | .error e => .error e
            | .ok nox =>
              match readS buf (off + 48) 8 with
              | .error e => .error e
              | .ok no2 =>
                match readS buf (off + 56) 8 with
                | .error e => .error e
                | .ok tx =>
                  match readS buf (off + 64) 8 with
                  | .error e => .error e
                  | .ok rh =>
                    match readS buf (off + 72) 8 with
                    | .error e => .error e
                    | .ok ah =>
                      .ok ((row, aoff, ⟨t_min, co, c6, nox, no2, tx, rh, ah⟩),
                        off + 80)

def readAnchors02 (buf : List Nat) : Nat → Nat → Except Err (List (Nat × Nat × AirTick))
  | 0, _ => .ok []
  | m + 1, off =>
    match readAnchor02 buf off with
    | .error e => .error e
    | .ok (a, off2) =>
      match readAnchors02 buf m off2 with
      | .error e => .error e
      | .ok as2 => .ok (a :: as2)

/-- `load_index` of `star_replay_case02.py`: `STARIDX2` magic, version
byte 1, `<I>` anchor_every, `<Q>` nrows, `<I>` nanchors, anchor records. -/
def load_index02 (buf : List Nat) :
    Except Err (Nat × Nat × List (Nat × Nat × AirTick)) :=
  if buf.take 8 = [83, 84, 65, 82, 73, 68, 88, 50] then
    match readU buf 8 1 with
    | .error e => .error e
    | .ok ver =>
      if ver ≠ 1 then .error .badIndexVersion
      else
        match readU buf 9 4 with
        | .error e => .error e
        | .ok anchor_every =>
          match readU buf 13 8 with
          | .error e => .error e
          | .ok nrows =>
            match readU buf 21 4 with
            | .error e => .error e
            | .ok nanchors =>
              match readAnchors02 buf nanchors 25 with
              | .error e => .error e
              | .ok anchors => .ok (anchor_every, nrows, anchors)
  else .error .badIndexMagic

/-- `replay_seek` of `star_replay_case02.py` (file reads dropped): it
verifies the STAR magic and loads the index — whose own magic and version
are checked — but **never compares the index's `nrows` with the STAR
header's `n`**. -/
def replay_seek02 (star_buf idx_buf : List Nat) (seek_row : Option Int)
    (rows : Nat) : Except Err (List AirTick) :=
  if star_buf.take 6 = magicSTAR2A then
    match load_index02 idx_buf with
    | .error e => .error e
    | .ok (_ae, nrows, anchors) =>
      if nrows = 0 then .ok []
      else
        let seek : Nat :=
          match seek_row with
          | none => 0
          | some s => if s < 0 then 0 else s.toNat
        if nrows ≤ seek then .ok []
        else
          match anchors.get? (bestScan anchors seek) with
          | none => .error .emptyAnchors
          | some a => replay_seek_core star_buf a.1 a.2.1 a.2.2 seek nrows rows
  else .error .badMagic

end Replay02

/-! ### Cases 03 and 04: index loading and the SHA-256 binding check
(`star_replay_case03.py`, `star_replay_case04.py`, claim C9)

The replay mains hash the STAR file (`sha256_file`, a hex string) and
compare it with the 32 stored digest bytes rendered by `bytes.hex()`.
SHA-256 itself is not modelled: the digest of the STAR file enters as a
32-byte argument, exactly the information `sha256_file` returns. -/

namespace Replay34

/-- One lower-case hex digit (`bytes.hex()` / `hashlib.hexdigest`). -/
def hexDigit (n : Nat) : Nat := if n < 10 then 48 + n else 87 + n

/-- `bytes.hex()`: two hex digits per byte. -/
def hexPairs : List Nat → List Nat
  | [] => []
  | b :: bs => hexDigit (b / 16) :: hexDigit (b % 16) :: hexPairs bs

theorem hexDigit_inj {m n : Nat} (hm : m < 16) (hn : n < 16)
    (h : hexDigit m = hexDigit n) : m = n := by
  unfold hexDigit at h
  split at h <;> split at h <;> omega

theorem hexPairs_inj : ∀ (a b : List Nat),
    (∀ x ∈ a, x < 256) → (∀ x ∈ b, x < 256) →
    hexPairs a = hexPairs b → a = b := by
  intro a
  induction a with
  | nil =>
    intro b _ _ h
    cases b with
    | nil => rfl
    | cons y ys => simp [hexPairs] at h
  | cons x xs ih =>
    intro b ha hb h
    cases b with
    | nil => simp [hexPairs] at h
    | cons y ys =>
      simp only [hexPairs, List.cons.injEq] at h
      obtain ⟨h1, h2, h3⟩ := h
      have hx : x < 256 := ha x (by simp)
      have hy : y < 256 := hb y (by simp)
      have e1 : x / 16 = y / 16 := hexDigit_inj (by omega) (by omega) h1
      have e2 : x % 16 = y % 16 := hexDigit_inj (by omega) (by omega) h2
      have hxy : x = y := by omega
      rw [hxy, ih ys (fun z hz => ha z (by simp [hz])) (fun z hz => hb z (by simp [hz])) h3]

/-- The index fields `main` consults in cases 03 and 04. -/
structure Idx34 where
  anchor_every : Nat
  cadence_min : Int
  sha_hex : List Nat
  anchors : List (Nat × Int × Nat)
  deriving Repr, DecidableEq

def readAnchor34 (buf : List Nat) (off : Nat) :
    Except Err ((Nat × Int × Nat) × Nat) :=
  match readU buf off 4 with
  | .error e => .error e
  | .ok row =>
    match readS buf (off + 4) 8 with
    | .error e => .error e
    | .ok t_min =>
      match readU buf (off + 12) 8 with
      | .error e => .error e
      | .ok aoff => .ok ((row, t_min, aoff), off + 20)

def readAnchors34 (buf : List Nat) : Nat → Nat → Except Err (List (Nat × Int × Nat))
  | 0, _ => .ok []
  | m + 1, off =>
    match readAnchor34 buf off with
    | .error e => .error e
    | .ok (a, off2) =>
      match readAnchors34 buf m off2 with
      | .error e => .error e
      | .ok as2 => .ok (a :: as2)

/-- The common body of `load_index` in cases 03 and 04 after the magic:
`<IIII>` header, `<q>` cadence, 32 digest bytes (a short buffer merely
yields a short slice, as in Python), then `n` anchor records. -/
def load_index34_from (buf : List Nat) (pos : Nat) : Except Err Idx34 :=
  match readU buf pos 4 with
  | .error e => .error e
  | .ok _version =>
    match readU buf (pos + 4) 4 with
    | .error e => .error e
    | .ok anchor_every =>
      match readU buf (pos + 8) 4 with
      | .error e => .error e
      | .ok n =>
        match readU buf (pos + 12) 4 with
        | .error e => .error e
        | .ok _flags =>
          match readS buf (pos + 16) 8 with
          | .error e => .error e
          | .ok cadence =>
            match readAnchors34 buf n (pos + 56) with
            | .error e => .error e
            | .ok anchors =>
              .ok ⟨anchor_every, cadence,
                hexPairs ((buf.drop (pos + 24)).take 32), anchors⟩

/-- `load_index` of case 03: the 10-byte magic `STARIDX03\0` is preferred,
the 9-byte `STARIDX03` tolerated. -/
def load_index03 (buf : List Nat) : Except Err Idx34 :=
  if buf.take 10 = [83, 84, 65, 82, 73, 68, 88, 48, 51, 0] then
    load_index34_from buf 10
  else if buf.take 9 = [83, 84, 65, 82, 73, 68, 88, 48, 51] then
    load_index34_from buf 9
  else .error .badIndexMagic

/-- `load_index` of case 04 (`STARIDX04\0` / `STARIDX04`). -/
def load_index04 (buf : List Nat) : Except Err Idx34 :=
  if buf.take 10 = [83, 84, 65, 82, 73, 68, 88, 48, 52, 0] then
    load_index34_from buf 10
  else if buf.take 9 = [83, 84, 65, 82, 73, 68, 88, 48, 52] then
    load_index34_from buf 9
  else .error .badIndexMagic

/-- `resolve_seek` (cases 03 and 04 share it verbatim; only `--seek_row`
without `rows_hint` is modelled, and `anchors[0]` on an empty list is the
`IndexError`). -/
def resolve_seek (anchors : List (Nat × Int × Nat)) (target_row : Int) :
    Except Err (Nat × Int × Nat) :=
  match anchors with
  | [] => .error .emptyAnchors
  | a0 :: _ =>
    .ok (go a0 anchors)
where
  go (best : Nat × Int × Nat) : List (Nat × Int × Nat) → Nat × Int × Nat
    | [] => best
    | a :: rest => if (a.1 : Int) ≤ target_row then go a rest else best

/-- The replay preview rows `(r, r * cadence_min)` emitted by the mains. -/
def preview (target_row : Int) (cadence : Int) (rows : Nat) : List (Int × Int) :=
  (List.range rows).map (fun i => (target_row + i, (target_row + i) * cadence))

/-- The seek path of case-03's (and, identically, case-04's) `main` after
hashing: load the index, **fail with the binding mismatch when the stored
digest's hex differs from the STAR file's hex digest**, then resolve the
seek and emit the preview rows.  `star_sha` is the 32-byte digest of the
STAR file. -/
def main34 (load : List Nat → Except Err Idx34) (star_sha idx_buf : List Nat)
    (seek_row : Int) (rows : Nat) : Except Err (List (Int × Int)) :=
  match load idx_buf with
  | .error e => .error e
  | .ok idx =>
    if idx.sha_hex ≠ hexPairs star_sha then .error .bindingMismatch
    else
      match resolve_seek idx.anchors seek_row with
      | .error e => .error e
      | .ok _nearest => .ok (preview seek_row idx.cadence_min rows)

/-- Digest agreement lets `main34` pass the binding check: the result is
never the binding-mismatch error. -/
theorem main34_match {load : List Nat → Except Err Idx34}
    {star_sha idx_buf : List Nat} {idx : Idx34}
    (hl : load idx_buf = .ok idx) (hsha : idx.sha_hex = hexPairs star_sha)
    (s : Int) (rows : Nat) :
    main34 load star_sha idx_buf s rows ≠ .error .bindingMismatch := by
  unfold main34
  rw [hl]
  dsimp only
  rw [if_neg (by simp [hsha])]
  cases hr : resolve_seek idx.anchors s with
  | error e =>
    dsimp only
    simp only [ne_eq, Except.error.injEq]
    intro hc
    subst hc
    cases hanc : idx.anchors with
    | nil =>
      rw [hanc] at hr
      simp [resolve_seek] at hr
    | cons a0 rest =>
      rw [hanc] at hr
      simp [resolve_seek] at hr
  | ok a =>
    dsimp only
    simp

/-- A digest disagreement (on true byte digests: 32 bytes each, all below
256) makes `main34` fail with exactly the binding mismatch, emitting
nothing. -/
theorem main34_mismatch {load : List Nat → Except Err Idx34}
    {star_sha idx_buf : List Nat} {idx : Idx34} {stored : List Nat}
    (hl : load idx_buf = .ok idx) (hsha : idx.sha_hex = hexPairs stored)
    (hb1 : ∀ x ∈ stored, x < 256) (hb2 : ∀ x ∈ star_sha, x < 256)
    (hne : stored ≠ star_sha) (s : Int) (rows : Nat) :
    main34 load star_sha idx_buf s rows = .error .bindingMismatch := by
  unfold main34
  rw [hl]
  dsimp only
  rw [if_pos ?_]
  rw [hsha]
  intro hc
  exact hne (hexPairs_inj stored star_sha hb1 hb2 hc)

end Replay34

/-! ### Case 04 — dictionary-coded crypto records
(`star_case04_crypto_replay.py`)

A row is twelve UTF-8 strings, modelled as byte lists.  Four columns are
dictionary-coded (first-occurrence order); the others are length-prefixed
strings (`write_str`: uvarint length, then the bytes — the dictionary
table itself uses fixed `<I>` lengths).  `read_uvarint` is byte-identical
to case-01's `varint_decode` (shift limit 63), so `Case01.varint_decode`
models it. -/

namespace Case04

open Case01

/-- The eight magic bytes `b"STAR4\x04OF"`. -/
def magic8 : List Nat := [83, 84, 65, 82, 52, 4, 79, 70]

structure Row04 where
  txid : List Nat
  sender : List Nat
  recv : List Nat
  amt : List Nat
  fee : List Nat
  ts : List Nat
  bid : List Nat
  mining : List Nat
  currency : List Nat
  ty : List Nat
  status : List Nat
  gas : List Nat
  deriving DecidableEq, Repr

instance : Inhabited Row04 := ⟨⟨[], [], [], [], [], [], [], [], [], [], [], []⟩⟩

/-- `build_dict`: distinct values of a column in first-occurrence order. -/
def build_dict (rows : List Row04) (sel : Row04 → List Nat) : List (List Nat) :=
  rows.foldl (fun arr row => if sel row ∈ arr then arr else arr ++ [sel row]) []

/-- `struct.pack("<I", n)` (little-endian; `n` must fit 32 bits, else
`struct.error`). -/
def u32le (n : Nat) : List Nat :=
  [n % 256, n / 256 % 256, n / 65536 % 256, n / 16777216 % 256]

def packU32 (n : Nat) : Except Err (List Nat) :=
  if n < 2 ^ 32 then .ok (u32le n) else .error .tooSmall

/-- `write_str`: uvarint byte length, then the bytes (`write_uvarint` is
case-01's `varint_encode` — it dies on negatives, impossible here). -/
def write_str (s : List Nat) : List Nat := varint_encode s.length ++ s

/-- One dictionary table: `<I>` count, then `<I>`-length-prefixed
entries. -/
def encDict (arr : List (List Nat)) : Except Err (List Nat) :=
  match packU32 arr.length with
  | .error e => .error e
  | .ok cnt =>
    match encEntries arr with
    | .error e => .error e
    | .ok body => .ok (cnt ++ body)
where
  encEntries : List (List Nat) → Except Err (List Nat)
    | [] => .ok []
    | s :: ss =>
      match packU32 s.length with
      | .error e => .error e
      | .ok ln =>
        match encEntries ss with
        | .error e => .error e
        | .ok rest => .ok (ln ++ s ++ rest)

/-- The dictionary code of a value: its first-occurrence index (the value
`dmaps[col][v]` of the Python dict built alongside the array). -/
def dictIdx : List (List Nat) → List Nat → Nat
  | [], _ => 0
  | s :: ss, v => if s = v then 0 else dictIdx ss v + 1

/-- One encoded row: seven strings, four dictionary codes, the gas
string. -/
def encRow (dm dc dt ds : List (List Nat)) (r : Row04) : List Nat :=
  write_str r.txid ++ write_str r.sender ++ write_str r.recv ++
    write_str r.amt ++ write_str r.fee ++ write_str r.ts ++ write_str r.bid ++
    varint_encode (dictIdx dm r.mining) ++ varint_encode (dictIdx dc r.currency) ++
    varint_encode (dictIdx dt r.ty) ++ varint_encode (dictIdx ds r.status) ++
    write_str r.gas

def encRows (dm dc dt ds : List (List Nat)) : List Row04 → List Nat
  | [] => []
  | r :: rs => encRow dm dc dt ds r ++ encRows dm dc dt ds rs

/-- `encode_case04`. -/
def encode_case04 (rows : List Row04) : Except Err (List Nat) :=
  let dm := build_dict rows (fun r => r.mining)
  let dc := build_dict rows (fun r => r.currency)
  let dt := build_dict rows (fun r => r.ty)
  let ds := build_dict rows (fun r => r.status)
  match packU32 rows.length with
  | .error e => .error e
  | .ok nle =>
    match encDict dm with
    | .error e => .error e
    | .ok bm =>
      match encDict dc with
      | .error e => .error e
      | .ok bc =>
        match encDict dt with
        | .error e => .error e
        | .ok bt =>
          match encDict ds with
          | .error e => .error e
          | .ok bs =>
            .ok (magic8 ++ nle ++ u32le 12 ++ bm ++ bc ++ bt ++ bs ++
              encRows dm dc dt ds rows)

/-- `read_str`: uvarint length, bounds check, slice. -/
def read_str (buf : List Nat) (pos : Nat) : Except Err (List Nat × Nat) :=
  match varint_decode buf pos with
  | .error e => .error e
  | .ok (ln, p) =>
    if p + ln ≤ buf.length then .ok ((buf.drop p).take ln, p + ln)
    else .error .eofString

/-- One dictionary table read: `<I>` count, then `<I>`-prefixed entries
(the entry slice itself is unchecked, as in Python). -/
def readDictEntries (buf : List Nat) : Nat → Nat → Except Err (List (List Nat) × Nat)
  | 0, pos => .ok ([], pos)
  | k + 1, pos =>
    match readU buf pos 4 with
    | .error e => .error e
    | .ok ln =>
      match readDictEntries buf k (pos + 4 + ln) with
      | .error e => .error e
      | .ok (arr, pos2) => .ok (((buf.drop (pos + 4)).take ln) :: arr, pos2)

def readDict (buf : List Nat) (pos : Nat) : Except Err (List (List Nat) × Nat) :=
  match readU buf pos 4 with
  | .error e => .error e
  | .ok n => readDictEntries buf n (pos + 4)

/-- A dictionary code read plus the lookup (`IndexError` on a bad code). -/
def readCode (buf : List Nat) (pos : Nat) (arr : List (List Nat)) :
    Except Err (List Nat × Nat) :=
  match varint_decode buf pos with
  | .error e => .error e
  | .ok (code, p) =>
    if h : code < arr.length then .ok (arr[code], p) else .error .badDictCode

def decodeRow (buf : List Nat) (dm dc dt ds : List (List Nat)) (pos : Nat) :
    Except Err (Row04 × Nat) :=
  match read_str buf pos with
  | .error e => .error e
  | .ok (txid, p1) =>
    match read_str buf p1 with
    | .error e => .error e
    | .ok (sender, p2) =>
      match read_str buf p2 with
      | .error e => .error e
      | .ok (recv, p3) =>
        match read_str buf p3 with
        | .error e => .error e
        | .ok (amt, p4) =>
          match read_str buf p4 with
          | .error e => .error e
          | .ok (fee, p5) =>
            match read_str buf p5 with
            | .error e => .error e
            | .ok (ts, p6) =>
              match read_str buf p6 with
              | .error e => .error e
              | .ok (bid, p7) =>
                match readCode buf p7 dm with
                | .error e => .error e
                | .ok (mining, p8) =>
                  match readCode buf p8 dc with
                  | .error e => .error e
                  | .ok (currency, p9) =>
                    match readCode buf p9 dt with
                    | .error e => .error e
                    | .ok (ty, p10) =>
                      match readCode buf p10 ds with
                      | .error e => .error e
                      | .ok (status, p11) =>
                        match read_str buf p11 with
                        | .error e => .error e
                        | .ok (gas, p12) =>
                          .ok (⟨txid, sender, recv, amt, fee, ts, bid,
                            mining, currency, ty, status, gas⟩, p12)

def decodeRows (buf : List Nat) (dm dc dt ds : List (List Nat)) :
    Nat → Nat → Except Err (List Row04 × Nat)
  | 0, pos => .ok ([], pos)
  | k + 1, pos =>
    match decodeRow buf dm dc dt ds pos with
    | .error e => .error e
    | .ok (r, pos2) =>
      match decodeRows buf dm dc dt ds k pos2 with
      | .error e => .error e
      | .ok (rs, pos3) => .ok (r :: rs, pos3)

/-- `decode_case04`. -/
def decode_case04 (blob : List Nat) : Except Err (List Row04) :=
  if blob.length < 16 then .error .tooSmall
  else if blob.take 8 = magic8 then
    match readU blob 8 4 with
    | .error e => .error e
    | .ok nrows =>
      match readU blob 12 4 with
      | .error e => .error e
      | .ok ncols =>
        if ncols ≠ 12 then .error .badCols
        else
          match readDict blob 16 with
          | .error e => .error e
          | .ok (dm, p1) =>
            match readDict blob p1 with
            | .error e => .error e
            | .ok (dc, p2) =>
              match readDict blob p2 with
              | .error e => .error e
              | .ok (dt, p3) =>
                match readDict blob p3 with
                | .error e => .error e
                | .ok (ds, p4) =>
                  match decodeRows blob dm dc dt ds nrows p4 with
                  | .error e => .error e
                  | .ok (rows, _) => .ok rows
  else .error .badMagic

/-! #### Framing lemmas for the case-04 stream -/

theorem leNat_u32le {n : Nat} (h : n < 2 ^ 32) : leNat (u32le n) = n := by
  simp [u32le, leNat]
  omega

theorem readU32_drop {buf : List Nat} {i n : Nat} {rest : List Nat}
    (hd : buf.drop i = u32le n ++ rest) (hn : n < 2 ^ 32) :
    readU buf i 4 = .ok n := by
  have hlen : buf.length - i = 4 + rest.length := by
    have h1 := congrArg List.length hd
    simp only [List.length_drop, List.length_append, u32le, List.length_cons,
      List.length_nil] at h1
    omega
  have hle : i + 4 ≤ buf.length := by
    have h1 := congrArg List.length hd
    simp only [List.length_drop, List.length_append, u32le, List.length_cons,
      List.length_nil] at h1
    omega
  unfold readU
  rw [if_pos hle, hd]
  have htake : (u32le n ++ rest).take 4 = u32le n := List.take_left' rfl
  rw [htake, leNat_u32le hn]

theorem take_of_drop_eq {buf : List Nat} {p : Nat} {s rest : List Nat}
    (hd : buf.drop p = s ++ rest) : (buf.drop p).take s.length = s := by
  rw [hd]
  exact List.take_left' rfl

theorem read_str_drop {buf : List Nat} {i : Nat} {s rest : List Nat}
    (hd : buf.drop i = write_str s ++ rest) (hs : s.length < 2 ^ 64) :
    read_str buf i = .ok (s, i + (write_str s).length) := by
  unfold write_str at hd
  simp only [List.append_assoc] at hd
  have hvd := varint_decode_drop hd hs
  have hd2 := drop_chunk hd
  have hlen : i + (varint_encode s.length).length + s.length ≤ buf.length := by
    have h1 := congrArg List.length hd
    simp only [List.length_drop, List.length_append] at h1
    have h2 := varint_encode_length_pos s.length
    omega
  unfold read_str
  rw [hvd]
  dsimp only
  rw [if_pos hlen, take_of_drop_eq hd2]
  have hfin : i + (varint_encode s.length).length + s.length =
      i + (write_str s).length := by
    simp only [write_str, List.length_append]
    omega
  rw [hfin]

/-! #### `build_dict` facts -/

theorem dict_step_mono {arr : List (List Nat)} {x v : List Nat} (h : x ∈ arr) :
    x ∈ (if v ∈ arr then arr else arr ++ [v]) := by
  split
  · exact h
  · exact List.mem_append_left _ h

theorem dict_step_self (arr : List (List Nat)) (v : List Nat) :
    v ∈ (if v ∈ arr then arr else arr ++ [v]) := by
  split
  · assumption
  · simp

theorem dict_foldl_mono : ∀ (rows : List Row04) (sel : Row04 → List Nat)
    (arr : List (List Nat)) (x : List Nat), x ∈ arr →
    x ∈ rows.foldl (fun a row => if sel row ∈ a then a else a ++ [sel row]) arr := by
  intro rows
  induction rows with
  | nil => intro sel arr x h; simpa using h
  | cons r rs ih =>
    intro sel arr x h
    simp only [List.foldl_cons]
    exact ih sel _ x (dict_step_mono h)

theorem dict_foldl_mem : ∀ (rows : List Row04) (sel : Row04 → List Nat)
    (arr : List (List Nat)) (r : Row04), r ∈ rows →
    sel r ∈ rows.foldl (fun a row => if sel row ∈ a then a else a ++ [sel row]) arr := by
  intro rows
  induction rows with
  | nil => intro sel arr r h; simp at h
  | cons r0 rs ih =>
    intro sel arr r h
    simp only [List.foldl_cons]
    rcases List.mem_cons.mp h with h | h
    · subst h
      exact dict_foldl_mono rs sel _ _ (dict_step_self arr (sel r))
    · exact ih sel _ r h

theorem build_dict_mem {rows : List Row04} {sel : Row04 → List Nat} {r : Row04}
    (h : r ∈ rows) : sel r ∈ build_dict rows sel :=
  dict_foldl_mem rows sel [] r h

theorem build_dict_src : ∀ (rows : List Row04) (sel : Row04 → List Nat)
    (arr : List (List Nat)) (x : List Nat),
    x ∈ rows.foldl (fun a row => if sel row ∈ a then a else a ++ [sel row]) arr →
    x ∈ arr ∨ ∃ r ∈ rows, sel r = x := by
  intro rows
  induction rows with
  | nil =>
    intro sel arr x h
    exact Or.inl (by simpa using h)
  | cons r rs ih =>
    intro sel arr x h
    simp only [List.foldl_cons] at h
    rcases ih sel _ x h with h2 | ⟨r2, hr2, hx⟩
    · by_cases hc : sel r ∈ arr
      · rw [if_pos hc] at h2
        exact Or.inl h2
      · rw [if_neg hc] at h2
        rcases List.mem_append.mp h2 with h3 | h3
        · exact Or.inl h3
        · simp only [List.mem_singleton] at h3
          exact Or.inr ⟨r, by simp, h3.symm⟩
    · exact Or.inr ⟨r2, by simp [hr2], hx⟩

theorem dict_foldl_length_le : ∀ (rows : List Row04) (sel : Row04 → List Nat)
    (arr : List (List Nat)),
    (rows.foldl (fun a row => if sel row ∈ a then a else a ++ [sel row]) arr).length ≤
      arr.length + rows.length := by
  intro rows
  induction rows with
  | nil => intro sel arr; simp
  | cons r rs ih =>
    intro sel arr
    simp only [List.foldl_cons, List.length_cons]
    by_cases hc : sel r ∈ arr
    · rw [if_pos hc]
      have := ih sel arr
      omega
    · rw [if_neg hc]
      have := ih sel (arr ++ [sel r])
      simp only [List.length_append, List.length_singleton] at this
      omega

theorem build_dict_length_le (rows : List Row04) (sel : Row04 → List Nat) :
    (build_dict rows sel).length ≤ rows.length := by
  have := dict_foldl_length_le rows sel []
  simpa using this

theorem u32le_length (n : Nat) : (u32le n).length = 4 := rfl

theorem encEntries_spec : ∀ (arr : List (List Nat)), (∀ s ∈ arr, s.length < 2 ^ 32) →
    ∃ body, encDict.encEntries arr = .ok body ∧
      ∀ (buf : List Nat) (i : Nat) (rest : List Nat), buf.drop i = body ++ rest →
        readDictEntries buf arr.length i = .ok (arr, i + body.length) := by
  intro arr
  induction arr with
  | nil =>
    intro hs
    refine ⟨[], rfl, ?_⟩
    intro buf i rest hd
    simp [readDictEntries]
  | cons s ss ih =>
    intro hs
    obtain ⟨body2, hb2, hread2⟩ := ih (fun x hx => hs x (by simp [hx]))
    refine ⟨u32le s.length ++ s ++ body2, ?_, ?_⟩
    · show (match packU32 s.length with
        | Except.error e => Except.error e
        | Except.ok ln =>
          match encDict.encEntries ss with
          | Except.error e => Except.error e
          | Except.ok rest => Except.ok (ln ++ s ++ rest)) = _
      rw [packU32, if_pos (hs s (by simp)), hb2]
    · intro buf i rest hd
      simp only [List.append_assoc] at hd
      have hr1 := readU32_drop hd (hs s (by simp))
      have hd2 := drop_chunk hd
      rw [u32le_length] at hd2
      have hslice := take_of_drop_eq hd2
      have hd3 := drop_chunk hd2
      show (match readU buf i 4 with
        | Except.error e => Except.error e
        | Except.ok ln =>
          match readDictEntries buf ss.length (i + 4 + ln) with
          | Except.error e => Except.error e
          | Except.ok (arr, pos2) =>
            Except.ok (((buf.drop (i + 4)).take ln) :: arr, pos2)) = _
      rw [hr1]
      dsimp only
      rw [hread2 buf (i + 4 + s.length) rest hd3]
      dsimp only
      rw [hslice]
      have hfin : i + 4 + s.length + body2.length =
          i + (u32le s.length ++ s ++ body2).length := by
        simp only [List.length_append, u32le_length]
        omega
      rw [hfin]

theorem encDict_spec (arr : List (List Nat)) (hn : arr.length < 2 ^ 32)
    (hs : ∀ s ∈ arr, s.length < 2 ^ 32) :
    ∃ blob, encDict arr = .ok blob ∧
      ∀ (buf : List Nat) (i : Nat) (rest : List Nat), buf.drop i = blob ++ rest →
        readDict buf i = .ok (arr, i + blob.length) := by
  obtain ⟨body, hb, hread⟩ := encEntries_spec arr hs
  refine ⟨u32le arr.length ++ body, ?_, ?_⟩
  · unfold encDict
    rw [packU32, if_pos hn, hb]
  · intro buf i rest hd
    simp only [List.append_assoc] at hd
    have hr1 := readU32_drop hd hn
    have hd2 := drop_chunk hd
    rw [u32le_length] at hd2
    unfold readDict
    rw [hr1]
    dsimp only
    rw [hread buf (i + 4) rest hd2]
    have hfin : i + 4 + body.length = i + (u32le arr.length ++ body).length := by
      simp only [List.length_append, u32le_length]
      omega
    rw [hfin]

theorem dictIdx_lt : ∀ {arr : List (List Nat)} {v : List Nat}, v ∈ arr →
    dictIdx arr v < arr.length := by
  intro arr
  induction arr with
  | nil => intro v h; simp at h
  | cons s ss ih =>
    intro v h
    by_cases hs : s = v
    · simp [dictIdx, hs]
    · rcases List.mem_cons.mp h with h | h
      · exact absurd h.symm hs
      · simp only [dictIdx, if_neg hs, List.length_cons]
        have := ih h
        omega

theorem dictIdx_getElem : ∀ (arr : List (List Nat)) (v : List Nat), v ∈ arr →
    ∀ (h2 : dictIdx arr v < arr.length), arr[dictIdx arr v] = v := by
  intro arr
  induction arr with
  | nil => intro v h; simp at h
  | cons s ss ih =>
    intro v h h2
    by_cases hs : s = v
    · simp [dictIdx, hs]
    · rcases List.mem_cons.mp h with h | h
      · exact absurd h.symm hs
      · have hlt := dictIdx_lt h
        simp only [dictIdx, if_neg hs] at h2 ⊢
        rw [List.getElem_cons_succ]
        exact ih v h (by omega)

theorem readCode_drop {buf : List Nat} {i : Nat} {arr : List (List Nat)}
    {v : List Nat} {rest : List Nat} (hv : v ∈ arr) (harr : arr.length < 2 ^ 64)
    (hd : buf.drop i = varint_encode (dictIdx arr v) ++ rest) :
    readCode buf i arr = .ok (v, i + (varint_encode (dictIdx arr v)).length) := by
  have hlt : dictIdx arr v < arr.length := dictIdx_lt hv
  unfold readCode
  rw [varint_decode_drop hd (by omega)]
  dsimp only
  rw [dif_pos hlt, dictIdx_getElem arr v hv hlt]

/-- All twelve byte-string fields fit a `<I>` length (which also keeps every
uvarint length below the decoder's 2^64 ceiling). -/
def row04InRange (r : Row04) : Prop :=
  r.txid.length < 2 ^ 32 ∧ r.sender.length < 2 ^ 32 ∧ r.recv.length < 2 ^ 32 ∧
  r.amt.length < 2 ^ 32 ∧ r.fee.length < 2 ^ 32 ∧ r.ts.length < 2 ^ 32 ∧
  r.bid.length < 2 ^ 32 ∧ r.mining.length < 2 ^ 32 ∧ r.currency.length < 2 ^ 32 ∧
  r.ty.length < 2 ^ 32 ∧ r.status.length < 2 ^ 32 ∧ r.gas.length < 2 ^ 32

instance (r : Row04) : Decidable (row04InRange r) := by unfold row04InRange; infer_instance

theorem decodeRow_drop {buf : List Nat} {i : Nat} {dm dc dt ds : List (List Nat)}
    {r : Row04} {rest : List Nat}
    (hr : row04InRange r)
    (hm : r.mining ∈ dm) (hc : r.currency ∈ dc) (hty : r.ty ∈ dt)
    (hst : r.status ∈ ds)
    (hdm : dm.length < 2 ^ 64) (hdc : dc.length < 2 ^ 64)
    (hdt : dt.length < 2 ^ 64) (hds : ds.length < 2 ^ 64)
    (hd : buf.drop i = encRow dm dc dt ds r ++ rest) :
    decodeRow buf dm dc dt ds i = .ok (r, i + (encRow dm dc dt ds r).length) := by
  obtain ⟨h1, h2, h3, h4, h5, h6, h7, h8, h9, h10, h11, h12⟩ := hr
  unfold encRow at hd
  simp only [List.append_assoc] at hd
  have r1 := read_str_drop hd (by omega)
  have hd2 := drop_chunk hd
  have r2 := read_str_drop hd2 (by omega)
  have hd3 := drop_chunk hd2
  have r3 := read_str_drop hd3 (by omega)
  have hd4 := drop_chunk hd3
  have r4 := read_str_drop hd4 (by omega)
  have hd5 := drop_chunk hd4
  have r5 := read_str_drop hd5 (by omega)
  have hd6 := drop_chunk hd5
  have r6 := read_str_drop hd6 (by omega)
  have hd7 := drop_chunk hd6
  have r7 := read_str_drop hd7 (by omega)
  have hd8 := drop_chunk hd7
  have r8 := readCode_drop hm hdm hd8
  have hd9 := drop_chunk hd8
  have r9 := readCode_drop hc hdc hd9
  have hd10 := drop_chunk hd9
  have r10 := readCode_drop hty hdt hd10
  have hd11 := drop_chunk hd10
  have r11 := readCode_drop hst hds hd11
  have hd12 := drop_chunk hd11
  have r12 := read_str_drop hd12 (by omega)
  unfold decodeRow
  rw [r1]
  dsimp only
  rw [r2]
  dsimp only
  rw [r3]
  dsimp only
  rw [r4]
  dsimp only
  rw [r5]
  dsimp only
  rw [r6]
  dsimp only
  rw [r7]
  dsimp only
  rw [r8]
  dsimp only
  rw [r9]
  dsimp only
  rw [r10]
  dsimp only
  rw [r11]
  dsimp only
  rw [r12]
  dsimp only
  have hfin : i + (write_str r.txid).length + (write_str r.sender).length +
      (write_str r.recv).length + (write_str r.amt).length +
      (write_str r.fee).length + (write_str r.ts).length +
      (write_str r.bid).length + (varint_encode (dictIdx dm r.mining)).length +
      (varint_encode (dictIdx dc r.currency)).length +
      (varint_encode (dictIdx dt r.ty)).length +
      (varint_encode (dictIdx ds r.status)).length + (write_str r.gas).length =
      i + (encRow dm dc dt ds r).length := by
    simp only [encRow, List.length_append]
    omega
  rw [hfin]

theorem decodeRows_spec : ∀ (rows : List Row04) (dm dc dt ds : List (List Nat))
    (buf : List Nat) (i : Nat) (rest : List Nat),
    buf.drop i = encRows dm dc dt ds rows ++ rest →
    (∀ r ∈ rows, row04InRange r ∧ r.mining ∈ dm ∧ r.currency ∈ dc ∧
      r.ty ∈ dt ∧ r.status ∈ ds) →
    dm.length < 2 ^ 64 → dc.length < 2 ^ 64 → dt.length < 2 ^ 64 →
    ds.length < 2 ^ 64 →
    decodeRows buf dm dc dt ds rows.length i =
      .ok (rows, i + (encRows dm dc dt ds rows).length) := by
  intro rows
  induction rows with
  | nil =>
    intro dm dc dt ds buf i rest hd hall hdm hdc hdt hds
    simp [decodeRows, encRows]
  | cons r rs ih =>
    intro dm dc dt ds buf i rest hd hall hdm hdc hdt hds
    obtain ⟨hr, hm, hc, hty, hst⟩ := hall r (by simp)
    show (match decodeRow buf dm dc dt ds i with
      | Except.error e => Except.error e
      | Except.ok (r2, pos2) =>
        match decodeRows buf dm dc dt ds rs.length pos2 with
        | Except.error e => Except.error e
        | Except.ok (rs2, pos3) => Except.ok (r2 :: rs2, pos3)) = _
    show (match decodeRow buf dm dc dt ds i with
      | Except.error e => Except.error e
      | Except.ok (r2, pos2) =>
        match decodeRows buf dm dc dt ds rs.length pos2 with
        | Except.error e => Except.error e
        | Except.ok (rs2, pos3) => Except.ok (r2 :: rs2, pos3)) = _
    unfold encRows at hd
    simp only [List.append_assoc] at hd
    rw [decodeRow_drop hr hm hc hty hst hdm hdc hdt hds hd]
    dsimp only
    have hd2 := drop_chunk hd
    rw [ih dm dc dt ds buf _ rest hd2 (fun x hx => hall x (by simp [hx]))
      hdm hdc hdt hds]
    dsimp only
    have hfin : i + (encRow dm dc dt ds r).length +
        (encRows dm dc dt ds rs).length =
        i + (encRows dm dc dt ds (r :: rs)).length := by
      show _ = i + (encRow dm dc dt ds r ++ encRows dm dc dt ds rs).length
      simp only [List.length_append]
      omega
    rw [hfin]

/-- Round trip for case 04: the encoder succeeds and the decoder returns
the rows, whenever the row count and every field length fit 32 bits. -/
theorem decode_encode_case04 (rows : List Row04) (hn : rows.length < 2 ^ 32)
    (hf : ∀ r ∈ rows, row04InRange r) :
    ∃ blob, encode_case04 rows = .ok blob ∧ decode_case04 blob = .ok rows := by
  have hdm_le := build_dict_length_le rows (fun r => r.mining)
  have hdc_le := build_dict_length_le rows (fun r => r.currency)
  have hdt_le := build_dict_length_le rows (fun r => r.ty)
  have hds_le := build_dict_length_le rows (fun r => r.status)
  have hent : ∀ (sel : Row04 → List Nat),
      (∀ r ∈ rows, (sel r).length < 2 ^ 32) →
      ∀ s ∈ build_dict rows sel, s.length < 2 ^ 32 := by
    intro sel hsel s hs
    rcases build_dict_src rows sel [] s hs with h | ⟨r2, hr2, hx⟩
    · simp at h
    · rw [← hx]
      exact hsel r2 hr2
  obtain ⟨bm, hbm, hreadm⟩ := encDict_spec (build_dict rows (fun r => r.mining))
    (by omega) (hent _ (fun r hr => ((hf r hr).2.2.2.2.2.2.2.1)))
  obtain ⟨bc, hbc, hreadc⟩ := encDict_spec (build_dict rows (fun r => r.currency))
    (by omega) (hent _ (fun r hr => ((hf r hr).2.2.2.2.2.2.2.2.1)))
  obtain ⟨bt, hbt, hreadt⟩ := encDict_spec (build_dict rows (fun r => r.ty))
    (by omega) (hent _ (fun r hr => ((hf r hr).2.2.2.2.2.2.2.2.2.1)))
  obtain ⟨bs, hbs, hreads⟩ := encDict_spec (build_dict rows (fun r => r.status))
    (by omega) (hent _ (fun r hr => ((hf r hr).2.2.2.2.2.2.2.2.2.2.1)))
  refine ⟨magic8 ++ (u32le rows.length ++ (u32le 12 ++ (bm ++ (bc ++ (bt ++ (bs ++
    encRows (build_dict rows (fun r => r.mining))
      (build_dict rows (fun r => r.currency))
      (build_dict rows (fun r => r.ty))
      (build_dict rows (fun r => r.status)) rows)))))), ?_, ?_⟩
  · unfold encode_case04
    dsimp only
    rw [packU32, if_pos hn, hbm, hbc, hbt, hbs]
    simp only [List.append_assoc]
  · set dm := build_dict rows (fun r => r.mining) with hdmdef
    set dc := build_dict rows (fun r => r.currency) with hdcdef
    set dt := build_dict rows (fun r => r.ty) with hdtdef
    set ds := build_dict rows (fun r => r.status) with hdsdef
    have hd0 : (magic8 ++ (u32le rows.length ++ (u32le 12 ++ (bm ++ (bc ++ (bt ++ (bs ++
        encRows dm dc dt ds rows))))))).drop 8 =
        u32le rows.length ++ (u32le 12 ++ (bm ++ (bc ++ (bt ++ (bs ++
          encRows dm dc dt ds rows))))) :=
      List.drop_left' rfl
    have hd1 := drop_chunk hd0
    rw [u32le_length] at hd1
    rw [show (8 : Nat) + 4 = 12 from rfl] at hd1
    have hd2 := drop_chunk hd1
    rw [u32le_length] at hd2
    rw [show (12 : Nat) + 4 = 16 from rfl] at hd2
    unfold decode_case04
    rw [if_neg ?hbig]
    case hbig =>
      simp only [List.length_append, magic8, u32le, List.length_cons, List.length_nil]
      omega
    have htk : (magic8 ++ (u32le rows.length ++ (u32le 12 ++ (bm ++ (bc ++ (bt ++ (bs ++
        encRows dm dc dt ds rows))))))).take 8 = magic8 := List.take_left' rfl
    rw [if_pos htk]
    rw [readU32_drop hd0 hn]
    dsimp only
    rw [readU32_drop hd1 (by norm_num)]
    dsimp only
    rw [if_neg (by norm_num)]
    rw [hreadm _ 16 _ hd2]
    dsimp only
    have hd3 := drop_chunk hd2
    rw [hreadc _ _ _ hd3]
    dsimp only
    have hd4 := drop_chunk hd3
    rw [hreadt _ _ _ hd4]
    dsimp only
    have hd5 := drop_chunk hd4
    rw [hreads _ _ _ hd5]
    dsimp only
    have hd6 := drop_chunk hd5
    rw [decodeRows_spec rows dm dc dt ds _ _ [] (by rw [List.append_nil]; exact hd6)
      (fun r hr => ⟨hf r hr, build_dict_mem hr, build_dict_mem hr,
        build_dict_mem hr, build_dict_mem hr⟩)
      (by omega) (by omega) (by omega) (by omega)]

end Case04

/-! ## Concrete evaluation helpers

Small computations of the weakly-founded recursive functions on literal
inputs, used by the concrete instances below. -/

theorem varint_encode_small {u : Nat} (h : u < 128) : varint_encode u = [u] := by
  rw [varint_encode, dif_pos (by rw [Nat.shiftRight_eq_div_pow]; exact Nat.div_eq_of_lt h)]
  rw [and127_eq_mod, Nat.mod_eq_of_lt h]

theorem varint_encode_pow70 :
    varint_encode (2 ^ 70) = [128, 128, 128, 128, 128, 128, 128, 128, 128, 128, 1] := by
  simp [varint_encode]
  decide

theorem encode_body_nil_eval : Case01.encode_body [] = [] := by
  simp [Case01.encode_body]

theorem zz_varint_one : zz_varint 1 = [2] := by
  rw [zz_varint, show (zigzag_encode 1).toNat = 2 from rfl,
    varint_encode_small (by norm_num)]

theorem bar_zz_zero_eval : Case01.bar_zz ⟨0, 0, 0, 0, 0, 0⟩ = [0, 0, 0, 0, 0, 0] := by
  simp [Case01.bar_zz, Case02.zz_varint_zero]

theorem bar_zz_one_eval : Case01.bar_zz ⟨1, 1, 1, 1, 1, 1⟩ = [2, 2, 2, 2, 2, 2] := by
  simp [Case01.bar_zz, zz_varint_one]

theorem encTup6_zero_eval :
    Case01.encTup6 ((0 : Int), 0, 0, 0, 0, 0) = [0, 0, 0, 0, 0, 0] := by
  simp [Case01.encTup6, Case02.zz_varint_zero]

theorem encTup6_one_eval :
    Case01.encTup6 ((1 : Int), 1, 1, 1, 1, 1) = [2, 2, 2, 2, 2, 2] := by
  simp [Case01.encTup6, zz_varint_one]

/-! ## Claim C1: the decode-encode round trip of cases 01, 02 and 04 -/

/-- Claim C1 (amended): the round trip `decode (encode rows) = rows` holds
in all three row-oriented cases once every field, every delta and the
case-01 `price_scale` lie in the signed/unsigned ranges the formats carry
(i64 fields and deltas for cases 01 and 02, `u32` string lengths and row
count for case 04). -/
theorem c1_roundtrip :
    (∀ (bars : List Bar) (ps : Nat), bars.length < 2 ^ 63 → ps < 2 ^ 63 →
      (∀ b ∈ bars, barInRange b) → (∀ t ∈ Case01.deltasOf bars, tup6InRange t) →
      Case01.decode_star (Case01.encode_star bars ps) =
        .ok (bars, bars.length, if bars.isEmpty then 0 else ps)) ∧
    (∀ ticks : List AirTick, ticks.length < 2 ^ 63 →
      (∀ b ∈ ticks, tickInRange b) → (∀ t ∈ Case02.deltas02 ticks, tup8InRange t) →
      Case02.decode_star02 (Case02.encode_star02 ticks) = .ok ticks) ∧
    (∀ rows : List Case04.Row04, rows.length < 2 ^ 32 →
      (∀ r ∈ rows, Case04.row04InRange r) →
      ∃ blob, Case04.encode_case04 rows = .ok blob ∧
        Case04.decode_case04 blob = .ok rows) :=
  ⟨fun bars ps h1 h2 h3 h4 => Case01.decode_star_encode bars ps h1 h2 h3 h4,
   fun ticks h1 h2 h3 => Case02.decode_star02_encode ticks h1 h2 h3,
   fun rows h1 h2 => Case04.decode_encode_case04 rows h1 h2⟩

/-- Concrete instance of the three round trips. -/
theorem c1_roundtrip_witness :
    Case01.decode_star (Case01.encode_star [⟨1, 2, 3, 4, 5, 6⟩] 2) =
      .ok ([⟨1, 2, 3, 4, 5, 6⟩], 1, 2) ∧
    Case02.decode_star02 (Case02.encode_star02 [⟨1, 2, 3, 4, 5, 6, 7, 8⟩]) =
      .ok [⟨1, 2, 3, 4, 5, 6, 7, 8⟩] ∧
    ∃ blob,
      Case04.encode_case04
        [⟨[1], [2], [3], [4], [5], [6], [7], [8], [9], [10], [11], [12]⟩] = .ok blob ∧
      Case04.decode_case04 blob =
        .ok [⟨[1], [2], [3], [4], [5], [6], [7], [8], [9], [10], [11], [12]⟩] := by
  refine ⟨?_, ?_, ?_⟩
  · have h := c1_roundtrip.1 [⟨1, 2, 3, 4, 5, 6⟩] 2 (by norm_num) (by norm_num)
      (by decide) (by decide)
    simpa using h
  · exact c1_roundtrip.2.1 [⟨1, 2, 3, 4, 5, 6, 7, 8⟩] (by norm_num) (by decide) (by decide)
  · exact c1_roundtrip.2.2
      [⟨[1], [2], [3], [4], [5], [6], [7], [8], [9], [10], [11], [12]⟩]
      (by norm_num) (by decide)

/-- A `price_scale` of `2 ^ 70` breaks the case-01 round trip: the encoder
writes an 11-byte varint that the limit-63 decoder rejects as overlong, so
the original claim (any `price_scale`) is false. -/
theorem c1_counterexample :
    Case01.decode_star (Case01.encode_star [⟨0, 0, 0, 0, 0, 0⟩] (2 ^ 70)) =
      .error Err.overlongVarint := by
  have henc : Case01.encode_star [⟨0, 0, 0, 0, 0, 0⟩] (2 ^ 70) =
      [83, 84, 65, 82, 49, 1, 128, 128, 128, 128, 128, 128, 128, 128, 128, 128, 1,
       0, 0, 0, 0, 0, 0] := by
    unfold Case01.encode_star
    dsimp only
    rw [show Case01.deltasOf [⟨0, 0, 0, 0, 0, 0⟩] = [] from rfl, encode_body_nil_eval,
      bar_zz_zero_eval, varint_encode_pow70, List.length_cons, List.length_nil,
      varint_encode_small (by norm_num)]
    decide
  rw [henc]
  unfold Case01.decode_star
  rw [if_pos (by decide)]
  have hv1 : Case01.varint_decode
      [83, 84, 65, 82, 49, 1, 128, 128, 128, 128, 128, 128, 128, 128, 128, 128, 1,
       0, 0, 0, 0, 0, 0] 5 = .ok (1, 6) := by
    rw [Case01.varint_decode, varint_decode_core_eq]; decide
  rw [hv1]
  dsimp only
  rw [if_neg (by decide)]
  have hv2 : Case01.varint_decode
      [83, 84, 65, 82, 49, 1, 128, 128, 128, 128, 128, 128, 128, 128, 128, 128, 1,
       0, 0, 0, 0, 0, 0] 6 = .error .overlongVarint := by
    rw [Case01.varint_decode, varint_decode_core_eq]; decide
  rw [hv2]

/-! ## Claim C2: replay from an anchor equals the corresponding decode slice -/

/-- Claim C2 (amended): for every encoder blob and every anchor the index
builder emits over it, replaying `k` rows from the anchor — for `1 ≤ k`
up to the rows remaining — returns exactly rows `[A.row, A.row + k)` of
the input; the lower bound `1 ≤ k` is needed because both replayers emit
the anchor row itself before consulting the output budget. -/
theorem c2_replay_equiv :
    (∀ (b0 : Bar) (tl : List Bar) (ps ae : Nat),
      (b0 :: tl).length < 2 ^ 63 → ps < 2 ^ 63 →
      (∀ b ∈ b0 :: tl, barInRange b) →
      (∀ t ∈ Case01.deltasOf (b0 :: tl), tup6InRange t) →
      ∃ anchors,
        Index01.build_index (Case01.encode_star (b0 :: tl) ps) ae =
          .ok ((b0 :: tl).length, anchors) ∧
        anchors ≠ [] ∧
        ∀ a ∈ anchors, ∀ k, 1 ≤ k → k ≤ (b0 :: tl).length - a.1 →
          Replay01.replay_from (Case01.encode_star (b0 :: tl) ps) a.1 a.2.1 a.2.2
            (b0 :: tl).length (some (a.1 : Int)) none k =
            .ok (Replay01.enumFrom a.1 (((b0 :: tl).drop a.1).take k))) ∧
    (∀ (b0 : AirTick) (tl : List AirTick) (ae : Nat), ae ≠ 0 →
      (b0 :: tl).length < 2 ^ 63 →
      (∀ b ∈ b0 :: tl, tickInRange b) →
      (∀ t ∈ Case02.deltas02 (b0 :: tl), tup8InRange t) →
      ∃ anchors,
        Index02.build_index02 (Case02.encode_star02 (b0 :: tl)) ae =
          .ok ((b0 :: tl).length, anchors) ∧
        anchors ≠ [] ∧
        ∀ a ∈ anchors, ∀ k, 1 ≤ k → k ≤ (b0 :: tl).length - a.1 →
          Replay02.replay_seek_core (Case02.encode_star02 (b0 :: tl)) a.1 a.2.1
            a.2.2 a.1 (b0 :: tl).length k =
            .ok (((b0 :: tl).drop a.1).take k)) := by
  constructor
  · intro b0 tl ps ae hn hps hrows hds
    obtain ⟨anchors, hbi, hne, hgood⟩ :=
      Index01.build_index_spec b0 tl ps ae hn hps hrows hds
    exact ⟨anchors, hbi, hne, fun a ha k hk1 hk2 =>
      Replay01.replay_from_anchor (hgood a ha) k hk1 hk2⟩
  · intro b0 tl ae hae hn hrows hds
    obtain ⟨anchors, hbi, hne, hgood⟩ :=
      Index02.build_index02_spec b0 tl ae hae hn hrows hds
    refine ⟨anchors, hbi, hne, fun a ha k hk1 hk2 => ?_⟩
    have hg := hgood a ha
    have hlt : a.1 < (b0 :: tl).length := by
      obtain ⟨-, dsRem, -, -, hlen, -⟩ := hg
      omega
    exact Replay02.replay_seek_anchor hg
      (lt_trans hn (by norm_num)) k hk1 (by omega)

/-- Concrete instance: a two-row blob in each case, replaying one row from
each anchor the builder emits. -/
theorem c2_replay_equiv_witness :
    (∃ anchors,
      Index01.build_index (Case01.encode_star [⟨0, 0, 0, 0, 0, 0⟩, ⟨1, 1, 1, 1, 1, 1⟩] 0) 1 =
        .ok (([⟨0, 0, 0, 0, 0, 0⟩, ⟨1, 1, 1, 1, 1, 1⟩] : List Bar).length, anchors) ∧
      anchors ≠ [] ∧
      ∀ a ∈ anchors, ∀ k, 1 ≤ k →
        k ≤ ([⟨0, 0, 0, 0, 0, 0⟩, ⟨1, 1, 1, 1, 1, 1⟩] : List Bar).length - a.1 →
        Replay01.replay_from (Case01.encode_star [⟨0, 0, 0, 0, 0, 0⟩, ⟨1, 1, 1, 1, 1, 1⟩] 0)
          a.1 a.2.1 a.2.2 ([⟨0, 0, 0, 0, 0, 0⟩, ⟨1, 1, 1, 1, 1, 1⟩] : List Bar).length
          (some (a.1 : Int)) none k =
          .ok (Replay01.enumFrom a.1
            ((([⟨0, 0, 0, 0, 0, 0⟩, ⟨1, 1, 1, 1, 1, 1⟩] : List Bar).drop a.1).take k))) ∧
    (∃ anchors,
      Index02.build_index02
        (Case02.encode_star02 [⟨0, 0, 0, 0, 0, 0, 0, 0⟩, ⟨1, 1, 1, 1, 1, 1, 1, 1⟩]) 1 =
        .ok (([⟨0, 0, 0, 0, 0, 0, 0, 0⟩, ⟨1, 1, 1, 1, 1, 1, 1, 1⟩] : List AirTick).length,
          anchors) ∧
      anchors ≠ [] ∧
      ∀ a ∈ anchors, ∀ k, 1 ≤ k →
        k ≤ ([⟨0, 0, 0, 0, 0, 0, 0, 0⟩, ⟨1, 1, 1, 1, 1, 1, 1, 1⟩] : List AirTick).length - a.1 →
        Replay02.replay_seek_core
          (Case02.encode_star02 [⟨0, 0, 0, 0, 0, 0, 0, 0⟩, ⟨1, 1, 1, 1, 1, 1, 1, 1⟩])
          a.1 a.2.1 a.2.2 a.1
          ([⟨0, 0, 0, 0, 0, 0, 0, 0⟩, ⟨1, 1, 1, 1, 1, 1, 1, 1⟩] : List AirTick).length k =
          .ok ((([⟨0, 0, 0, 0, 0, 0, 0, 0⟩, ⟨1, 1, 1, 1, 1, 1, 1, 1⟩] : List AirTick).drop
            a.1).take k)) :=
  ⟨c2_replay_equiv.1 ⟨0, 0, 0, 0, 0, 0⟩ [⟨1, 1, 1, 1, 1, 1⟩] 0 1 (by norm_num)
      (by norm_num) (by decide) (by decide),
   c2_replay_equiv.2 ⟨0, 0, 0, 0, 0, 0, 0, 0⟩ [⟨1, 1, 1, 1, 1, 1, 1, 1⟩] 1 (by decide)
      (by norm_num) (by decide) (by decide)⟩

/-- Replaying `k = 0` rows from the builder's anchor of a one-row blob
still emits one row — the anchor row is appended before the output budget
is consulted — so the original claim (every `k ≤ rows_remaining`,
including 0) is false. -/
theorem c2_counterexample :
    Index01.build_index (Case01.encode_star [⟨0, 0, 0, 0, 0, 0⟩] 0) 1 =
      .ok (1, [(0, 13, ⟨0, 0, 0, 0, 0, 0⟩)]) ∧
    Replay01.replay_from (Case01.encode_star [⟨0, 0, 0, 0, 0, 0⟩] 0) 0 13
      ⟨0, 0, 0, 0, 0, 0⟩ 1 (some 0) none 0 = .ok [(0, ⟨0, 0, 0, 0, 0, 0⟩)] := by
  have henc : Case01.encode_star [⟨0, 0, 0, 0, 0, 0⟩] 0 =
      [83, 84, 65, 82, 49, 1, 0, 0, 0, 0, 0, 0, 0] := by
    unfold Case01.encode_star
    dsimp only
    rw [show Case01.deltasOf [⟨0, 0, 0, 0, 0, 0⟩] = [] from rfl, encode_body_nil_eval,
      bar_zz_zero_eval, List.length_cons, List.length_nil,
      varint_encode_small (by norm_num), varint_encode_small (by norm_num)]
    decide
  constructor
  · rw [henc]
    have hp : Index01.parse_star1_header [83, 84, 65, 82, 49, 1, 0, 0, 0, 0, 0, 0, 0] =
        .ok (1, 0, ⟨0, 0, 0, 0, 0, 0⟩, 13) := by
      unfold Index01.parse_star1_header
      rw [if_pos (by decide)]
      have hv1 : Case01.varint_decode [83, 84, 65, 82, 49, 1, 0, 0, 0, 0, 0, 0, 0] 5 =
          .ok (1, 6) := by
        rw [Case01.varint_decode, varint_decode_core_eq]; decide
      rw [hv1]
      dsimp only
      rw [if_neg (by decide)]
      have hv2 : Case01.varint_decode [83, 84, 65, 82, 49, 1, 0, 0, 0, 0, 0, 0, 0] 6 =
          .ok (0, 7) := by
        rw [Case01.varint_decode, varint_decode_core_eq]; decide
      rw [hv2]
      dsimp only
      have hd : ([83, 84, 65, 82, 49, 1, 0, 0, 0, 0, 0, 0, 0] : List Nat).drop 7 =
          Case01.encTup6 ((0 : Int), 0, 0, 0, 0, 0) ++ [] := by
        rw [encTup6_zero_eval]; decide
      have ht0 := Case01.read_tup6_drop (by decide) hd
      rw [encTup6_zero_eval] at ht0
      have ht : Case01.read_tup6 [83, 84, 65, 82, 49, 1, 0, 0, 0, 0, 0, 0, 0] 7 =
          .ok (((0 : Int), 0, 0, 0, 0, 0), 13) := ht0
      rw [ht]
      rfl
    unfold Index01.build_index
    rw [hp]
    dsimp only
    rw [if_neg (by decide)]
    have hil : Index01.indexLoop [83, 84, 65, 82, 49, 1, 0, 0, 0, 0, 0, 0, 0] 1 1 0 13
        ⟨0, 0, 0, 0, 0, 0⟩ [(0, 13, ⟨0, 0, 0, 0, 0, 0⟩)] =
        .ok (0, 13, ⟨0, 0, 0, 0, 0, 0⟩, [(0, 13, ⟨0, 0, 0, 0, 0, 0⟩)]) := by
      rw [Index01.indexLoop, if_neg (by decide)]
    rw [hil]
    dsimp only
    rw [if_neg (by decide)]
  · show Replay01.replayLoop (some 0) none (Case01.encode_star [⟨0, 0, 0, 0, 0, 0⟩] 0)
      1 0 0 13 ⟨0, 0, 0, 0, 0, 0⟩ [(0, ⟨0, 0, 0, 0, 0, 0⟩)] =
      .ok [(0, ⟨0, 0, 0, 0, 0, 0⟩)]
    rw [Replay01.replayLoop, if_neg (by decide)]

/-! ## Claim C3: the decoded row count against the header -/

/-- Claim C3 (amended): a successful case-02 decode returns exactly the
header count `n` (the run loop breaks at `n`); a successful case-01 decode
returns **at least** `n` rows — on encoder-produced blobs exactly `n`, but
a crafted tag-0 run can overshoot because `appendRun` never stops at `n`. -/
theorem c3_rowcount :
    (∀ (buf : List Nat) (bars : List Bar) (n ps : Nat),
      Case01.decode_star buf = .ok (bars, n, ps) → n ≤ bars.length) ∧
    (∀ (buf : List Nat) (out : List AirTick),
      Case02.decode_star02 buf = .ok out →
      ∃ n i1, Case02.varint_decode02 buf 6 = .ok (n, i1) ∧ out.length = n) :=
  ⟨fun _ _ _ _ h => Case01.decode_star_ge h,
   fun _ _ h => Case02.decode_star02_len h⟩

/-- Concrete instance on the two encoder blobs of one row each. -/
theorem c3_rowcount_witness :
    (1 : Nat) ≤ ([⟨1, 2, 3, 4, 5, 6⟩] : List Bar).length ∧
    ∃ n i1,
      Case02.varint_decode02 (Case02.encode_star02 [⟨1, 2, 3, 4, 5, 6, 7, 8⟩]) 6 =
        .ok (n, i1) ∧ ([⟨1, 2, 3, 4, 5, 6, 7, 8⟩] : List AirTick).length = n := by
  have h1 : Case01.decode_star (Case01.encode_star [⟨1, 2, 3, 4, 5, 6⟩] 7) =
      .ok ([⟨1, 2, 3, 4, 5, 6⟩], 1, 7) := by
    have h := Case01.decode_star_encode [⟨1, 2, 3, 4, 5, 6⟩] 7 (by norm_num)
      (by norm_num) (by decide) (by decide)
    simpa using h
  have h2 : Case02.decode_star02 (Case02.encode_star02 [⟨1, 2, 3, 4, 5, 6, 7, 8⟩]) =
      .ok [⟨1, 2, 3, 4, 5, 6, 7, 8⟩] :=
    Case02.decode_star02_encode [⟨1, 2, 3, 4, 5, 6, 7, 8⟩] (by norm_num) (by decide)
      (by decide)
  exact ⟨c3_rowcount.1 _ _ _ _ h1, c3_rowcount.2 _ _ h2⟩

/-- A crafted case-01 buffer with header `n = 2` and a tag-0 run of 4
decodes successfully to five rows: `appendRun` applies the whole run past
`n`, so "no more rows" is false for case 01. -/
theorem c3_counterexample :
    Case01.decode_star
      [83, 84, 65, 82, 49, 2, 0, 0, 0, 0, 0, 0, 0, 0, 4, 0, 0, 0, 0, 0, 0] =
      .ok ([⟨0, 0, 0, 0, 0, 0⟩, ⟨0, 0, 0, 0, 0, 0⟩, ⟨0, 0, 0, 0, 0, 0⟩,
        ⟨0, 0, 0, 0, 0, 0⟩, ⟨0, 0, 0, 0, 0, 0⟩], 2, 0) ∧
    ([⟨0, 0, 0, 0, 0, 0⟩, ⟨0, 0, 0, 0, 0, 0⟩, ⟨0, 0, 0, 0, 0, 0⟩,
      ⟨0, 0, 0, 0, 0, 0⟩, ⟨0, 0, 0, 0, 0, 0⟩] : List Bar).length ≠ 2 := by
  refine ⟨?_, by decide⟩
  unfold Case01.decode_star
  rw [if_pos (by decide)]
  have hv1 : Case01.varint_decode
      [83, 84, 65, 82, 49, 2, 0, 0, 0, 0, 0, 0, 0, 0, 4, 0, 0, 0, 0, 0, 0] 5 =
      .ok (2, 6) := by
    rw [Case01.varint_decode, varint_decode_core_eq]; decide
  rw [hv1]
  dsimp only
  rw [if_neg (by decide)]
  have hv2 : Case01.varint_decode
      [83, 84, 65, 82, 49, 2, 0, 0, 0, 0, 0, 0, 0, 0, 4, 0, 0, 0, 0, 0, 0] 6 =
      .ok (0, 7) := by
    rw [Case01.varint_decode, varint_decode_core_eq]; decide
  rw [hv2]
  dsimp only
  have hd1 : ([83, 84, 65, 82, 49, 2, 0, 0, 0, 0, 0, 0, 0, 0, 4, 0, 0, 0, 0, 0, 0] :
      List Nat).drop 7 = Case01.encTup6 ((0 : Int), 0, 0, 0, 0, 0) ++
      [0, 4, 0, 0, 0, 0, 0, 0] := by
    rw [encTup6_zero_eval]; decide
  have ht10 := Case01.read_tup6_drop (by decide) hd1
  rw [encTup6_zero_eval] at ht10
  have ht1 : Case01.read_tup6
      [83, 84, 65, 82, 49, 2, 0, 0, 0, 0, 0, 0, 0, 0, 4, 0, 0, 0, 0, 0, 0] 7 =
      .ok (((0 : Int), 0, 0, 0, 0, 0), 13) := ht10
  rw [ht1]
  dsimp only
  rw [Case01.decodeLoop, if_neg (by decide), dif_pos (by decide), if_pos (by decide)]
  have hv3 : Case01.varint_decode
      [83, 84, 65, 82, 49, 2, 0, 0, 0, 0, 0, 0, 0, 0, 4, 0, 0, 0, 0, 0, 0] 14 =
      .ok (4, 15) := by
    rw [Case01.varint_decode, varint_decode_core_eq]; decide
  rw [hv3]
  dsimp only
  have hd2 : ([83, 84, 65, 82, 49, 2, 0, 0, 0, 0, 0, 0, 0, 0, 4, 0, 0, 0, 0, 0, 0] :
      List Nat).drop 15 = Case01.encTup6 ((0 : Int), 0, 0, 0, 0, 0) ++ [] := by
    rw [encTup6_zero_eval]; decide
  have ht20 := Case01.read_tup6_drop (by decide) hd2
  rw [encTup6_zero_eval] at ht20
  have ht2 : Case01.read_tup6
      [83, 84, 65, 82, 49, 2, 0, 0, 0, 0, 0, 0, 0, 0, 4, 0, 0, 0, 0, 0, 0] 15 =
      .ok (((0 : Int), 0, 0, 0, 0, 0), 21) := ht20
  rw [ht2]
  dsimp only
  have happ : Case01.appendRun ((0 : Int), 0, 0, 0, 0, 0) 4
      [Case01.barOfTup ((0 : Int), 0, 0, 0, 0, 0)] =
      [⟨0, 0, 0, 0, 0, 0⟩, ⟨0, 0, 0, 0, 0, 0⟩, ⟨0, 0, 0, 0, 0, 0⟩,
       ⟨0, 0, 0, 0, 0, 0⟩, ⟨0, 0, 0, 0, 0, 0⟩] := by decide
  rw [happ, Case01.decodeLoop, if_pos (by decide)]

/-! ## Claim C5: varint decoding errors and the byte bound -/

/-- Claim C5 (amended): every varint decode either succeeds right after a
clear-high-bit byte, fails `Truncated` when the buffer ends with the
continuation bit still set, or fails `Overlong` when the shift budget is
exhausted — but the budget is 63 bits (at most 10 bytes) only in the
case-01/04 modules; the case-02 module allows 70 bits, hence 11 bytes. -/
theorem c5_varint :
    (∀ (buf : List Nat) (i : Nat),
      (∃ j v, j < 10 ∧ j < buf.length - i ∧
        (∀ m, m < j → (buf.drop i).getD m 0 &&& 128 ≠ 0) ∧
        (buf.drop i).getD j 0 &&& 128 = 0 ∧
        Case01.varint_decode buf i = .ok (v, i + (j + 1))) ∨
      (buf.length - i < 10 ∧
        (∀ m, m < buf.length - i → (buf.drop i).getD m 0 &&& 128 ≠ 0) ∧
        Case01.varint_decode buf i = .error .truncatedVarint) ∨
      ((∀ m, m < 10 → m < buf.length - i ∧ (buf.drop i).getD m 0 &&& 128 ≠ 0) ∧
        Case01.varint_decode buf i = .error .overlongVarint)) ∧
    (∀ (buf : List Nat) (i : Nat),
      (∃ j v, j < 11 ∧ j < buf.length - i ∧
        (∀ m, m < j → (buf.drop i).getD m 0 &&& 128 ≠ 0) ∧
        (buf.drop i).getD j 0 &&& 128 = 0 ∧
        Case02.varint_decode02 buf i = .ok (v, i + (j + 1))) ∨
      (buf.length - i < 11 ∧
        (∀ m, m < buf.length - i → (buf.drop i).getD m 0 &&& 128 ≠ 0) ∧
        Case02.varint_decode02 buf i = .error .truncatedVarint) ∨
      ((∀ m, m < 11 → m < buf.length - i ∧ (buf.drop i).getD m 0 &&& 128 ≠ 0) ∧
        Case02.varint_decode02 buf i = .error .overlongVarint)) ∧
    (∀ (buf : List Nat) (i u j : Nat),
      Case01.varint_decode buf i = .ok (u, j) → j - i ≤ 10) ∧
    (∀ (buf : List Nat) (i u j : Nat),
      Case02.varint_decode02 buf i = .ok (u, j) → j - i ≤ 11) :=
  ⟨fun buf i => varint_decode_core_trichotomy 63 buf i,
   fun buf i => varint_decode_core_trichotomy 70 buf i,
   fun buf i u j h => @varint_decode_core_max_bytes 63 buf i u j h,
   fun buf i u j h => @varint_decode_core_max_bytes 70 buf i u j h⟩

/-- Concrete instance of the byte bounds on one-byte values. -/
theorem c5_varint_witness :
    Case01.varint_decode [0] 0 = .ok (0, 1) ∧ (1 : Nat) - 0 ≤ 10 ∧
    Case02.varint_decode02 [5] 0 = .ok (5, 1) ∧ (1 : Nat) - 0 ≤ 11 := by
  have h1 : Case01.varint_decode [0] 0 = .ok (0, 1) := by
    rw [Case01.varint_decode, varint_decode_core_eq]; decide
  have h2 : Case02.varint_decode02 [5] 0 = .ok (5, 1) := by
    rw [Case02.varint_decode02, varint_decode_core_eq]; decide
  exact ⟨h1, c5_varint.2.2.1 [0] 0 0 1 h1, h2, c5_varint.2.2.2 [5] 0 5 1 h2⟩

/-- An 11-byte varint (value `2 ^ 70`) is accepted by the case-02 decoder
but rejected as overlong by the case-01 decoder: the shift limit is not
uniformly 63 bits and a value may consume more than 10 bytes, so the
original claim is false. -/
theorem c5_counterexample :
    Case02.varint_decode02 [128, 128, 128, 128, 128, 128, 128, 128, 128, 128, 1] 0 =
      .ok (2 ^ 70, 11) ∧
    Case01.varint_decode [128, 128, 128, 128, 128, 128, 128, 128, 128, 128, 1] 0 =
      .error .overlongVarint := by
  constructor
  · rw [Case02.varint_decode02, varint_decode_core_eq]; decide
  · rw [Case01.varint_decode, varint_decode_core_eq]; decide

/-! ## Claim C6: the case-02 body scheme against the case-01 scheme -/

/-- Claim C6 (amended): the case-02 body coincides with the capped
case-01-style scheme (`encode_body02_spec`, built from the claim: runs
capped at 10,000,000, threshold 3) whenever the input has at most
10,000,000 deltas — but case-02 scans runs with **no cap**, so the two
schemes differ beyond that length. -/
theorem c6_cap : ∀ ds : List Tup8, ds.length ≤ 10000000 →
    Case02.encode_body02 ds = Case02.encode_body02_spec ds :=
  fun ds h => Case02.encode_body02_eq_spec ds.length ds le_rfl h

/-- Concrete instance on a single delta tuple. -/
theorem c6_cap_witness :
    ([((1 : Int), 0, 0, 0, 0, 0, 0, 0)] : List Tup8).length ≤ 10000000 ∧
    Case02.encode_body02 [((1 : Int), 0, 0, 0, 0, 0, 0, 0)] =
      Case02.encode_body02_spec [((1 : Int), 0, 0, 0, 0, 0, 0, 0)] :=
  ⟨by decide, c6_cap [((1 : Int), 0, 0, 0, 0, 0, 0, 0)] (by decide)⟩

/-- On 10,000,003 equal deltas the case-02 encoder emits one uncapped RLE
block where the capped case-01 scheme would split at 10,000,000: the cap
policies are not identical, so the original claim is false. -/
theorem c6_counterexample :
    Case02.encode_body02 (List.replicate 10000003 ((0, 0, 0, 0, 0, 0, 0, 0) : Tup8)) ≠
      Case02.encode_body02_spec
        (List.replicate 10000003 ((0, 0, 0, 0, 0, 0, 0, 0) : Tup8)) :=
  Case02.body02_spec_diverges

/-! ## Claim C7: the index-against-header consistency check of the replayers -/

/-- Claim C7 (amended): the case-01 replayer compares the loaded index
against the STAR header and fails with the mismatch error, emitting no
rows, whenever the two row counts differ; the case-02 replayer checks the
index magic and version but never performs that comparison. -/
theorem c7_mismatch_check :
    ∀ (star_buf idx_buf : List Nat) (n ps : Nat) (base : Bar) (bi ae ni : Nat)
      (anchors : List (Nat × Nat × Bar)) (s : Int) (rows : Nat),
      Index01.parse_star1_header star_buf = .ok (n, ps, base, bi) →
      Replay01.load_index01 idx_buf = .ok (ae, ni, anchors) →
      ni ≠ n →
      Replay01.main01_seek star_buf idx_buf s rows = .error .indexMismatch :=
  fun _ _ _ _ _ _ _ _ _ s rows hp hl hne =>
    Replay01.main01_seek_mismatch s rows hp hl hne

/-- Concrete instance: an empty one-header STAR file against an index
recording three rows. -/
theorem c7_mismatch_witness :
    Replay01.main01_seek [83, 84, 65, 82, 49, 0]
      [83, 73, 68, 88, 49, 67, 65, 83, 69, 48, 49, 0, 2, 0, 0, 0, 3, 0, 0, 0,
       0, 0, 0, 0] 0 5 = .error .indexMismatch := by
  have hp : Index01.parse_star1_header [83, 84, 65, 82, 49, 0] =
      .ok (0, 0, ⟨0, 0, 0, 0, 0, 0⟩, 6) := by
    unfold Index01.parse_star1_header
    rw [if_pos (by decide)]
    have hv : Case01.varint_decode [83, 84, 65, 82, 49, 0] 5 = .ok (0, 6) := by
      rw [Case01.varint_decode, varint_decode_core_eq]; decide
    rw [hv]
    dsimp only
    rw [if_pos rfl]
  have hl : Replay01.load_index01
      [83, 73, 68, 88, 49, 67, 65, 83, 69, 48, 49, 0, 2, 0, 0, 0, 3, 0, 0, 0,
       0, 0, 0, 0] = .ok (2, 3, []) := by decide
  exact c7_mismatch_check _ _ _ _ _ _ _ _ _ 0 5 hp hl (by decide)

/-- The case-02 replayer emits a row from a STAR blob whose header says one
row while the index records five: no `n_rows` comparison happens, so the
original claim (both cases verify it) is false. -/
theorem c7_counterexample :
    Case02.varint_decode02 [83, 84, 65, 82, 50, 65, 1, 0, 0, 0, 0, 0, 0, 0, 0] 6 =
      .ok (1, 7) ∧
    Replay02.load_index02
      ([83, 84, 65, 82, 73, 68, 88, 50, 1, 1, 0, 0, 0, 5, 0, 0, 0, 0, 0, 0, 0,
        1, 0, 0, 0] ++ List.replicate 8 0 ++ [15] ++ List.replicate 7 0 ++
        List.replicate 64 0) = .ok (1, 5, [(0, 15, ⟨0, 0, 0, 0, 0, 0, 0, 0⟩)]) ∧
    (5 : Nat) ≠ 1 ∧
    Replay02.replay_seek02 [83, 84, 65, 82, 50, 65, 1, 0, 0, 0, 0, 0, 0, 0, 0]
      ([83, 84, 65, 82, 73, 68, 88, 50, 1, 1, 0, 0, 0, 5, 0, 0, 0, 0, 0, 0, 0,
        1, 0, 0, 0] ++ List.replicate 8 0 ++ [15] ++ List.replicate 7 0 ++
        List.replicate 64 0) (some 0) 10 = .ok [⟨0, 0, 0, 0, 0, 0, 0, 0⟩] := by
  refine ⟨by rw [Case02.varint_decode02, varint_decode_core_eq]; decide, by decide,
    by decide, ?_⟩
  unfold Replay02.replay_seek02
  rw [if_pos (by decide)]
  rw [show Replay02.load_index02
      ([83, 84, 65, 82, 73, 68, 88, 50, 1, 1, 0, 0, 0, 5, 0, 0, 0, 0, 0, 0, 0,
        1, 0, 0, 0] ++ List.replicate 8 0 ++ [15] ++ List.replicate 7 0 ++
        List.replicate 64 0) = .ok (1, 5, [(0, 15, ⟨0, 0, 0, 0, 0, 0, 0, 0⟩)])
    from by decide]
  dsimp only
  rw [if_neg (by decide)]
  rw [if_neg (by decide)]
  rw [show (if (0 : Int) < 0 then (0 : Nat) else Int.toNat 0) = 0 from by decide]
  rw [show ([(0, 15, (⟨0, 0, 0, 0, 0, 0, 0, 0⟩ : AirTick))]).get?
      (Replay02.bestScan [(0, 15, ⟨0, 0, 0, 0, 0, 0, 0, 0⟩)] 0) =
      some (0, 15, ⟨0, 0, 0, 0, 0, 0, 0, 0⟩) from by decide]
  dsimp only
  unfold Replay02.replay_seek_core
  have hc : Replay02.catchLoop02 [83, 84, 65, 82, 50, 65, 1, 0, 0, 0, 0, 0, 0, 0, 0]
      0 0 15 ⟨0, 0, 0, 0, 0, 0, 0, 0⟩ = .ok (⟨0, 0, 0, 0, 0, 0, 0, 0⟩, 0, 15) := by
    rw [Replay02.catchLoop02, if_neg (by decide)]
  rw [hc]
  dsimp only
  have hcol : Replay02.collectLoop02 [83, 84, 65, 82, 50, 65, 1, 0, 0, 0, 0, 0, 0, 0, 0]
      (min 5 (0 + 10)) 0 15 ⟨0, 0, 0, 0, 0, 0, 0, 0⟩ [⟨0, 0, 0, 0, 0, 0, 0, 0⟩] =
      .ok [⟨0, 0, 0, 0, 0, 0, 0, 0⟩] := by
    rw [Replay02.collectLoop02, if_pos (by decide), dif_neg (by decide)]
  exact hcol

/-! ## Claim C8: anchor byte offsets and tag bytes -/

/-- Claim C8 (amended): on every encoder blob, every anchor of the index
builder either precedes the last row — and then its byte offset lands on a
tag byte, `0x00` or `0x01` — or sits on the last row, and then its byte
offset is exactly the end of the buffer (no tag byte follows the final
block). -/
theorem c8_anchor_tags :
    (∀ (b0 : Bar) (tl : List Bar) (ps ae : Nat),
      (b0 :: tl).length < 2 ^ 63 → ps < 2 ^ 63 →
      (∀ b ∈ b0 :: tl, barInRange b) →
      (∀ t ∈ Case01.deltasOf (b0 :: tl), tup6InRange t) →
      ∃ anchors,
        Index01.build_index (Case01.encode_star (b0 :: tl) ps) ae =
          .ok ((b0 :: tl).length, anchors) ∧
        anchors ≠ [] ∧
        ∀ a ∈ anchors,
          (a.1 + 1 < (b0 :: tl).length →
            a.2.1 < (Case01.encode_star (b0 :: tl) ps).length ∧
            ((Case01.encode_star (b0 :: tl) ps).getD a.2.1 2 = 0 ∨
             (Case01.encode_star (b0 :: tl) ps).getD a.2.1 2 = 1)) ∧
          (a.1 + 1 = (b0 :: tl).length →
            a.2.1 = (Case01.encode_star (b0 :: tl) ps).length)) ∧
    (∀ (b0 : AirTick) (tl : List AirTick) (ae : Nat), ae ≠ 0 →
      (b0 :: tl).length < 2 ^ 63 →
      (∀ b ∈ b0 :: tl, tickInRange b) →
      (∀ t ∈ Case02.deltas02 (b0 :: tl), tup8InRange t) →
      ∃ anchors,
        Index02.build_index02 (Case02.encode_star02 (b0 :: tl)) ae =
          .ok ((b0 :: tl).length, anchors) ∧
        anchors ≠ [] ∧
        ∀ a ∈ anchors,
          (a.1 + 1 < (b0 :: tl).length →
            a.2.1 < (Case02.encode_star02 (b0 :: tl)).length ∧
            ((Case02.encode_star02 (b0 :: tl)).getD a.2.1 2 = 0 ∨
             (Case02.encode_star02 (b0 :: tl)).getD a.2.1 2 = 1)) ∧
          (a.1 + 1 = (b0 :: tl).length →
            a.2.1 = (Case02.encode_star02 (b0 :: tl)).length)) := by
  constructor
  · intro b0 tl ps ae hn hps hrows hds
    obtain ⟨anchors, hbi, hne, hgood⟩ :=
      Index01.build_index_spec b0 tl ps ae hn hps hrows hds
    exact ⟨anchors, hbi, hne, fun a ha => Index01.goodAnchor_tag (hgood a ha)⟩
  · intro b0 tl ae hae hn hrows hds
    obtain ⟨anchors, hbi, hne, hgood⟩ :=
      Index02.build_index02_spec b0 tl ae hae hn hrows hds
    exact ⟨anchors, hbi, hne, fun a ha => Index02.goodAnchor02_tag (hgood a ha)⟩

/-- Concrete instance: three-row blobs so that a non-final anchor exists. -/
theorem c8_anchor_tags_witness :
    (∃ anchors,
      Index01.build_index
        (Case01.encode_star [⟨0, 0, 0, 0, 0, 0⟩, ⟨1, 1, 1, 1, 1, 1⟩, ⟨2, 2, 2, 2, 2, 2⟩] 3) 2 =
        .ok (([⟨0, 0, 0, 0, 0, 0⟩, ⟨1, 1, 1, 1, 1, 1⟩, ⟨2, 2, 2, 2, 2, 2⟩] : List Bar).length,
          anchors) ∧
      anchors ≠ [] ∧
      ∀ a ∈ anchors,
        (a.1 + 1 < ([⟨0, 0, 0, 0, 0, 0⟩, ⟨1, 1, 1, 1, 1, 1⟩, ⟨2, 2, 2, 2, 2, 2⟩] :
            List Bar).length →
          a.2.1 < (Case01.encode_star
            [⟨0, 0, 0, 0, 0, 0⟩, ⟨1, 1, 1, 1, 1, 1⟩, ⟨2, 2, 2, 2, 2, 2⟩] 3).length ∧
          ((Case01.encode_star
              [⟨0, 0, 0, 0, 0, 0⟩, ⟨1, 1, 1, 1, 1, 1⟩, ⟨2, 2, 2, 2, 2, 2⟩] 3).getD
              a.2.1 2 = 0 ∨
           (Case01.encode_star
              [⟨0, 0, 0, 0, 0, 0⟩, ⟨1, 1, 1, 1, 1, 1⟩, ⟨2, 2, 2, 2, 2, 2⟩] 3).getD
              a.2.1 2 = 1)) ∧
        (a.1 + 1 = ([⟨0, 0, 0, 0, 0, 0⟩, ⟨1, 1, 1, 1, 1, 1⟩, ⟨2, 2, 2, 2, 2, 2⟩] :
            List Bar).length →
          a.2.1 = (Case01.encode_star
            [⟨0, 0, 0, 0, 0, 0⟩, ⟨1, 1, 1, 1, 1, 1⟩, ⟨2, 2, 2, 2, 2, 2⟩] 3).length)) ∧
    (∃ anchors,
      Index02.build_index02
        (Case02.encode_star02 [⟨0, 0, 0, 0, 0, 0, 0, 0⟩, ⟨1, 1, 1, 1, 1, 1, 1, 1⟩,
          ⟨2, 2, 2, 2, 2, 2, 2, 2⟩]) 2 =
        .ok (([⟨0, 0, 0, 0, 0, 0, 0, 0⟩, ⟨1, 1, 1, 1, 1, 1, 1, 1⟩,
          ⟨2, 2, 2, 2, 2, 2, 2, 2⟩] : List AirTick).length, anchors) ∧
      anchors ≠ [] ∧
      ∀ a ∈ anchors,
        (a.1 + 1 < ([⟨0, 0, 0, 0, 0, 0, 0, 0⟩, ⟨1, 1, 1, 1, 1, 1, 1, 1⟩,
            ⟨2, 2, 2, 2, 2, 2, 2, 2⟩] : List AirTick).length →
          a.2.1 < (Case02.encode_star02 [⟨0, 0, 0, 0, 0, 0, 0, 0⟩,
            ⟨1, 1, 1, 1, 1, 1, 1, 1⟩, ⟨2, 2, 2, 2, 2, 2, 2, 2⟩]).length ∧
          ((Case02.encode_star02 [⟨0, 0, 0, 0, 0, 0, 0, 0⟩, ⟨1, 1, 1, 1, 1, 1, 1, 1⟩,
              ⟨2, 2, 2, 2, 2, 2, 2, 2⟩]).getD a.2.1 2 = 0 ∨
           (Case02.encode_star02 [⟨0, 0, 0, 0, 0, 0, 0, 0⟩, ⟨1, 1, 1, 1, 1, 1, 1, 1⟩,
              ⟨2, 2, 2, 2, 2, 2, 2, 2⟩]).getD a.2.1 2 = 1)) ∧
        (a.1 + 1 = ([⟨0, 0, 0, 0, 0, 0, 0, 0⟩, ⟨1, 1, 1, 1, 1, 1, 1, 1⟩,
            ⟨2, 2, 2, 2, 2, 2, 2, 2⟩] : List AirTick).length →
          a.2.1 = (Case02.encode_star02 [⟨0, 0, 0, 0, 0, 0, 0, 0⟩,
            ⟨1, 1, 1, 1, 1, 1, 1, 1⟩, ⟨2, 2, 2, 2, 2, 2, 2, 2⟩]).length)) :=
  ⟨c8_anchor_tags.1 ⟨0, 0, 0, 0, 0, 0⟩ [⟨1, 1, 1, 1, 1, 1⟩, ⟨2, 2, 2, 2, 2, 2⟩] 3 2
      (by norm_num) (by norm_num) (by decide) (by decide),
   c8_anchor_tags.2 ⟨0, 0, 0, 0, 0, 0, 0, 0⟩ [⟨1, 1, 1, 1, 1, 1, 1, 1⟩,
      ⟨2, 2, 2, 2, 2, 2, 2, 2⟩] 2 (by decide) (by norm_num) (by decide) (by decide)⟩

/-- The trailing anchor of a one-row blob sits at the end of the buffer:
byte offset 13 equals the blob length, where no byte — in particular no
tag byte — exists, so the original claim (every anchor points at a tag
byte) is false. -/
theorem c8_counterexample :
    Index01.build_index (Case01.encode_star [⟨1, 1, 1, 1, 1, 1⟩] 1) 4 =
      .ok (1, [(0, 13, ⟨1, 1, 1, 1, 1, 1⟩)]) ∧
    (Case01.encode_star [⟨1, 1, 1, 1, 1, 1⟩] 1).length = 13 ∧
    (Case01.encode_star [⟨1, 1, 1, 1, 1, 1⟩] 1).getD 13 2 ≠ 0 ∧
    (Case01.encode_star [⟨1, 1, 1, 1, 1, 1⟩] 1).getD 13 2 ≠ 1 := by
  have henc : Case01.encode_star [⟨1, 1, 1, 1, 1, 1⟩] 1 =
      [83, 84, 65, 82, 49, 1, 1, 2, 2, 2, 2, 2, 2] := by
    unfold Case01.encode_star
    dsimp only
    rw [show Case01.deltasOf [⟨1, 1, 1, 1, 1, 1⟩] = [] from rfl, encode_body_nil_eval,
      bar_zz_one_eval]
    simp only [List.length_cons, List.length_nil, Nat.zero_add]
    rw [varint_encode_small (by norm_num)]
    decide
  refine ⟨?_, by rw [henc]; decide, by rw [henc]; decide, by rw [henc]; decide⟩
  rw [henc]
  have hp : Index01.parse_star1_header [83, 84, 65, 82, 49, 1, 1, 2, 2, 2, 2, 2, 2] =
      .ok (1, 1, ⟨1, 1, 1, 1, 1, 1⟩, 13) := by
    unfold Index01.parse_star1_header
    rw [if_pos (by decide)]
    have hv1 : Case01.varint_decode [83, 84, 65, 82, 49, 1, 1, 2, 2, 2, 2, 2, 2] 5 =
        .ok (1, 6) := by
      rw [Case01.varint_decode, varint_decode_core_eq]; decide
    rw [hv1]
    dsimp only
    rw [if_neg (by decide)]
    have hv2 : Case01.varint_decode [83, 84, 65, 82, 49, 1, 1, 2, 2, 2, 2, 2, 2] 6 =
        .ok (1, 7) := by
      rw [Case01.varint_decode, varint_decode_core_eq]; decide
    rw [hv2]
    dsimp only
    have hd : ([83, 84, 65, 82, 49, 1, 1, 2, 2, 2, 2, 2, 2] : List Nat).drop 7 =
        Case01.encTup6 ((1 : Int), 1, 1, 1, 1, 1) ++ [] := by
      rw [encTup6_one_eval]; decide
    have ht0 := Case01.read_tup6_drop (by decide) hd
    rw [encTup6_one_eval] at ht0
    have ht : Case01.read_tup6 [83, 84, 65, 82, 49, 1, 1, 2, 2, 2, 2, 2, 2] 7 =
        .ok (((1 : Int), 1, 1, 1, 1, 1), 13) := ht0
    rw [ht]
    rfl
  unfold Index01.build_index
  rw [hp]
  dsimp only
  rw [if_neg (by decide)]
  have hil : Index01.indexLoop [83, 84, 65, 82, 49, 1, 1, 2, 2, 2, 2, 2, 2] 4 1 0 13
      ⟨1, 1, 1, 1, 1, 1⟩ [(0, 13, ⟨1, 1, 1, 1, 1, 1⟩)] =
      .ok (0, 13, ⟨1, 1, 1, 1, 1, 1⟩, [(0, 13, ⟨1, 1, 1, 1, 1, 1⟩)]) := by
    rw [Index01.indexLoop, if_neg (by decide)]
  rw [hil]
  dsimp only
  rw [if_neg (by decide)]

/-! ## Claim C9: the SHA-256 binding check of cases 03 and 04 -/

/-- Claim C9: both replayers hash the STAR file and compare its hex digest
with the hex rendering of the 32 stored digest bytes: equality passes the
binding check (the run never ends in the binding error), and — digests
being genuine byte strings — any disagreement fails with exactly the
binding-mismatch error before any row is emitted. -/
theorem c9_binding :
    (∀ (star_sha idx_buf : List Nat) (idx : Replay34.Idx34),
      Replay34.load_index03 idx_buf = .ok idx →
      idx.sha_hex = Replay34.hexPairs star_sha →
      ∀ (s : Int) (rows : Nat),
        Replay34.main34 Replay34.load_index03 star_sha idx_buf s rows ≠
          .error .bindingMismatch) ∧
    (∀ (star_sha idx_buf : List Nat) (idx : Replay34.Idx34) (stored : List Nat),
      Replay34.load_index03 idx_buf = .ok idx →
      idx.sha_hex = Replay34.hexPairs stored →
      (∀ x ∈ stored, x < 256) → (∀ x ∈ star_sha, x < 256) → stored ≠ star_sha →
      ∀ (s : Int) (rows : Nat),
        Replay34.main34 Replay34.load_index03 star_sha idx_buf s rows =
          .error .bindingMismatch) ∧
    (∀ (star_sha idx_buf : List Nat) (idx : Replay34.Idx34),
      Replay34.load_index04 idx_buf = .ok idx →
      idx.sha_hex = Replay34.hexPairs star_sha →
      ∀ (s : Int) (rows : Nat),
        Replay34.main34 Replay34.load_index04 star_sha idx_buf s rows ≠
          .error .bindingMismatch) ∧
    (∀ (star_sha idx_buf : List Nat) (idx : Replay34.Idx34) (stored : List Nat),
      Replay34.load_index04 idx_buf = .ok idx →
      idx.sha_hex = Replay34.hexPairs stored →
      (∀ x ∈ stored, x < 256) → (∀ x ∈ star_sha, x < 256) → stored ≠ star_sha →
      ∀ (s : Int) (rows : Nat),
        Replay34.main34 Replay34.load_index04 star_sha idx_buf s rows =
          .error .bindingMismatch) :=
  ⟨fun _ _ _ hl hs s rows => Replay34.main34_match hl hs s rows,
   fun _ _ _ _ hl hs h1 h2 hne s rows =>
     Replay34.main34_mismatch hl hs h1 h2 hne s rows,
   fun _ _ _ hl hs s rows => Replay34.main34_match hl hs s rows,
   fun _ _ _ _ hl hs h1 h2 hne s rows =>
     Replay34.main34_mismatch hl hs h1 h2 hne s rows⟩

/-- Concrete instance: an all-zero digest index in each case, checked
against the matching digest and against a differing one. -/
theorem c9_binding_witness :
    Replay34.main34 Replay34.load_index03 (List.replicate 32 0)
      ([83, 84, 65, 82, 73, 68, 88, 48, 51, 0] ++ List.replicate 56 0) 0 3 ≠
      .error .bindingMismatch ∧
    Replay34.main34 Replay34.load_index03 (1 :: List.replicate 31 0)
      ([83, 84, 65, 82, 73, 68, 88, 48, 51, 0] ++ List.replicate 56 0) 0 3 =
      .error .bindingMismatch ∧
    Replay34.main34 Replay34.load_index04 (List.replicate 32 0)
      ([83, 84, 65, 82, 73, 68, 88, 48, 52, 0] ++ List.replicate 56 0) 0 3 ≠
      .error .bindingMismatch ∧
    Replay34.main34 Replay34.load_index04 (1 :: List.replicate 31 0)
      ([83, 84, 65, 82, 73, 68, 88, 48, 52, 0] ++ List.replicate 56 0) 0 3 =
      .error .bindingMismatch := by
  have hl3 : Replay34.load_index03
      ([83, 84, 65, 82, 73, 68, 88, 48, 51, 0] ++ List.replicate 56 0) =
      .ok ⟨0, 0, Replay34.hexPairs (List.replicate 32 0), []⟩ := by decide
  have hl4 : Replay34.load_index04
      ([83, 84, 65, 82, 73, 68, 88, 48, 52, 0] ++ List.replicate 56 0) =
      .ok ⟨0, 0, Replay34.hexPairs (List.replicate 32 0), []⟩ := by decide
  exact ⟨c9_binding.1 _ _ _ hl3 rfl 0 3,
    c9_binding.2.1 _ _ _ (List.replicate 32 0) hl3 rfl (by decide) (by decide)
      (by decide) 0 3,
    c9_binding.2.2.1 _ _ _ hl4 rfl 0 3,
    c9_binding.2.2.2 _ _ _ (List.replicate 32 0) hl4 rfl (by decide) (by decide)
      (by decide) 0 3⟩

/-! ## Claim C10: termination of `varint_encode` -/

/-- Claim C10 (amended): `varint_encode` is total on the naturals and
always returns at least one byte; on negative inputs the Python loop
(`varint_encodeF`, the fuelled transcription) never terminates; zigzag
values are always non-negative, so every **zig-zag** varint call of the
case-01/02 encoders terminates — but case 01 also passes its raw CLI
`price_scale` to the loop, where a negative value diverges. -/
theorem c10_termination :
    (∀ u : Nat, 1 ≤ (varint_encode u).length) ∧
    (∀ u : Nat, ∃ fuel, varint_encodeF fuel (Int.ofNat u) = some (varint_encode u)) ∧
    (∀ x : Int, x < 0 → ∀ fuel, varint_encodeF fuel x = none) ∧
    (∀ x : Int, 0 ≤ zigzag_encode x) :=
  ⟨fun u => varint_encode_length_pos u,
   fun u => ⟨(varint_encode u).length, varint_encodeF_nonneg _ u le_rfl⟩,
   fun x hx fuel => varint_encodeF_neg fuel x hx,
   fun x => zigzag_encode_nonneg x⟩

/-- Concrete instance at `u = 5`, `x = -2` and `x = -7`. -/
theorem c10_termination_witness :
    1 ≤ (varint_encode 5).length ∧
    (∃ fuel, varint_encodeF fuel (Int.ofNat 5) = some (varint_encode 5)) ∧
    varint_encodeF 3 (-2) = none ∧
    0 ≤ zigzag_encode (-7) :=
  ⟨c10_termination.1 5, c10_termination.2.1 5,
   c10_termination.2.2.1 (-2) (by norm_num) 3, c10_termination.2.2.2 (-7)⟩

/-- No amount of fuel makes the encoding loop return on the negative input
`-1`: a negative case-01 `price_scale` never terminates, so the original
claim (every encoder call terminates) is false. -/
theorem c10_counterexample : ¬ ∃ fuel out, varint_encodeF fuel (-1) = some out := by
  rintro ⟨fuel, out, h⟩
  rw [varint_encodeF_neg fuel (-1) (by norm_num)] at h
  exact Option.noConfusion h

end STAR
